import Mathlib

/-!
# GrizzlyUi — verification of the model↔script transducer core

Shallow embedding of the core of `src/src/GrizzlyMapper.jsx` (the main
variant, lines 349–1604): the transformation registry, the code
generator `generateCode`, the template parser `parseTemplate`, the
change diff engine `calculateChanges`, and the Model-mutating
operations (`updateModuleName`, `deleteModule`, module/mapping
editing, template load).

JavaScript strings are embedded as `List Char` (`Str`); JS string
methods (`trim`, `split`, `join`, regex matching) are implemented as
explicit Lean functions on `Str`, each mirroring the exact JS
construct of the source (documented at each definition).
-/

/-- JS strings are modelled as lists of characters. -/
abbrev Str := List Char

/-- Literal embedding of a JS string constant. -/
def lit (s : String) : Str := s.data

/-- JS `\w` word character class: `[A-Za-z0-9_]`. -/
def isWordChar (c : Char) : Bool := c.isAlpha || c.isDigit || c == '_'

/-- Whitespace for JS `trim` / `\s` (restricted to the ASCII whitespace
characters, which are the only ones the generator ever emits). -/
def isWS (c : Char) : Bool := c == ' ' || c == '\t' || c == '\n' || c == '\r'

/-- JS `String.prototype.trim`: drop whitespace from both ends. -/
def trim (l : Str) : Str := ((l.dropWhile isWS).reverse.dropWhile isWS).reverse

/-- JS `String.prototype.split(sep)` for a one-character separator:
always returns at least one (possibly empty) piece. -/
def splitOnChar (sep : Char) : Str → List Str
  | [] => [[]]
  | c :: rest =>
    let r := splitOnChar sep rest
    if c == sep then [] :: r
    else
      match r with
      | [] => [[c]]
      | s :: tail => (c :: s) :: tail

/-- JS `Array.prototype.join(sep)` for a one-character separator. -/
def joinWithChar (sep : Char) : List Str → Str
  | [] => []
  | [s] => s
  | s :: rest => s ++ sep :: joinWithChar sep rest

/-- JS `x || d` for a possibly-undefined / possibly-empty string
property `x` with string default `d` (both `undefined` and `""` are
falsy). -/
def orDefault (v : Option Str) (d : Str) : Str :=
  match v with
  | some s => if s.isEmpty then d else s
  | none => d

/-!
## Mapping model -/

/-- The JS value of a `transform` property, as the strict (`!==`)
compares of `calculateChanges` observe it.  The three states are all
reachable and all distinct to `!==`: the property is *absent*
(`undefined`) on mappings built by `addMapping`/`autoMap`, which
never create it; it is *`null`* when `DirectEditor` stores
`e.target.value || null` for the empty select option or when
`parseTemplate` stores `simpleMatch[3] || null` for an assignment
without a transform suffix; and it is a *string* otherwise. -/
inductive JTransform where
  | absent
  | null
  | str (s : Str)
deriving DecidableEq, Repr

/-- JS truthiness/equality read of a `transform` property where only
its string content matters (every generator compare tests `===`
against a non-empty name or plain truthiness, on which `null` and
`undefined` agree). -/
def JTransform.toOption : JTransform → Option Str
  | .str s => some s
  | _ => none

/-- `match[3] || null`: an assignment's captured transform suffix
stored by `parseTemplate` (`||` turns both a missing capture and an
empty one into `null`). -/
def parsedTransform (cap : Option Str) : JTransform :=
  match cap with
  | some w => if w.isEmpty then .null else .str w
  | none => .null

/-- A `Mapping` is the tagged variant stored in a module's `mappings`
array.  The variants mirror the shapes actually constructed by the
source (the UI editors, `addMapping`, `addModuleCall` and
`parseTemplate`); `unknown` stands for a field mapping whose
`transformation` string is arbitrary (it can be any string, including
one of the registry names — the registry is always consulted by
string lookup, as in the source).

JS property conventions mirrored by the accessors below: a property
that a variant does not carry reads as `undefined` (`none`).
`direct.transform` and `conditional.transform` are three-state
(`JTransform`): absent, `null` and string are distinct to the diff
engine's `!==`.  `conditional.source` records the residual `source`
property a UI-built conditional keeps from `addMapping`'s
`{source: ""}` through the `{...old, ...updates}` merge of
`updateMapping` (`parseTemplate` builds conditionals without it).
Residual properties on the remaining variants that no embedded
operation reads or writes (for example a `transform` left on a
mapping switched to `for_loop`) are not carried; each variant stands
for the JS objects holding exactly the listed properties. -/
inductive Mapping where
  | direct (target source : Str) (transform : JTransform)
  | conditional (target condField condOp condValue thenValue elseValue : Str)
      (source : Option Str) (transform : JTransform)
  | moduleCall (moduleName : Str)
  | forLoop (target : Str) (loopVar iterable : Option Str)
  | ifBlock (target : Str) (ifType condition : Option Str)
  | breakStmt (target : Str)
  | continueStmt (target : Str)
  | datetimeParse (target : Str) (varName source format : Option Str)
  | datetimeFormat (target : Str) (dateVar format : Option Str)
  | datetimeAdd (target : Str) (varName operation amount source : Option Str)
  | decimalMapping (target : Str) (decimalOp varName source resultVar value1 value2 decimals : Option Str)
  | regexMapping (target : Str) (regexOp pattern source replacement : Option Str)
  | unknown (transformation : Str) (target : Str)
deriving DecidableEq, Repr

/-- JS read of `m.target` (`undefined` only for module calls). -/
def Mapping.targetAttr : Mapping → Option Str
  | .direct t _ _ => some t
  | .conditional t _ _ _ _ _ _ _ => some t
  | .moduleCall _ => none
  | .forLoop t _ _ => some t
  | .ifBlock t _ _ => some t
  | .breakStmt t => some t
  | .continueStmt t => some t
  | .datetimeParse t _ _ _ => some t
  | .datetimeFormat t _ _ => some t
  | .datetimeAdd t _ _ _ _ => some t
  | .decimalMapping t _ _ _ _ _ _ _ => some t
  | .regexMapping t _ _ _ _ => some t
  | .unknown _ t => some t

/-- JS read of `m.transformation`. -/
def Mapping.transformationOf : Mapping → Option Str
  | .direct _ _ _ => some (lit "direct")
  | .conditional _ _ _ _ _ _ _ _ => some (lit "conditional")
  | .moduleCall _ => none
  | .forLoop _ _ _ => some (lit "for_loop")
  | .ifBlock _ _ _ => some (lit "if_block")
  | .breakStmt _ => some (lit "break")
  | .continueStmt _ => some (lit "continue")
  | .datetimeParse _ _ _ _ => some (lit "datetime_parse")
  | .datetimeFormat _ _ _ => some (lit "datetime_format")
  | .datetimeAdd _ _ _ _ _ => some (lit "datetime_add")
  | .decimalMapping _ _ _ _ _ _ _ _ => some (lit "decimal")
  | .regexMapping _ _ _ _ _ => some (lit "regex")
  | .unknown k _ => some k

/-- JS read of `m.type` (`"module_call"` or `"field"`; every mapping
built by the main variant carries one of the two). -/
def Mapping.typeOf : Mapping → Str
  | .moduleCall _ => lit "module_call"
  | _ => lit "field"

/-- JS read of `m.source`. -/
def Mapping.sourceAttr : Mapping → Option Str
  | .direct _ s _ => some s
  | .conditional _ _ _ _ _ _ src _ => src
  | .datetimeParse _ _ s _ => s
  | .datetimeAdd _ _ _ _ s => s
  | .decimalMapping _ _ _ s _ _ _ _ => s
  | .regexMapping _ _ _ s _ => s
  | _ => none

/-- JS truthiness/equality read of `m.transform` (the generators only
compare it with `===` against non-empty names or test it for
truthiness, so `null` and `undefined` coincide here). -/
def Mapping.transformAttr : Mapping → Option Str
  | .direct _ _ tr => tr.toOption
  | .conditional _ _ _ _ _ _ _ tr => tr.toOption
  | _ => none

/-- JS read of `m.transform` as the diff engine's strict `!==` sees
it: `undefined`, `null` and each string are pairwise distinct. -/
def Mapping.transformProp : Mapping → JTransform
  | .direct _ _ tr => tr
  | .conditional _ _ _ _ _ _ _ tr => tr
  | _ => .absent

/-- JS read of `m.moduleName`. -/
def Mapping.moduleNameAttr : Mapping → Option Str
  | .moduleCall n => some n
  | _ => none

def Mapping.condFieldAttr : Mapping → Option Str
  | .conditional _ f _ _ _ _ _ _ => some f
  | _ => none

def Mapping.condOpAttr : Mapping → Option Str
  | .conditional _ _ op _ _ _ _ _ => some op
  | _ => none

def Mapping.condValueAttr : Mapping → Option Str
  | .conditional _ _ _ v _ _ _ _ => some v
  | _ => none

def Mapping.thenValueAttr : Mapping → Option Str
  | .conditional _ _ _ _ tv _ _ _ => some tv
  | _ => none

def Mapping.elseValueAttr : Mapping → Option Str
  | .conditional _ _ _ _ _ ev _ _ => some ev
  | _ => none

def Mapping.loopVarAttr : Mapping → Option Str
  | .forLoop _ v _ => v
  | _ => none

def Mapping.iterableAttr : Mapping → Option Str
  | .forLoop _ _ it => it
  | _ => none

def Mapping.ifTypeAttr : Mapping → Option Str
  | .ifBlock _ it _ => it
  | _ => none

def Mapping.conditionAttr : Mapping → Option Str
  | .ifBlock _ _ c => c
  | _ => none

def Mapping.varNameAttr : Mapping → Option Str
  | .datetimeParse _ v _ _ => v
  | .datetimeAdd _ v _ _ _ => v
  | .decimalMapping _ _ v _ _ _ _ _ => v
  | _ => none

def Mapping.formatAttr : Mapping → Option Str
  | .datetimeParse _ _ _ f => f
  | .datetimeFormat _ _ f => f
  | _ => none

def Mapping.dateVarAttr : Mapping → Option Str
  | .datetimeFormat _ d _ => d
  | _ => none

def Mapping.operationAttr : Mapping → Option Str
  | .datetimeAdd _ _ op _ _ => op
  | _ => none

def Mapping.amountAttr : Mapping → Option Str
  | .datetimeAdd _ _ _ a _ => a
  | _ => none

def Mapping.decimalOpAttr : Mapping → Option Str
  | .decimalMapping _ op _ _ _ _ _ _ => op
  | _ => none

def Mapping.resultVarAttr : Mapping → Option Str
  | .decimalMapping _ _ _ _ r _ _ _ => r
  | _ => none

def Mapping.value1Attr : Mapping → Option Str
  | .decimalMapping _ _ _ _ _ v _ _ => v
  | _ => none

def Mapping.value2Attr : Mapping → Option Str
  | .decimalMapping _ _ _ _ _ _ v _ => v
  | _ => none

def Mapping.decimalsAttr : Mapping → Option Str
  | .decimalMapping _ _ _ _ _ _ _ d => d
  | _ => none

def Mapping.regexOpAttr : Mapping → Option Str
  | .regexMapping _ op _ _ _ => op
  | _ => none

def Mapping.patternAttr : Mapping → Option Str
  | .regexMapping _ _ p _ _ => p
  | _ => none

def Mapping.replacementAttr : Mapping → Option Str
  | .regexMapping _ _ _ _ r => r
  | _ => none

/-!
## Transformation registry (`TRANSFORMATION_PLUGINS`)

Each `generate` below is the plugin's `generate(m)` from the source,
reading JS properties through the accessors (so that, as in JS, a
mapping tagged with a registry kind it was not shaped for still
renders through the fallback defaults). -/

/-- `TRANSFORMATION_PLUGINS.direct.generate`. -/
def directGenerate (m : Mapping) : Str :=
  let src := orDefault m.sourceAttr (lit "source")
  let code := lit "INPUT." ++ src
  if m.transformAttr == some (lit "upper") then code ++ lit ".upper()"
  else if m.transformAttr == some (lit "lower") then code ++ lit ".lower()"
  else if m.transformAttr == some (lit "capitalize") then code ++ lit ".capitalize()"
  else
    match m.transformAttr with
    | some tr => if tr.isEmpty then code else tr ++ lit "(" ++ code ++ lit ")"
    | none => code

/-- `TRANSFORMATION_PLUGINS.conditional.generate`. -/
def conditionalGenerate (m : Mapping) : Str :=
  let field := orDefault m.condFieldAttr (lit "field")
  let op := orDefault m.condOpAttr (lit "==")
  let val := orDefault m.condValueAttr (lit "value")
  let thenV := orDefault m.thenValueAttr (lit "value1")
  let elseV := orDefault m.elseValueAttr (lit "value2")
  let thenCode := if thenV.contains '.' then lit "INPUT." ++ thenV else '"' :: thenV ++ ['"']
  let elseCode := if elseV.contains '.' then lit "INPUT." ++ elseV else '"' :: elseV ++ ['"']
  thenCode ++ lit " if INPUT." ++ field ++ [' '] ++ op ++ lit " \"" ++ val ++ lit "\" else " ++ elseCode

/-- `TRANSFORMATION_PLUGINS.for_loop.generate`. -/
def forLoopGenerate (m : Mapping) : Str :=
  lit "for " ++ orDefault m.loopVarAttr (lit "item") ++ lit " in " ++
    orDefault m.iterableAttr (lit "items") ++ lit ":"

/-- `TRANSFORMATION_PLUGINS.if_block.generate`. -/
def ifBlockGenerate (m : Mapping) : Str :=
  if m.ifTypeAttr == some (lit "else") then lit "else:"
  else if m.ifTypeAttr == some (lit "elif") then
    lit "elif " ++ orDefault m.conditionAttr (lit "condition") ++ lit ":"
  else lit "if " ++ orDefault m.conditionAttr (lit "condition") ++ lit ":"

/-- `TRANSFORMATION_PLUGINS.break.generate`. -/
def breakGenerate (_ : Mapping) : Str := lit "break"

/-- `TRANSFORMATION_PLUGINS.continue.generate`. -/
def continueGenerate (_ : Mapping) : Str := lit "continue"

/-- `TRANSFORMATION_PLUGINS.datetime_parse.generate`. -/
def datetimeParseGenerate (m : Mapping) : Str :=
  orDefault m.varNameAttr (lit "date") ++ lit " = parseDate(" ++
    orDefault m.sourceAttr (lit "INPUT.date") ++ lit ", \"" ++
    orDefault m.formatAttr (lit "yyyyMMdd") ++ lit "\")"

/-- `TRANSFORMATION_PLUGINS.datetime_format.generate`. -/
def datetimeFormatGenerate (m : Mapping) : Str :=
  lit "formatDate(" ++ orDefault m.dateVarAttr (lit "date") ++ lit ", \"" ++
    orDefault m.formatAttr (lit "yyyy-MM-dd") ++ lit "\")"

/-- `TRANSFORMATION_PLUGINS.datetime_add.generate`. -/
def datetimeAddGenerate (m : Mapping) : Str :=
  orDefault m.varNameAttr (lit "newDate") ++ lit " = " ++
    orDefault m.operationAttr (lit "addDays") ++ lit "(" ++
    orDefault m.sourceAttr (lit "date") ++ lit ", " ++
    orDefault m.amountAttr (lit "1") ++ lit ")"

/-- `TRANSFORMATION_PLUGINS.decimal.generate`. -/
def decimalGenerate (m : Mapping) : Str :=
  if m.decimalOpAttr == some (lit "create") then
    orDefault m.varNameAttr (lit "amount") ++ lit " = Decimal(" ++
      orDefault m.sourceAttr (lit "\"0\"") ++ lit ")"
  else if m.decimalOpAttr == some (lit "add") then
    orDefault m.resultVarAttr (lit "result") ++ lit " = " ++
      orDefault m.value1Attr (lit "val1") ++ lit " + " ++ orDefault m.value2Attr (lit "val2")
  else if m.decimalOpAttr == some (lit "subtract") then
    orDefault m.resultVarAttr (lit "result") ++ lit " = " ++
      orDefault m.value1Attr (lit "val1") ++ lit " - " ++ orDefault m.value2Attr (lit "val2")
  else if m.decimalOpAttr == some (lit "multiply") then
    orDefault m.resultVarAttr (lit "result") ++ lit " = " ++
      orDefault m.value1Attr (lit "val1") ++ lit " * " ++ orDefault m.value2Attr (lit "val2")
  else if m.decimalOpAttr == some (lit "divide") then
    orDefault m.resultVarAttr (lit "result") ++ lit " = " ++
      orDefault m.value1Attr (lit "val1") ++ lit " / " ++ orDefault m.value2Attr (lit "val2")
  else if m.decimalOpAttr == some (lit "round") then
    lit "round(" ++ orDefault m.sourceAttr (lit "amount") ++ lit ", " ++
      orDefault m.decimalsAttr (lit "2") ++ lit ")"
  else lit "Decimal(\"0\")"

/-- `TRANSFORMATION_PLUGINS.regex.generate`. -/
def regexGenerate (m : Mapping) : Str :=
  let pattern := orDefault m.patternAttr (lit "pattern")
  let source := orDefault m.sourceAttr (lit "INPUT.text")
  if m.regexOpAttr == some (lit "match") then
    lit "re.match(r\"" ++ pattern ++ lit "\", " ++ source ++ lit ")"
  else if m.regexOpAttr == some (lit "search") then
    lit "re.search(r\"" ++ pattern ++ lit "\", " ++ source ++ lit ")"
  else if m.regexOpAttr == some (lit "findall") then
    lit "re.findall(r\"" ++ pattern ++ lit "\", " ++ source ++ lit ")"
  else if m.regexOpAttr == some (lit "replace") then
    lit "re.sub(r\"" ++ pattern ++ lit "\", \"" ++
      (m.replacementAttr.getD []) ++ lit "\", " ++ source ++ lit ")"
  else if m.regexOpAttr == some (lit "split") then
    lit "re.split(r\"" ++ pattern ++ lit "\", " ++ source ++ lit ")"
  else lit "re.match(r\"" ++ pattern ++ lit "\", " ++ source ++ lit ")"

/-- `TRANSFORMATION_PLUGINS[kind]` looked up by the mapping's
`transformation` string, returning the plugin's `generate`
(`none` models an absent plugin, i.e. `!Plugin`). -/
def pluginGenerate (kind : Option Str) : Option (Mapping → Str) :=
  match kind with
  | none => none
  | some k =>
    if k == lit "direct" then some directGenerate
    else if k == lit "conditional" then some conditionalGenerate
    else if k == lit "for_loop" then some forLoopGenerate
    else if k == lit "if_block" then some ifBlockGenerate
    else if k == lit "break" then some breakGenerate
    else if k == lit "continue" then some continueGenerate
    else if k == lit "datetime_parse" then some datetimeParseGenerate
    else if k == lit "datetime_format" then some datetimeFormatGenerate
    else if k == lit "datetime_add" then some datetimeAddGenerate
    else if k == lit "decimal" then some decimalGenerate
    else if k == lit "regex" then some regexGenerate
    else none

/-!
## GModule and code generator (`generateCode`, main variant)
The `id` field of JS modules/mappings is omitted: it is minted by
`uid()` and is never read by the generator, the parser's output
consumers, the diff engine, or any of the modelled operations. -/

structure GModule where
  name : Str
  mappings : List Mapping
deriving DecidableEq, Repr

/-- One `["segment"]` bracket of an assignment's left-hand side. -/
def bracketPart (p : Str) : Str := lit "[\"" ++ p ++ lit "\"]"

/-- The assignment statement for a field mapping with target `target`
and right-hand side `code`: `targetPath = m.target.split(".")`, one
bracket for a single-segment path, a joined bracket chain otherwise. -/
def assignmentLine (target code : Str) : Str :=
  let targetPath := splitOnChar '.' target
  if targetPath.length == 1 then
    lit "    OUTPUT[\"" ++ targetPath.headD [] ++ lit "\"] = " ++ code
  else
    lit "    OUTPUT" ++ (targetPath.map bracketPart).flatten ++ lit " = " ++ code

/-- Lines contributed by one field mapping (the
`if (!Plugin || !m.target) return;` skip of the source). -/
def fieldMappingLines (m : Mapping) : List Str :=
  match pluginGenerate m.transformationOf with
  | none => []
  | some gen =>
    match m.targetAttr with
    | none => []
    | some t => if t.isEmpty then [] else [assignmentLine t (gen m)]

/-- Lines contributed by one mapping of a helper (non-`main`) module:
a module call emits a comment plus the call, anything else goes
through the field-mapping rule. -/
def helperMappingLines (m : Mapping) : List Str :=
  match m with
  | .moduleCall n =>
    [lit "    # Call " ++ n ++ lit " module",
     lit "    map_" ++ n ++ lit "(INPUT, OUTPUT)"]
  | _ => fieldMappingLines m

/-- Lines contributed by one mapping of the `main` module (module
calls additionally push a `"    "` spacer line). -/
def mainMappingLines (m : Mapping) : List Str :=
  match m with
  | .moduleCall n =>
    [lit "    # Call " ++ n ++ lit " module",
     lit "    map_" ++ n ++ lit "(INPUT, OUTPUT)",
     lit "    "]
  | _ => fieldMappingLines m

/-- STEP 1 of `generateCode`: the block of one helper module
(skipped for `main` and for modules with no mappings). -/
def helperModuleLines (mod : GModule) : List Str :=
  if mod.name == lit "main" || mod.mappings.isEmpty then []
  else
    (lit "def map_" ++ mod.name ++ lit "(INPUT, OUTPUT):") ::
    (lit "    \"\"\"" ++ mod.name ++ lit " mappings\"\"\"") ::
    ((mod.mappings.map helperMappingLines).flatten ++ [[]])

/-- STEP 2 of `generateCode`: the entry-point block for the first
module named `main`, emitted last (nothing if no module is named
`main`). -/
def mainModuleLines (modules : List GModule) : List Str :=
  match modules.find? (fun mod => mod.name == lit "main") with
  | none => []
  | some mainMod =>
    [lit "def transform(INPUT):",
     lit "    \"\"\"Main transformation\"\"\"",
     lit "    OUTPUT = \x7b\x7d",
     lit "    "] ++
    (mainMod.mappings.map mainMappingLines).flatten ++
    [lit "    ", lit "    return OUTPUT"]

/-- `generateCode` of the main variant, as the list of emitted lines:
fixed header, optional `import re`, helper modules in model order,
then the `main` entry point. -/
def generateLines (modules : List GModule) : List Str :=
  [lit "#!/usr/bin/env python3",
   lit "# GRIZZLY_TEMPLATE_V1",
   lit "\"\"\"",
   lit "Generated by Grizzly",
   lit "\"\"\"",
   []] ++
  (if modules.any (fun mod => mod.mappings.any (fun m => m.transformationOf == some (lit "regex")))
   then [lit "import re", []] else []) ++
  (modules.map helperModuleLines).flatten ++
  mainModuleLines modules

/-- `generateCode`: the emitted lines joined with `"\n"`. -/
def generateCode (modules : List GModule) : Str :=
  joinWithChar '\n' (generateLines modules)

/-!
## Template parser (`parseTemplate`)

Each JS regex of the source is implemented as an explicit recognizer.
All the regexes involved are deterministic in the sense that no
backtracking choice can change success or captures, except for the
two places noted below (the greedy `(.+)` of the conditional pattern,
and the `\s*` before it), which are implemented as explicit searches
in the same preference order the JS engine uses.  Unanchored regexes
are implemented as a scan that attempts the pattern at every start
position, left to right, as `String.prototype.match` does. -/

/-- Consume the exact literal `p` from the front of `l`. -/
def dropLit : Str → Str → Option Str
  | [], l => some l
  | _ :: _, [] => none
  | a :: p, b :: l => if a == b then dropLit p l else none

/-- `/^def transform\(INPUT\):/` on the trimmed line (no end anchor). -/
def matchDefTransform (l : Str) : Bool :=
  (dropLit (lit "def transform(INPUT):") l).isSome

/-- `/^def map_(\w+)\(INPUT, OUTPUT\):/`: the greedy `\w+` capture is
the maximal word-character run (no backtracking is possible because
the literal that follows starts with `(`, which is not a word
character). -/
def matchDefModule (l : Str) : Option Str :=
  match dropLit (lit "def map_") l with
  | none => none
  | some rest =>
    let name := rest.takeWhile isWordChar
    if name.isEmpty then none
    else if (dropLit (lit "(INPUT, OUTPUT):") (rest.drop name.length)).isSome then some name
    else none

/-- `trimmed.startsWith("def ")`. -/
def startsWithDef (l : Str) : Bool := (dropLit (lit "def ") l).isSome

/-- `/^def (transform|map_\w+)\(INPUT, OUTPUT\):/` — the guard of the
close-current-module branch (note: `transform` here is followed by
`(INPUT, OUTPUT):`, unlike the entry-point signature). -/
def matchDefEither (l : Str) : Bool :=
  (dropLit (lit "def transform(INPUT, OUTPUT):") l).isSome ||
  (match dropLit (lit "def map_") l with
   | none => false
   | some rest =>
     let name := rest.takeWhile isWordChar
     !name.isEmpty && (dropLit (lit "(INPUT, OUTPUT):") (rest.drop name.length)).isSome)

/-- `/^map_(\w+)\(INPUT, OUTPUT\)/` (module-call statement). -/
def matchModuleCall (l : Str) : Option Str :=
  match dropLit (lit "map_") l with
  | none => none
  | some rest =>
    let name := rest.takeWhile isWordChar
    if name.isEmpty then none
    else if (dropLit (lit "(INPUT, OUTPUT)") (rest.drop name.length)).isSome then some name
    else none

/-- The optional `(?:\.(\w+)\(\))?` group shared by the simple
pattern: a greedy word run between a dot and `()`, or nothing. -/
def optTransform : Str → Option Str
  | '.' :: r8 =>
    let w := r8.takeWhile isWordChar
    if w.isEmpty then none
    else if (dropLit (lit "()") (r8.drop w.length)).isSome then some w
    else none
  | _ => none

/-- One anchored attempt of
`OUTPUT\["([^"]+)"\]\s*=\s*INPUT\.([^\s.]+)(?:\.(\w+)\(\))?`
at the start of `l`.  `([^"]+)` necessarily ends at the first `"`;
each `\s*` is followed by a non-whitespace requirement, so it is the
maximal whitespace run; `([^\s.]+)` is the maximal run and never
backtracks because the regex succeeds whether or not the trailing
optional group matches. -/
def attemptSimple (l : Str) : Option (Str × Str × Option Str) :=
  match dropLit (lit "OUTPUT[\"") l with
  | none => none
  | some r1 =>
    let target := r1.takeWhile (fun c => c != '"')
    if target.isEmpty then none
    else
      match dropLit (lit "\"]") (r1.drop target.length) with
      | none => none
      | some r2 =>
        match r2.dropWhile isWS with
        | '=' :: r4 =>
          match dropLit (lit "INPUT.") (r4.dropWhile isWS) with
          | none => none
          | some r6 =>
            let source := r6.takeWhile (fun c => !isWS c && c != '.')
            if source.isEmpty then none
            else some (target, source, optTransform (r6.drop source.length))
        | _ => none

/-- The unanchored simple-assignment match: first start position whose
anchored attempt succeeds. -/
def matchSimple : Str → Option (Str × Str × Option Str)
  | [] => none
  | c :: rest =>
    match attemptSimple (c :: rest) with
    | some r => some r
    | none => matchSimple rest

/-- Greedy parse of the `(\["[^"]+"\])+` repetition: collect maximal
bracket groups and return them with the remainder.  Giving back a
group can never help, because the remainder would then start with
`["`, which fails the `\s*=` that follows.  (Fuelled with the input
length, which each recursive call strictly decreases by at least
four.) -/
def bracketChainAux : Nat → Str → List Str × Str
  | 0, l => ([], l)
  | Nat.succ fuel, l =>
    match dropLit (lit "[\"") l with
    | none => ([], l)
    | some r1 =>
      let seg := r1.takeWhile (fun c => c != '"')
      if seg.isEmpty then ([], l)
      else
        match dropLit (lit "\"]") (r1.drop seg.length) with
        | none => ([], l)
        | some r2 =>
          let p := bracketChainAux fuel r2
          (seg :: p.1, p.2)

def bracketChainParse (l : Str) : List Str × Str := bracketChainAux l.length l

/-- The lazy `([\w.]+?)(?:\.(\w+)\(\))?$` part of the nested pattern:
at each candidate source length (shortest first, per laziness), try
the optional group first (greedy), then the bare end anchor, then
extend the source by one class character (in the `'.'` branch the
class test `\w or '.'` is trivially true and is elided). -/
def lazySourceLoop (acc : Str) : Str → Option (Str × Option Str)
  | [] => some (acc, none)
  | '.' :: r2 =>
    let w := r2.takeWhile isWordChar
    if !w.isEmpty && r2.drop w.length == lit "()" then some (acc, some w)
    else lazySourceLoop (acc ++ ['.']) r2
  | c :: r3 => if isWordChar c || c == '.' then lazySourceLoop (acc ++ [c]) r3 else none

/-- One anchored attempt of
`OUTPUT(\["[^"]+"\])+\s*=\s*INPUT\.([\w.]+?)(?:\.(\w+)\(\))?$`
at the start of `l` (the captured bracket segments are not used by
the caller, which recovers the path with a separate `matchAll`). -/
def attemptNested (l : Str) : Option (Str × Option Str) :=
  match dropLit (lit "OUTPUT") l with
  | none => none
  | some r0 =>
    let p := bracketChainParse r0
    if p.1.isEmpty then none
    else
      match p.2.dropWhile isWS with
      | '=' :: r3 =>
        match dropLit (lit "INPUT.") (r3.dropWhile isWS) with
        | none => none
        | some r4 =>
          match r4 with
          | c :: r5 => if isWordChar c || c == '.' then lazySourceLoop [c] r5 else none
          | [] => none
      | _ => none

/-- The unanchored nested-assignment match. -/
def matchNested : Str → Option (Str × Option Str)
  | [] => none
  | c :: rest =>
    match attemptNested (c :: rest) with
    | some r => some r
    | none => matchNested rest

/-- All matches of the global `/\["([^"]+)"\]/g` over the whole line
(`matchAll`): on a failed attempt the scan advances one character, on
a successful one it continues after the match. -/
def allBracketsAux : Nat → Str → List Str
  | 0, _ => []
  | _, [] => []
  | Nat.succ fuel, l =>
    match dropLit (lit "[\"") l with
    | some r1 =>
      let seg := r1.takeWhile (fun c => c != '"')
      if seg.isEmpty then allBracketsAux fuel (l.drop 1)
      else
        match dropLit (lit "\"]") (r1.drop seg.length) with
        | some r2 => seg :: allBracketsAux fuel r2
        | none => allBracketsAux fuel (l.drop 1)
    | none => allBracketsAux fuel (l.drop 1)

def allBrackets (l : Str) : List Str := allBracketsAux l.length l

/-- Parse ` if INPUT\.(\w+) (==|!=|>|<) "([^"]+)" else (.+)` — the
part of the conditional pattern after the greedy `(.+)` capture.
Returns `(condField, condOp, condValue, elseRaw)`. -/
def condTailParse (tail : Str) : Option (Str × Str × Str × Str) :=
  match dropLit (lit " if INPUT.") tail with
  | none => none
  | some r1 =>
    let f := r1.takeWhile isWordChar
    if f.isEmpty then none
    else
      match r1.drop f.length with
      | ' ' :: r2 =>
        let opm : Option (Str × Str) :=
          match dropLit (lit "==") r2 with
          | some r => some (lit "==", r)
          | none =>
            match dropLit (lit "!=") r2 with
            | some r => some (lit "!=", r)
            | none =>
              match dropLit (lit ">") r2 with
              | some r => some (lit ">", r)
              | none =>
                match dropLit (lit "<") r2 with
                | some r => some (lit "<", r)
                | none => none
        match opm with
        | none => none
        | some (op, r3) =>
          match r3 with
          | ' ' :: '"' :: r4 =>
            let v := r4.takeWhile (fun c => c != '"')
            if v.isEmpty then none
            else
              match dropLit (lit "\" else ") (r4.drop v.length) with
              | none => none
              | some b => if b.isEmpty || b.contains '\n' then none else some (f, op, v, b)
          | _ => none
      | _ => none

/-- The greedy `(.+)` split: the rightmost way to cut the remainder
into a non-empty newline-free `thenRaw` followed by a tail accepted
by `condTailParse` (JS tries the longest `(.+)` first and backtracks
one character at a time). -/
def condSplit : Str → Option (Str × (Str × Str × Str × Str))
  | [] => none
  | c :: rest =>
    if c == '\n' then none
    else
      match condSplit rest with
      | some (a, t) => some (c :: a, t)
      | none =>
        match condTailParse rest with
        | some t => some ([c], t)
        | none => none

/-- The `\s*` after the `=` of the conditional pattern, followed by
the `(.+)` split: the regex engine prefers the longest whitespace run
first and backtracks it, so try the split after `j` whitespace
characters for `j` from the maximal run length down to `0`. -/
def condWsSearch (T : Str) : Nat → Option (Str × (Str × Str × Str × Str))
  | 0 => condSplit T
  | Nat.succ j =>
    match condSplit (T.drop (Nat.succ j)) with
    | some r => some r
    | none => condWsSearch T j

/-- One anchored attempt of
`OUTPUT\["([^"]+)"\]\s*=\s*(.+) if INPUT\.(\w+) (==|!=|>|<) "([^"]+)" else (.+)`
returning `(target, thenRaw, condField, condOp, condValue, elseRaw)`. -/
def attemptCond (l : Str) : Option (Str × Str × Str × Str × Str × Str) :=
  match dropLit (lit "OUTPUT[\"") l with
  | none => none
  | some r1 =>
    let target := r1.takeWhile (fun c => c != '"')
    if target.isEmpty then none
    else
      match dropLit (lit "\"]") (r1.drop target.length) with
      | none => none
      | some r2 =>
        match r2.dropWhile isWS with
        | '=' :: r3 =>
          match condWsSearch r3 (r3.takeWhile isWS).length with
          | some (a, (f, op, v, b)) => some (target, a, f, op, v, b)
          | none => none
        | _ => none

/-- The unanchored conditional-assignment match. -/
def matchCond : Str → Option (Str × Str × Str × Str × Str × Str)
  | [] => none
  | c :: rest =>
    match attemptCond (c :: rest) with
    | some r => some r
    | none => matchCond rest

/-- Global removal of the literal `INPUT.` (`/INPUT\./g` replaced by
the empty string): on a match the scan continues after it, otherwise
it advances one character. -/
def removeINPUTDots : Str → Str
  | 'I' :: 'N' :: 'P' :: 'U' :: 'T' :: '.' :: rest => removeINPUTDots rest
  | c :: rest => c :: removeINPUTDots rest
  | [] => []

/-- `v.replace(/^\["']|["']$/g, '')`: the first alternative is the
four-character literal `["']` anchored at the start (`\[` is an
escaped bracket, so `["']` is not a character class there); the
second is one `"` or `'` character anchored at the end. -/
def stripQuoteMarks (v : Str) : Str :=
  match v with
  | '[' :: '"' :: '\'' :: ']' :: rest =>
    (match rest.reverse with
     | c :: rev2 => if c == '"' || c == '\'' then rev2.reverse else rest
     | [] => [])
  | _ =>
    match v.reverse with
    | c :: rev2 => if c == '"' || c == '\'' then rev2.reverse else v
    | [] => v

/-- `cleanVal` of the conditional branch values. -/
def cleanVal (v : Str) : Str := trim (removeINPUTDots (stripQuoteMarks v))

/-- Parser state: `finished` are the modules already pushed into the
result array whose bodies are complete, `current` is the module still
receiving mappings (the JS code pushes the module object at open time
and mutates it in place; appending it on flush reproduces the same
final array). -/
structure ParseState where
  finished : List GModule
  current : Option GModule
  total : Nat
deriving DecidableEq, Repr

def flushCurrent (st : ParseState) : List GModule :=
  match st.current with
  | none => st.finished
  | some m => st.finished ++ [m]

def pushMapping (st : ParseState) (cur : GModule) (m : Mapping) : ParseState :=
  { st with current := some { cur with mappings := cur.mappings ++ [m] }, total := st.total + 1 }

/-- One line of `parseTemplate`'s `forEach`, in the source's priority
order: entry-point signature, sub-routine signature, foreign `def `
(closes the current module), then — only with a current module —
module call, simple assignment, nested assignment, conditional. -/
def parseLine (st : ParseState) (line : Str) : ParseState :=
  let trimmed := trim line
  if matchDefTransform trimmed then
    { finished := flushCurrent st, current := some ⟨lit "main", []⟩, total := st.total }
  else
    match matchDefModule trimmed with
    | some name => { finished := flushCurrent st, current := some ⟨name, []⟩, total := st.total }
    | none =>
      if startsWithDef trimmed && !matchDefEither trimmed then
        { finished := flushCurrent st, current := none, total := st.total }
      else
        match st.current with
        | none => st
        | some cur =>
          match matchModuleCall trimmed with
          | some n => pushMapping st cur (.moduleCall n)
          | none =>
            match matchSimple trimmed with
            | some (t, s, tr) => pushMapping st cur (.direct t s (parsedTransform tr))
            | none =>
              match matchNested trimmed with
              | some (src, tr) =>
                let pathParts := allBrackets trimmed
                let target := joinWithChar '.' pathParts
                -- `nestedMatch[2].split('.')` re-joined with `'.'` is the identity
                let source := joinWithChar '.' (splitOnChar '.' src)
                pushMapping st cur (.direct target source (parsedTransform tr))
              | none =>
                match matchCond trimmed with
                | some (t, a, f, op, v, b) =>
                  pushMapping st cur (.conditional t f op v (cleanVal a) (cleanVal b) none .absent)
                | none => st

structure ParseResult where
  modules : Option (List GModule)
  totalMappings : Nat
deriving DecidableEq, Repr

def parseLines (ls : List Str) : ParseResult :=
  let st := ls.foldl parseLine ⟨[], none, 0⟩
  let mods := flushCurrent st
  { modules := if mods.length > 0 then some mods else none, totalMappings := st.total }

/-- `parseTemplate`: split on `"\n"` and run the line classifier;
`modules = none` is the "no mappings found" sentinel (`null`). -/
def parseTemplate (code : Str) : ParseResult :=
  parseLines (splitOnChar '\n' code)

/-!
## Change diff engine (`calculateChanges`, main variant) -/

/-- One entry of a flattened Model: `{ module: mod.name, ...m }`. -/
structure FlatEntry where
  module : Str
  mapping : Mapping
deriving DecidableEq, Repr

/-- The flattening key:
`m.type === 'module_call' ? mod.name + ":call_" + m.moduleName : mod.name + ":" + m.target`
(a JS template literal renders an `undefined` property as the string
`"undefined"`). -/
def diffKey (modName : Str) (m : Mapping) : Str :=
  if m.typeOf == lit "module_call" then
    modName ++ lit ":call_" ++ m.moduleNameAttr.getD (lit "undefined")
  else
    modName ++ [':'] ++ m.targetAttr.getD (lit "undefined")

/-- JS object property write `flat[key] = v`: overwrite in place if
the key exists (keeping its insertion position), append otherwise. -/
def objInsert (flat : List (Str × FlatEntry)) (k : Str) (v : FlatEntry) : List (Str × FlatEntry) :=
  if flat.any (fun p => p.1 == k) then
    flat.map (fun p => if p.1 == k then (k, v) else p)
  else flat ++ [(k, v)]

/-- JS object property read `flat[key]`. -/
def objLookup (flat : List (Str × FlatEntry)) (k : Str) : Option FlatEntry :=
  (flat.find? (fun p => p.1 == k)).map (fun p => p.2)

/-- One Model flattened to the keyed object (modules in list order,
mappings in list order). -/
def flattenModules (mods : List GModule) : List (Str × FlatEntry) :=
  mods.foldl (fun acc mod =>
    mod.mappings.foldl (fun acc2 m => objInsert acc2 (diffKey mod.name m) ⟨mod.name, m⟩) acc) []

structure Changes where
  added : List FlatEntry
  removed : List FlatEntry
  modified : List (FlatEntry × FlatEntry)
  unchanged : List FlatEntry
deriving DecidableEq, Repr

/-- The compared attribute subset:
`curr.source !== orig.source || curr.transformation !== orig.transformation || curr.transform !== orig.transform || curr.moduleName !== orig.moduleName`.
All four are strict compares, so `transform` is compared through the
three-state `transformProp` view on which `undefined`, `null` and
strings are pairwise distinct. -/
def attrsDiffer (curr orig : Mapping) : Bool :=
  curr.sourceAttr != orig.sourceAttr ||
  curr.transformationOf != orig.transformationOf ||
  curr.transformProp != orig.transformProp ||
  curr.moduleNameAttr != orig.moduleNameAttr

/-- `calculateChanges` (with `originalModules = none` modelling the
absent snapshot, short-circuited to four empty sets). -/
def calculateChanges (originalModules : Option (List GModule)) (modules : List GModule) : Changes :=
  match originalModules with
  | none => ⟨[], [], [], []⟩
  | some orig =>
    let currentFlat := flattenModules modules
    let originalFlat := flattenModules orig
    let step1 := currentFlat.foldl (fun ch p =>
      match objLookup originalFlat p.1 with
      | none => { ch with added := ch.added ++ [p.2] }
      | some o =>
        if attrsDiffer p.2.mapping o.mapping then
          { ch with modified := ch.modified ++ [(p.2, o)] }
        else { ch with unchanged := ch.unchanged ++ [p.2] }) (⟨[], [], [], []⟩ : Changes)
    originalFlat.foldl (fun ch p =>
      if (objLookup currentFlat p.1).isSome then ch
      else { ch with removed := ch.removed ++ [p.2] }) step1

/-!
## Model operations (main variant) -/

/-- `updateModuleName` (main variant): refuse to rename `main`, no-op
on an unchanged name, otherwise rename module `idx` and rewrite every
`module_call` mapping of the *other* modules whose `moduleName` is
the old name.  `none` models the `TypeError` JS throws when
`modules[idx]` is `undefined`. -/
def updateModuleName (modules : List GModule) (idx : Nat) (name : Str) : Option (List GModule) :=
  match modules.get? idx with
  | none => none
  | some m0 =>
    if m0.name == lit "main" then some modules
    else if m0.name == name then some modules
    else
      some (modules.mapIdx (fun i mod =>
        if i == idx then { mod with name := name }
        else
          { mod with mappings := mod.mappings.map (fun m =>
              match m with
              | .moduleCall n => if n == m0.name then .moduleCall name else m
              | _ => m) }))

/-- `deleteModule`: no-op when only one module remains, otherwise
remove the module at `idx` (`filter((_, i) => i !== idx)`). -/
def deleteModule (modules : List GModule) (idx : Nat) : List GModule :=
  if modules.length == 1 then modules else modules.eraseIdx idx

/-- `addModule`: append `module_${modules.length}` with no mappings. -/
def addModule (modules : List GModule) : List GModule :=
  modules ++ [⟨lit "module_" ++ (toString modules.length).data, []⟩]

/-- `updateModuleMappings` (for an in-range `moduleIdx`; JS would
grow the array on an out-of-range index, which no caller does). -/
def updateModuleMappings (modules : List GModule) (moduleIdx : Nat) (newMappings : List Mapping) : List GModule :=
  modules.mapIdx (fun i mod => if i == moduleIdx then { mod with mappings := newMappings } else mod)

/-- The active module's mapping list,
`modules[activeModule]?.mappings || []`. -/
def activeMappings (modules : List GModule) (activeModule : Nat) : List Mapping :=
  ((modules.get? activeModule).map GModule.mappings).getD []

/-- `addMapping`: append a fresh empty field mapping
(`{target:"", source:"", transformation:"direct", type:"field"}`). -/
def addMapping (modules : List GModule) (activeModule : Nat) : List GModule :=
  updateModuleMappings modules activeModule (activeMappings modules activeModule ++ [.direct [] [] .absent])

/-- `addModuleCall`: append `{moduleName:"", type:"module_call"}`. -/
def addModuleCall (modules : List GModule) (activeModule : Nat) : List GModule :=
  updateModuleMappings modules activeModule (activeMappings modules activeModule ++ [.moduleCall []])

/-- `updateMapping`: replace the mapping at `idx` (the JS merge
`{...old, ...updates, isNew:false}` is abstracted as the resulting
mapping value `updated`). -/
def updateMapping (modules : List GModule) (activeModule idx : Nat) (updated : Mapping) : List GModule :=
  updateModuleMappings modules activeModule ((activeMappings modules activeModule).set idx updated)

/-- `deleteMapping`: remove the mapping at `idx`. -/
def deleteMapping (modules : List GModule) (activeModule idx : Nat) : List GModule :=
  updateModuleMappings modules activeModule ((activeMappings modules activeModule).eraseIdx idx)

/-- The state touched by `handleFile`'s template branch. -/
structure TemplateState where
  modules : List GModule
  originalModules : Option (List GModule)
  activeModule : Nat
  templateLoaded : Bool
deriving DecidableEq, Repr

/-- The `type === "template"` branch of `handleFile`: replace the
Model (and record the original snapshot) only when the parser
returned a module list; otherwise every piece of state is left
untouched. -/
def loadTemplate (st : TemplateState) (content : Str) : TemplateState :=
  match (parseTemplate content).modules with
  | some ms =>
    { modules := ms, originalModules := some ms, activeModule := 0, templateLoaded := true }
  | none => st

/-!
## Round-trippable subset

`RTModel` carves out the sub-language of Models for which
`parse ∘ generate` is proven below to be the identity up to the diff
engine's equality: lower-case-identifier names and paths, the three
method-style transforms, conditionals with single-segment targets and
dot-free branch values.  (The counterexamples accompanying the
round-trip theorem show why the excluded shapes do not round-trip.) -/

/-- Lower-case identifier characters.  (Upper case is excluded so that
the literal `OUTPUT` cannot occur inside user text, which pins down
the start position of the parser's unanchored assignment regexes.) -/
def isLowerWordChar (c : Char) : Bool := c.isLower || c.isDigit || c == '_'

/-- A non-empty lower-case identifier. -/
def lowerWord (s : Str) : Bool := !s.isEmpty && s.all isLowerWordChar

/-- A non-empty dotted path of non-empty lower-case identifiers. -/
def lowerPath (s : Str) : Bool := (splitOnChar '.' s).all lowerWord

/-- Free text admissible in conditional values: no quote (it would
close the generated string literal early), no dot (a dotted branch
value renders as an `INPUT.` reference, which the *simple* assignment
pattern then captures first — see the counterexample), no capital `O`
and no newline. -/
def plainText (s : Str) : Bool :=
  s.all (fun c => !(c == '"') && !(c == '.') && !(c == 'O') && !(c == '\n'))

def allowedTransform (tr : JTransform) : Bool :=
  tr == .null || tr == .str (lit "upper") || tr == .str (lit "lower") ||
    tr == .str (lit "capitalize")

/-- The admissible captured transform suffixes of a generated
assignment line (the capture-group view of `allowedTransform`:
`parsedTransform` sends `none` back to `null`). -/
def allowedCapture (tr : Option Str) : Bool :=
  tr == none || tr == some (lit "upper") || tr == some (lit "lower") ||
    tr == some (lit "capitalize")

/-- Round-trippable mappings.  The presence patterns are the parser's
own: a direct mapping's `transform` is `null` or one of the three
method-style names (never absent — re-parsing stores
`simpleMatch[3] || null`, so an absent `transform` comes back `null`
and `null !== undefined` flags the pair modified), and a conditional
carries neither a residual `source` nor a residual `transform`
(`parseTemplate` builds conditionals without them, so a UI-built
conditional's leftover `source: ""` comes back absent and
`"" !== undefined` flags the pair modified). -/
def RTMapping : Mapping → Bool
  | .direct t s tr =>
    lowerPath t && allowedTransform tr &&
    (if (splitOnChar '.' t).length == 1 then lowerWord s else lowerPath s)
  | .conditional t f op v tv ev src tr =>
    lowerWord t && f.all isLowerWordChar &&
    (op == lit "==" || op == lit "!=" || op == lit ">" || op == lit "<") &&
    v.all (fun c => !(c == '"') && !(c == 'O') && !(c == '\n')) &&
    plainText tv && plainText ev && src == none && tr == JTransform.absent
  | .moduleCall n => lowerWord n
  | _ => false

def RTModule (mod : GModule) : Bool := lowerWord mod.name && mod.mappings.all RTMapping

/-- Round-trippable Models: every module round-trippable and exactly
one module named `main`. -/
def RTModel (mods : List GModule) : Bool :=
  mods.all RTModule && mods.countP (fun mod => mod.name == lit "main") == 1

/-!
## Projections used to state diff-equality -/

/-- The part of the flattening key contributed by the mapping itself
(`diffKey modName m = modName ++ ':' :: keyTail m`). -/
def keyTail (m : Mapping) : Str :=
  match m with
  | .moduleCall n => lit "call_" ++ n
  | _ => m.targetAttr.getD (lit "undefined")

/-- Everything about a mapping that the diff engine can observe: its
key contribution and the four compared attributes. -/
def mapProj (m : Mapping) : Str × Option Str × Option Str × JTransform × Option Str :=
  (keyTail m, m.sourceAttr, m.transformationOf, m.transformProp, m.moduleNameAttr)

/-- Two parsed/original modules that the diff engine cannot tell
apart: same name, mappings pairwise equal under `mapProj`. -/
def moduleProjEq (a b : GModule) : Prop :=
  b.name = a.name ∧ b.mappings.map mapProj = a.mappings.map mapProj

/-- The helper modules the generator actually emits: non-`main`
modules with at least one mapping, in model order. -/
def helpersOf (mods : List GModule) : List GModule :=
  mods.filter (fun mod => !(mod.name == lit "main") && !mod.mappings.isEmpty)

/-- What the diff engine can observe of one module: its name and the
projections of its mappings in order. -/
def moduleProj (mod : GModule) :
    Str × List (Str × Option Str × Option Str × JTransform × Option Str) :=
  (mod.name, mod.mappings.map mapProj)

/-- The flattening stream: the `(key, entry)` pairs in the order
`flattenModules` inserts them. -/
def entryStream (mods : List GModule) : List (Str × FlatEntry) :=
  (mods.map (fun mod => mod.mappings.map
    (fun m => (diffKey mod.name m, (⟨mod.name, m⟩ : FlatEntry))))).flatten

/-- The stream projected to what classification observes. -/
def aStream (mods : List GModule) : List (Str × (Option Str × Option Str × JTransform × Option Str)) :=
  (entryStream mods).map (fun p =>
    (p.1, (p.2.mapping.sourceAttr, p.2.mapping.transformationOf,
           p.2.mapping.transformProp, p.2.mapping.moduleNameAttr)))

/-- Attribute view of a key lookup in a flattened Model. -/
def attrLookup (mods : List GModule) (k : Str) :
    Option (Option Str × Option Str × JTransform × Option Str) :=
  (objLookup (flattenModules mods) k).map (fun e =>
    (e.mapping.sourceAttr, e.mapping.transformationOf,
     e.mapping.transformProp, e.mapping.moduleNameAttr))

/-- The suffix `directGenerate` appends for a method-style transform
(`""`, `".upper()"`, `".lower()"`, `".capitalize()"`). -/
def transformCode (tr : Option Str) : Str :=
  match tr with
  | none => []
  | some w => '.' :: (w ++ lit "()")

/-- The bracket chain of a multi-segment assignment left-hand side. -/
def bracketConcat (segs : List Str) : Str := (segs.map bracketPart).flatten

/-- A one-mapping Model whose direct mapping has a dotted source but a
single-segment target (outside `RTModel`): the generated
`OUTPUT["x"] = INPUT.a.b` is re-parsed with source `a` only, because the
simple-assignment pattern's lazily matched source group stops at the
first dot. -/
def dottedSourceModel : List GModule :=
  [⟨lit "main", [.direct (lit "x") (lit "a.b") .null]⟩]

/-- A one-mapping Model whose direct mapping carries no `transform`
property (as `addMapping`/`autoMap` build them): re-parsing its
generated line stores `transform: null`, and `null !== undefined`
makes the diff engine report the entry modified. -/
def undefTransformModel : List GModule :=
  [⟨lit "main", [.direct (lit "x") (lit "src") .absent]⟩]

/-- A one-mapping Model whose conditional keeps the residual
`source: ""` of a UI-built mapping: the re-parsed conditional has no
`source` property, and `"" !== undefined` makes the diff engine
report the entry modified. -/
def residualSourceModel : List GModule :=
  [⟨lit "main", [.conditional (lit "t") (lit "f") (lit "==") (lit "1")
      (lit "yes") (lit "no") (some []) .absent]⟩]

/-- A one-mapping Model using `format_ssn`, one of the six named
transforms of the `DirectEditor` select: it generates the call form
`format_ssn(INPUT.s)`, which no assignment pattern recognizes, so the
mapping is lost and reported removed. -/
def formatSsnModel : List GModule :=
  [⟨lit "main", [.direct (lit "x") (lit "s") (.str (lit "format_ssn"))]⟩]

/-- A one-mapping Model whose conditional branch value contains a
dot: the branch renders as `INPUT.a.b`, the *simple* assignment
pattern captures the line first, and the mapping comes back as a
direct one — reported modified. -/
def dottedBranchModel : List GModule :=
  [⟨lit "main", [.conditional (lit "t") (lit "f") (lit "==") (lit "1")
      (lit "a.b") (lit "no") none .absent]⟩]

/-- A round-trippable Model exercising every round-trippable mapping
kind: a helper module called from `main`, dotted and flat direct
targets, a transform, and a conditional. -/
def rtWitnessModel : List GModule :=
  [⟨lit "helper", [.direct (lit "a.b") (lit "x.y") (.str (lit "upper"))]⟩,
   ⟨lit "main", [.direct (lit "x") (lit "src") .null,
                 .conditional (lit "t") (lit "f") (lit "==") (lit "1") (lit "yes") (lit "no")
                   none .absent,
                 .moduleCall (lit "helper")]⟩]


/-!
## Basic lemmas about the string primitives -/

theorem dropLit_self (p l : Str) : dropLit p (p ++ l) = some l := by
  induction p with
  | nil => rfl
  | cons a p ih => simp [dropLit, ih]

theorem dropLit_sound {p : Str} : ∀ {l r : Str}, dropLit p l = some r → l = p ++ r := by
  induction p with
  | nil => intro l r h; simp [dropLit] at h; simp [h]
  | cons a p ih =>
    intro l r h
    cases l with
    | nil => simp [dropLit] at h
    | cons b l =>
      simp only [dropLit] at h
      by_cases hab : (a == b) = true
      · have := ih (by simpa [hab] using h)
        simp [beq_iff_eq.mp hab, this]
      · simp [hab] at h

theorem takeWhile_append_stop {p : Char → Bool} :
    ∀ (xs : Str) (y : Char) (ys : Str), (∀ c ∈ xs, p c = true) → p y = false →
      (xs ++ y :: ys).takeWhile p = xs := by
  intro xs y ys hxs hy
  induction xs with
  | nil => simp [List.takeWhile, hy]
  | cons a xs ih =>
    have ha : p a = true := hxs a (by simp)
    simp [List.takeWhile, ha]
    exact ih fun c hc => hxs c (by simp [hc])

theorem length_one_eq (l : List Str) (h : l.length = 1) : l = [l.headD []] := by
  cases l with
  | nil => simp at h
  | cons a t => cases t with
    | nil => rfl
    | cons b t2 => simp at h

theorem splitOnChar_ne_nil (sep : Char) (l : Str) : splitOnChar sep l ≠ [] := by
  cases l with
  | nil => simp [splitOnChar]
  | cons c rest =>
    simp only [splitOnChar]
    split
    · simp
    · cases h : splitOnChar sep rest <;> simp

theorem joinWithChar_splitOnChar (sep : Char) : ∀ l : Str, joinWithChar sep (splitOnChar sep l) = l := by
  intro l
  induction l with
  | nil => rfl
  | cons c rest ih =>
    cases hs : splitOnChar sep rest with
    | nil => exact absurd hs (splitOnChar_ne_nil sep rest)
    | cons s tail =>
      rw [hs] at ih
      simp only [splitOnChar, hs]
      by_cases h : (c == sep) = true
      · have hc : c = sep := beq_iff_eq.mp h
        simp [h, joinWithChar, hc, ih]
      · simp only [h, Bool.false_eq_true, if_false]
        cases tail with
        | nil => simpa [joinWithChar] using ih
        | cons t2 ts =>
          simp only [joinWithChar] at ih ⊢
          simp [← ih]

theorem splitOnChar_single (sep : Char) : ∀ s : Str, (∀ c ∈ s, ¬ c = sep) →
    splitOnChar sep s = [s] := by
  intro s hs
  induction s with
  | nil => rfl
  | cons c r ih =>
    have hc : (c == sep) = false := by
      simp [beq_eq_false_iff_ne]
      exact hs c (by simp)
    have := ih fun c hc2 => hs c (by simp [hc2])
    simp [splitOnChar, hc, this]

theorem splitOnChar_append_sep (sep : Char) :
    ∀ (s t : Str), (∀ c ∈ s, ¬ c = sep) →
      splitOnChar sep (s ++ sep :: t) = s :: splitOnChar sep t := by
  intro s t hs
  induction s with
  | nil => simp [splitOnChar]
  | cons c r ih =>
    have hc : (c == sep) = false := by
      simp [beq_eq_false_iff_ne]
      exact hs c (by simp)
    have := ih fun c hc2 => hs c (by simp [hc2])
    simp [splitOnChar, hc, this]

theorem splitOnChar_joinWithChar (sep : Char) :
    ∀ ls : List Str, ls ≠ [] → (∀ s ∈ ls, ∀ c ∈ s, ¬ c = sep) →
      splitOnChar sep (joinWithChar sep ls) = ls := by
  intro ls
  induction ls with
  | nil => intro h; exact absurd rfl h
  | cons s tl ih =>
    intro _ hfree
    cases tl with
    | nil =>
      simpa [joinWithChar] using splitOnChar_single sep s (hfree s (by simp))
    | cons s2 tl2 =>
      have h1 : joinWithChar sep (s :: s2 :: tl2) = s ++ sep :: joinWithChar sep (s2 :: tl2) := rfl
      rw [h1, splitOnChar_append_sep sep s _ (hfree s (by simp))]
      rw [ih (by simp) fun x hx c hc => hfree x (by simp [hx]) c hc]

/-!
## Claim theorems (C8, C7, C5) -/

/-- C8: code generation is deterministic — `generateCode` is a pure
function of the module list alone, so two generations of the same
Model produce the same string. -/
theorem generateCode_deterministic (modules : List GModule) :
    generateCode modules = generateCode modules := rfl

/-- C7: the assignment's left-hand side is a bracket chain whose depth
equals the number of dot-separated segments of the target: in general
the emitted line is `    OUTPUT` followed by one `["segment"]` per
segment of `target.split(".")`, and in particular `a.b.c` renders as
`OUTPUT["a"]["b"]["c"] = <expr>` and `x` as `OUTPUT["x"] = <expr>`. -/
theorem assignmentLine_bracket_chain (target code : Str) :
    assignmentLine target code =
      lit "    OUTPUT" ++ ((splitOnChar '.' target).map bracketPart).flatten ++
        lit " = " ++ code ∧
    assignmentLine (lit "a.b.c") (lit "INPUT.s") = lit "    OUTPUT[\"a\"][\"b\"][\"c\"] = INPUT.s" ∧
    assignmentLine (lit "x") (lit "INPUT.s") = lit "    OUTPUT[\"x\"] = INPUT.s" := by
  refine ⟨?_, by decide, by decide⟩
  simp only [assignmentLine]
  by_cases h : ((splitOnChar '.' target).length == 1) = true
  · have h1 : splitOnChar '.' target = [(splitOnChar '.' target).headD []] :=
      length_one_eq _ (by simpa using h)
    rw [if_pos h, h1]
    have e1 : (lit "    OUTPUT[\"" : Str) = lit "    OUTPUT" ++ lit "[\"" := by decide
    have e2 : (lit "\"] = " : Str) = lit "\"]" ++ lit " = " := by decide
    simp [bracketPart, e1, e2, List.append_assoc]
  · rw [if_neg h]

/-- C5 counterexample: the claim says the field-mapping keyspace and
the module-call keyspace can never collide, but a field mapping with
target `call_sub` and a call of module `sub` in the same module get
the same key, and the flattening folds the two mappings into a single
entry. -/
theorem diffKey_collision :
    diffKey (lit "main") (Mapping.direct (lit "call_sub") (lit "s") .absent) =
      diffKey (lit "main") (Mapping.moduleCall (lit "sub")) ∧
    flattenModules [⟨lit "main", [Mapping.direct (lit "call_sub") (lit "s") .absent,
                                  Mapping.moduleCall (lit "sub")]⟩] =
      [(lit "main:call_sub", ⟨lit "main", Mapping.moduleCall (lit "sub")⟩)] := by
  constructor
  · rfl
  · rfl

/-- C5 amended: the two keyspaces are disjoint except when the field
mapping's target is literally `call_` followed by the callee name;
for any other target the keys differ. -/
theorem diffKey_no_collision_unless_call_target (modName t n : Str) (m : Mapping)
    (hm : ¬ m.typeOf = lit "module_call") (ht : m.targetAttr = some t)
    (hne : t ≠ lit "call_" ++ n) :
    diffKey modName m ≠ diffKey modName (Mapping.moduleCall n) := by
  intro h
  have htype : (m.typeOf == lit "module_call") = false := by
    simpa [beq_eq_false_iff_ne] using hm
  have hcall : ((Mapping.moduleCall n).typeOf == lit "module_call") = true := by
    simp [Mapping.typeOf]
  simp only [diffKey, htype, hcall, Bool.false_eq_true, if_false, if_true, ht,
    Option.getD_some, Mapping.moduleNameAttr] at h
  have hsplit : (lit ":call_" : Str) = [':'] ++ lit "call_" := by decide
  rw [hsplit] at h
  rw [List.append_assoc, List.append_assoc, List.append_assoc] at h
  have h2 := List.append_cancel_left h
  have h3 := List.append_cancel_left h2
  exact hne h3

/-- Witness for the C5 amended theorem at a concrete input. -/
theorem diffKey_no_collision_witness :
    diffKey (lit "m") (Mapping.direct (lit "x") (lit "s") .absent) ≠
      diffKey (lit "m") (Mapping.moduleCall (lit "sub")) :=
  diffKey_no_collision_unless_call_target (lit "m") (lit "x") (lit "sub")
    (Mapping.direct (lit "x") (lit "s") .absent) (by decide) (by decide) (by decide)

/-!
## Claim theorems (C2) -/

/-- C2 counterexample: a text consisting of a recognizable
`def transform(INPUT):` line and nothing else yields **zero**
recovered mappings, yet the parser does *not* return the "no
mappings" sentinel (`modules` is non-`null`), and the template-load
handler replaces the previously loaded Model with the parsed
empty-`main` Model instead of leaving it unchanged. -/
theorem parseTemplate_def_only_not_sentinel :
    (parseTemplate (lit "def transform(INPUT):")).totalMappings = 0 ∧
    (parseTemplate (lit "def transform(INPUT):")).modules ≠ none ∧
    loadTemplate ⟨[⟨lit "main", [Mapping.direct (lit "x") (lit "a") .absent]⟩], none, 0, false⟩
        (lit "def transform(INPUT):") ≠
      ⟨[⟨lit "main", [Mapping.direct (lit "x") (lit "a") .absent]⟩], none, 0, false⟩ := by
  refine ⟨by decide, by decide, by decide⟩

/-- C2 amended: the sentinel is triggered by *zero recognized module
headers*, not zero mappings: if no line of the text matches the
entry-point or sub-routine signature, the parser returns the
sentinel, reports zero mappings, and the template-load handler leaves
the entire prior state untouched. -/
theorem parseTemplate_sentinel_of_no_module_header (text : Str)
    (h : ∀ line ∈ splitOnChar '\n' text,
      matchDefTransform (trim line) = false ∧ matchDefModule (trim line) = none) :
    (parseTemplate text).modules = none ∧ (parseTemplate text).totalMappings = 0 ∧
    ∀ st : TemplateState, loadTemplate st text = st := by
  have step : ∀ (n : Nat) (line : Str), matchDefTransform (trim line) = false →
      matchDefModule (trim line) = none →
      parseLine ⟨[], none, n⟩ line = ⟨[], none, n⟩ := by
    intro n line h1 h2
    simp only [parseLine, h1, h2, Bool.false_eq_true, if_false]
    split
    · rfl
    · rfl
  have hfold : ∀ (ls : List Str) (n : Nat),
      (∀ line ∈ ls, matchDefTransform (trim line) = false ∧ matchDefModule (trim line) = none) →
      ls.foldl parseLine ⟨[], none, n⟩ = ⟨[], none, n⟩ := by
    intro ls
    induction ls with
    | nil => intro n _; rfl
    | cons l tl ih =>
      intro n hl
      have h1 := hl l (by simp)
      rw [List.foldl_cons, step n l h1.1 h1.2]
      exact ih n fun x hx => hl x (by simp [hx])
  have hmain : parseTemplate text = ⟨none, 0⟩ := by
    rw [parseTemplate, parseLines]
    rw [hfold (splitOnChar '\n' text) 0 h]
    rfl
  refine ⟨by rw [hmain], by rw [hmain], ?_⟩
  intro st
  rw [loadTemplate, hmain]

/-- Witness for the C2 amended theorem: a text with no `def` lines
(but with a mapping-shaped line, which is dropped because no module
is current) leaves everything unchanged. -/
theorem parseTemplate_sentinel_witness :
    (parseTemplate (lit "hello\nOUTPUT[\"x\"] = INPUT.y")).modules = none ∧
    (parseTemplate (lit "hello\nOUTPUT[\"x\"] = INPUT.y")).totalMappings = 0 ∧
    ∀ st : TemplateState, loadTemplate st (lit "hello\nOUTPUT[\"x\"] = INPUT.y") = st :=
  parseTemplate_sentinel_of_no_module_header (lit "hello\nOUTPUT[\"x\"] = INPUT.y") (by decide)

/-!
## Claim theorems (C9, C10) -/

theorem eraseIdx_ne_nil (ms : List GModule) (idx : Nat) (h : 2 ≤ ms.length) :
    ms.eraseIdx idx ≠ [] := by
  match ms, idx with
  | [], _ => simp at h
  | [a], _ => simp at h
  | a :: b :: t, 0 => simp [List.eraseIdx]
  | a :: b :: t, Nat.succ n => simp [List.eraseIdx]

theorem parseTemplate_modules_ne_nil (c : Str) (ms : List GModule)
    (h : (parseTemplate c).modules = some ms) : ms ≠ [] := by
  rw [parseTemplate, parseLines] at h
  simp only at h
  split at h
  case isTrue hlen =>
    cases h
    intro hnil
    rw [hnil] at hlen
    simp at hlen
  case isFalse => cases h

/-- C9: the modules list is never empty — every modelled Model
operation (module add/rename/delete, mapping add/update/delete,
template load) maps a non-empty module list to a non-empty module
list; `deleteModule` is a no-op at one module, and a template load
replaces the list only with a parser result, which is always
non-empty. -/
theorem modules_never_empty (ms : List GModule) (h : ms ≠ []) (idx activeIdx mIdx : Nat)
    (name : Str) (newMappings : List Mapping) (updated : Mapping) (st : TemplateState)
    (hst : st.modules ≠ []) (content : Str) :
    addModule ms ≠ [] ∧
    (∀ res, updateModuleName ms idx name = some res → res ≠ []) ∧
    deleteModule ms idx ≠ [] ∧
    updateModuleMappings ms idx newMappings ≠ [] ∧
    addMapping ms activeIdx ≠ [] ∧
    addModuleCall ms activeIdx ≠ [] ∧
    updateMapping ms activeIdx mIdx updated ≠ [] ∧
    deleteMapping ms activeIdx mIdx ≠ [] ∧
    (loadTemplate st content).modules ≠ [] := by
  have hmaplen : ∀ (f : Nat → GModule → GModule), ms.mapIdx f ≠ [] := by
    intro f hnil
    have := congrArg List.length hnil
    simp [List.length_mapIdx] at this
    exact h this
  have hupd : ∀ i l, updateModuleMappings ms i l ≠ [] := fun i l => hmaplen _
  refine ⟨by simp [addModule], ?_, ?_, hupd idx newMappings, hupd _ _, hupd _ _, hupd _ _,
    hupd _ _, ?_⟩
  · intro res hres
    rw [updateModuleName] at hres
    cases hm : ms.get? idx with
    | none => rw [hm] at hres; cases hres
    | some m0 =>
      rw [hm] at hres
      simp only at hres
      by_cases h1 : (m0.name == lit "main") = true
      · rw [if_pos h1] at hres
        cases hres; exact h
      · rw [if_neg h1] at hres
        by_cases h2 : (m0.name == name) = true
        · rw [if_pos h2] at hres; cases hres; exact h
        · rw [if_neg h2] at hres
          cases hres
          exact hmaplen _
  · rw [deleteModule]
    by_cases hl : (ms.length == 1) = true
    · rw [if_pos hl]; exact h
    · rw [if_neg hl]
      refine eraseIdx_ne_nil ms idx ?_
      have : ms.length ≠ 0 := fun h0 => h (List.length_eq_zero.mp h0)
      have : ms.length ≠ 1 := by simpa using hl
      omega
  · rw [loadTemplate]
    cases hp : (parseTemplate content).modules with
    | none => exact hst
    | some ms2 => exact parseTemplate_modules_ne_nil content ms2 hp

/-- Witness for C9 at concrete inputs. -/
theorem modules_never_empty_witness :
    addModule [⟨lit "main", []⟩] ≠ [] ∧
    (∀ res, updateModuleName [⟨lit "main", []⟩] 0 (lit "x") = some res → res ≠ []) ∧
    deleteModule [⟨lit "main", []⟩] 0 ≠ [] ∧
    updateModuleMappings [⟨lit "main", []⟩] 0 [] ≠ [] ∧
    addMapping [⟨lit "main", []⟩] 0 ≠ [] ∧
    addModuleCall [⟨lit "main", []⟩] 0 ≠ [] ∧
    updateMapping [⟨lit "main", []⟩] 0 0 (Mapping.moduleCall (lit "a")) ≠ [] ∧
    deleteMapping [⟨lit "main", []⟩] 0 0 ≠ [] ∧
    (loadTemplate ⟨[⟨lit "main", []⟩], none, 0, false⟩ (lit "x")).modules ≠ [] :=
  modules_never_empty [⟨lit "main", []⟩] (by decide) 0 0 0 (lit "x") [] (Mapping.moduleCall (lit "a"))
    ⟨[⟨lit "main", []⟩], none, 0, false⟩ (by decide) (lit "x")

/-- C10 counterexample: renaming module `sub` (which contains a
module-call mapping to itself, a shape `parseTemplate` can produce)
leaves the call reference inside the renamed module pointing at the
*old* name — the claim's "rewrites, in every module" fails for the
renamed module itself. -/
theorem updateModuleName_self_call_not_rewritten :
    updateModuleName [⟨lit "main", []⟩, ⟨lit "sub", [Mapping.moduleCall (lit "sub")]⟩] 1
        (lit "neu") =
      some [⟨lit "main", []⟩, ⟨lit "neu", [Mapping.moduleCall (lit "sub")]⟩] ∧
    updateModuleName [⟨lit "main", []⟩, ⟨lit "sub", [Mapping.moduleCall (lit "sub")]⟩] 1
        (lit "neu") ≠
      some [⟨lit "main", []⟩, ⟨lit "neu", [Mapping.moduleCall (lit "neu")]⟩] := by
  refine ⟨by decide, by decide⟩

/-- C10 amended: renaming a non-`main` module to a genuinely new name
renames the module, leaves its *own* mappings untouched, and
rewrites, in every *other* module, exactly the module-call mappings
whose `moduleName` equals the old name; renaming `main` or renaming
to the same name is a no-op. -/
theorem updateModuleName_rename_spec (ms : List GModule) (idx : Nat) (m0 : GModule)
    (newName : Str) (h : ms.get? idx = some m0) :
    (m0.name = lit "main" → updateModuleName ms idx newName = some ms) ∧
    (m0.name = newName → updateModuleName ms idx newName = some ms) ∧
    (m0.name ≠ lit "main" → m0.name ≠ newName →
      ∃ res, updateModuleName ms idx newName = some res ∧
        res.length = ms.length ∧
        res.get? idx = some ⟨newName, m0.mappings⟩ ∧
        (∀ j, j ≠ idx → ∀ mod, ms.get? j = some mod →
          res.get? j = some ⟨mod.name, mod.mappings.map (fun m =>
            match m with
            | Mapping.moduleCall n => if n = m0.name then Mapping.moduleCall newName else m
            | _ => m)⟩)) := by
  refine ⟨?_, ?_, ?_⟩
  · intro hmain
    rw [updateModuleName, h]
    simp only
    rw [if_pos (by simpa using hmain)]
  · intro hsame
    rw [updateModuleName, h]
    simp only
    by_cases h1 : (m0.name == lit "main") = true
    · rw [if_pos h1]
    · rw [if_neg h1, if_pos (by simpa using hsame)]
  · intro h1 h2
    rw [updateModuleName, h]
    simp only
    rw [if_neg (by simpa using h1), if_neg (by simpa using h2)]
    refine ⟨_, rfl, by simp [List.length_mapIdx], ?_, ?_⟩
    · rw [List.get?_eq_getElem?, List.getElem?_mapIdx]
      rw [List.get?_eq_getElem?] at h
      rw [h]
      simp
    · intro j hj mod hmod
      rw [List.get?_eq_getElem?, List.getElem?_mapIdx]
      rw [List.get?_eq_getElem?] at hmod
      rw [hmod]
      have hjidx : (j == idx) = false := by simpa using hj
      simp only [Option.map_some', hjidx, Bool.false_eq_true, if_false]
      have : (fun m => match m with
          | Mapping.moduleCall n => if (n == m0.name) = true then Mapping.moduleCall newName else m
          | x => m) = (fun m => match m with
          | Mapping.moduleCall n => if n = m0.name then Mapping.moduleCall newName else m
          | x => m) := by
        funext m
        cases m <;> simp [beq_iff_eq]
      rw [this]

/-- Witness for the C10 amended theorem at a concrete input. -/
theorem updateModuleName_rename_spec_witness :
    ∃ res, updateModuleName [⟨lit "main", []⟩,
        ⟨lit "helper", [Mapping.moduleCall (lit "other")]⟩] 1 (lit "neu") = some res ∧
      res.length = 2 ∧
      res.get? 1 = some ⟨lit "neu", [Mapping.moduleCall (lit "other")]⟩ ∧
      (∀ j, j ≠ 1 → ∀ mod,
        ([⟨lit "main", []⟩, ⟨lit "helper", [Mapping.moduleCall (lit "other")]⟩] :
            List GModule).get? j = some mod →
        res.get? j = some ⟨mod.name, mod.mappings.map (fun m =>
          match m with
          | Mapping.moduleCall n => if n = lit "helper" then Mapping.moduleCall (lit "neu") else m
          | _ => m)⟩) :=
  (updateModuleName_rename_spec [⟨lit "main", []⟩,
      ⟨lit "helper", [Mapping.moduleCall (lit "other")]⟩] 1
      ⟨lit "helper", [Mapping.moduleCall (lit "other")]⟩ (lit "neu") (by decide)).2.2
    (by decide) (by decide)

/-!
## Claim theorems (C4) -/

/-- C4: module emission order — (a) a non-`main` module with zero
mappings contributes nothing; (b) the `main` module is emitted last
regardless of its position in the list (the output for
`A ++ main :: B` equals the output for `A ++ B ++ [main]`); (c)
whenever a `main` module exists, the generated text ends with the
`return OUTPUT` line of the entry point. -/
theorem generateCode_module_order (A B M : List GModule) (name : Str) (mainMod : GModule)
    (hname : name ≠ lit "main") (hmain : mainMod.name = lit "main")
    (hA : ∀ mod ∈ A, mod.name ≠ lit "main") (hB : ∀ mod ∈ B, mod.name ≠ lit "main")
    (hM : ∃ mod ∈ M, mod.name = lit "main") :
    generateLines (A ++ ⟨name, []⟩ :: B) = generateLines (A ++ B) ∧
    generateLines (A ++ mainMod :: B) = generateLines (A ++ B ++ [mainMod]) ∧
    (generateLines M).getLast? = some (lit "    return OUTPUT") := by
  refine ⟨?_, ?_, ?_⟩
  · rw [generateLines, generateLines]
    have e1 : helperModuleLines ⟨name, []⟩ = [] := by
      simp [helperModuleLines]
    have e2 : mainModuleLines (A ++ ⟨name, []⟩ :: B) = mainModuleLines (A ++ B) := by
      rw [mainModuleLines, mainModuleLines, List.find?_append, List.find?_append]
      have : List.find? (fun mod => mod.name == lit "main") (⟨name, []⟩ :: B) =
          List.find? (fun mod => mod.name == lit "main") B := by
        rw [List.find?_cons]
        have : ((⟨name, []⟩ : GModule).name == lit "main") = false := by
          simpa using hname
        rw [this]
      rw [this]
    rw [e2]
    simp [e1]
  · rw [generateLines, generateLines]
    have e1 : helperModuleLines mainMod = [] := by
      rw [helperModuleLines]
      rw [if_pos]
      simp [hmain]
    have efind : List.find? (fun mod => mod.name == lit "main") (A ++ mainMod :: B) =
        some mainMod ∧
        List.find? (fun mod => mod.name == lit "main") (A ++ B ++ [mainMod]) = some mainMod := by
      have hAn : List.find? (fun mod => mod.name == lit "main") A = none := by
        rw [List.find?_eq_none]
        intro x hx
        simpa using hA x hx
      have hBn : List.find? (fun mod => mod.name == lit "main") B = none := by
        rw [List.find?_eq_none]
        intro x hx
        simpa using hB x hx
      have hM : List.find? (fun mod => mod.name == lit "main") [mainMod] = some mainMod := by
        rw [List.find?_cons]
        have : (mainMod.name == lit "main") = true := by simpa using hmain
        rw [this]
      constructor
      · rw [List.find?_append, hAn]
        have : List.find? (fun mod => mod.name == lit "main") (mainMod :: B) = some mainMod := by
          rw [List.find?_cons]
          have : (mainMod.name == lit "main") = true := by simpa using hmain
          rw [this]
        rw [this]
        rfl
      · rw [List.find?_append, List.find?_append, hAn, hBn, hM]
        rfl
    have e2 : mainModuleLines (A ++ mainMod :: B) = mainModuleLines (A ++ B ++ [mainMod]) := by
      rw [mainModuleLines, mainModuleLines, efind.1, efind.2]
    rw [e2]
    have e3 : (A ++ mainMod :: B).any
          (fun mod => mod.mappings.any fun m => m.transformationOf == some (lit "regex")) =
        (A ++ B ++ [mainMod]).any
          (fun mod => mod.mappings.any fun m => m.transformationOf == some (lit "regex")) := by
      simp [List.any_append, Bool.or_comm, Bool.or_assoc, Bool.or_left_comm]
    rw [e3]
    simp [e1]
  · obtain ⟨mod0, hmem, hname0⟩ := hM
    have hfind : (List.find? (fun mod => mod.name == lit "main") M).isSome := by
      rw [List.find?_isSome]
      exact ⟨mod0, hmem, by simpa using hname0⟩
    cases hf : List.find? (fun mod => mod.name == lit "main") M with
    | none => rw [hf] at hfind; cases hfind
    | some mm =>
      have h1 : (mainModuleLines M).getLast? = some (lit "    return OUTPUT") := by
        rw [mainModuleLines, hf]
        simp only
        have e : [lit "def transform(INPUT):", lit "    \"\"\"Main transformation\"\"\"",
            lit "    OUTPUT = \x7b\x7d", lit "    "] ++
            (List.map mainMappingLines mm.mappings).flatten ++
            [lit "    ", lit "    return OUTPUT"] =
            ([lit "def transform(INPUT):", lit "    \"\"\"Main transformation\"\"\"",
            lit "    OUTPUT = \x7b\x7d", lit "    "] ++
            (List.map mainMappingLines mm.mappings).flatten) ++
            [lit "    ", lit "    return OUTPUT"] := by
          simp [List.append_assoc]
        rw [e, List.getLast?_append_of_ne_nil]
        · rfl
        · simp
      rw [generateLines]
      rw [List.getLast?_append_of_ne_nil]
      · exact h1
      · intro hnil
        rw [hnil] at h1
        simp at h1

/-- Witness for C4 at concrete inputs. -/
theorem generateCode_module_order_witness :
    generateLines ([] ++ (⟨lit "aux", []⟩ : GModule) ::
        [⟨lit "h", [Mapping.moduleCall (lit "a")]⟩]) =
      generateLines ([] ++ [⟨lit "h", [Mapping.moduleCall (lit "a")]⟩]) ∧
    generateLines ([] ++ (⟨lit "main", [Mapping.moduleCall (lit "a")]⟩ : GModule) ::
        [⟨lit "h", [Mapping.moduleCall (lit "a")]⟩]) =
      generateLines ([] ++ [⟨lit "h", [Mapping.moduleCall (lit "a")]⟩] ++
        [⟨lit "main", [Mapping.moduleCall (lit "a")]⟩]) ∧
    (generateLines [⟨lit "main", [Mapping.moduleCall (lit "a")]⟩]).getLast? =
      some (lit "    return OUTPUT") :=
  generateCode_module_order [] [⟨lit "h", [Mapping.moduleCall (lit "a")]⟩]
    [⟨lit "main", [Mapping.moduleCall (lit "a")]⟩] (lit "aux")
    ⟨lit "main", [Mapping.moduleCall (lit "a")]⟩ (by decide) (by decide)
    (by decide) (by decide)
    ⟨⟨lit "main", [Mapping.moduleCall (lit "a")]⟩, by decide, by decide⟩

/-!
## Claim theorems (C6) -/

/-- C6 counterexample: the claim says an empty-target field mapping
contributes no line to the generated text, but an empty-target
*regex* mapping still triggers the global `import re` line, so the
generated text differs from the text generated without it. -/
theorem generate_skip_regex_import :
    lit "import re" ∈ generateLines [⟨lit "main", [Mapping.regexMapping [] none none none none]⟩] ∧
    generateLines [⟨lit "main", [Mapping.regexMapping [] none none none none]⟩] ≠
      generateLines [⟨lit "main", []⟩] := by
  refine ⟨by decide, by decide⟩

/-- C6 amended: a field mapping with an empty target, or a field
mapping whose transformation kind has no registry plugin, contributes
no *statement* line to its module's body (in either a helper module
or `main`), and the body lines of the remaining mappings are exactly
those generated without it — generation never fails; only the global
`import re` header can still betray a skipped regex-kind mapping. -/
theorem mapping_skip_spec (m : Mapping) (A B : List Mapping)
    (hfield : ¬ m.typeOf = lit "module_call")
    (hskip : m.targetAttr = some [] ∨ pluginGenerate m.transformationOf = none) :
    helperMappingLines m = [] ∧ mainMappingLines m = [] ∧
    ((A ++ m :: B).map helperMappingLines).flatten = ((A ++ B).map helperMappingLines).flatten ∧
    ((A ++ m :: B).map mainMappingLines).flatten = ((A ++ B).map mainMappingLines).flatten := by
  have hfml : fieldMappingLines m = [] := by
    rw [fieldMappingLines]
    cases hp : pluginGenerate m.transformationOf with
    | none => rfl
    | some gen =>
      cases hskip with
      | inl ht => rw [ht]; simp
      | inr hnone => rw [hp] at hnone; cases hnone
  have h1 : helperMappingLines m = [] := by
    cases m <;> first
      | exact absurd rfl hfield
      | simp [helperMappingLines, hfml]
  have h2 : mainMappingLines m = [] := by
    cases m <;> first
      | exact absurd rfl hfield
      | simp [mainMappingLines, hfml]
  exact ⟨h1, h2, by simp [h1], by simp [h2]⟩

/-- Witness for C6 amended at concrete inputs: an unknown-kind
mapping and its removal leave the body lines unchanged. -/
theorem mapping_skip_spec_witness :
    helperMappingLines (Mapping.unknown (lit "mystery") (lit "x")) = [] ∧
    mainMappingLines (Mapping.unknown (lit "mystery") (lit "x")) = [] ∧
    (([Mapping.direct (lit "t") (lit "s") .absent] ++
        Mapping.unknown (lit "mystery") (lit "x") :: []).map helperMappingLines).flatten =
      (([Mapping.direct (lit "t") (lit "s") .absent] ++ []).map helperMappingLines).flatten ∧
    (([Mapping.direct (lit "t") (lit "s") .absent] ++
        Mapping.unknown (lit "mystery") (lit "x") :: []).map mainMappingLines).flatten =
      (([Mapping.direct (lit "t") (lit "s") .absent] ++ []).map mainMappingLines).flatten :=
  mapping_skip_spec (Mapping.unknown (lit "mystery") (lit "x"))
    [Mapping.direct (lit "t") (lit "s") .absent] [] (by decide) (Or.inr rfl)

/-!
## Claim theorems (C3) -/

theorem diffFold1 (oF : List (Str × FlatEntry)) :
    ∀ (cF : List (Str × FlatEntry)) (init : Changes),
      cF.foldl (fun ch p =>
        match objLookup oF p.1 with
        | none => { ch with added := ch.added ++ [p.2] }
        | some o =>
          if attrsDiffer p.2.mapping o.mapping then
            { ch with modified := ch.modified ++ [(p.2, o)] }
          else { ch with unchanged := ch.unchanged ++ [p.2] }) init =
      { added := init.added ++
          (cF.filter (fun p => (objLookup oF p.1).isNone)).map (fun p => p.2),
        removed := init.removed,
        modified := init.modified ++ cF.filterMap (fun p =>
          match objLookup oF p.1 with
          | some o => if attrsDiffer p.2.mapping o.mapping then some (p.2, o) else none
          | none => none),
        unchanged := init.unchanged ++ cF.filterMap (fun p =>
          match objLookup oF p.1 with
          | some o => if attrsDiffer p.2.mapping o.mapping then none else some p.2
          | none => none) } := by
  intro cF
  induction cF with
  | nil => intro init; simp
  | cons p t ih =>
    intro init
    rw [List.foldl_cons]
    cases ho : objLookup oF p.1 with
    | none =>
      simp only [ho]
      rw [ih]
      simp [List.filter_cons, List.filterMap_cons, ho]
    | some o =>
      simp only [ho]
      by_cases hd : attrsDiffer p.2.mapping o.mapping
      · rw [if_pos hd, ih]
        simp [List.filter_cons, List.filterMap_cons, ho, hd]
      · rw [if_neg hd, ih]
        simp only [List.filter_cons, List.filterMap_cons, ho]
        have hd2 : attrsDiffer p.2.mapping o.mapping = false := by simpa using hd
        simp [hd2]

theorem diffFold2 (cF : List (Str × FlatEntry)) :
    ∀ (oF : List (Str × FlatEntry)) (init : Changes),
      oF.foldl (fun ch p => if (objLookup cF p.1).isSome then ch
        else { ch with removed := ch.removed ++ [p.2] }) init =
      { added := init.added,
        removed := init.removed ++
          (oF.filter (fun p => (objLookup cF p.1).isNone)).map (fun p => p.2),
        modified := init.modified,
        unchanged := init.unchanged } := by
  intro oF
  induction oF with
  | nil => intro init; simp
  | cons p t ih =>
    intro init
    rw [List.foldl_cons]
    cases ho : objLookup cF p.1 with
    | none =>
      simp only [ho, Option.isSome_none, Bool.false_eq_true, if_false]
      rw [ih]
      simp [List.filter_cons, ho]
    | some o =>
      simp only [ho, Option.isSome_some, if_true]
      rw [ih]
      simp [List.filter_cons, ho]

/-- C3: diff classification — with an original snapshot, `added` is
exactly the current-flat entries whose key is absent from the
original flat, `removed` the original-flat entries absent from the
current flat, and a key present in both is `modified` precisely when
one of the compared attributes (source, transformation kind,
transform, callee name) differs under the strict `!==`, `unchanged`
otherwise; with no original snapshot all four sets are empty; on the
spec's concrete example the result is `modified = [x]`, `added = [y]`,
`removed = []`; and the strict compares distinguish the reachable
presence states: a `transform` that is `null` on one side and absent
on the other, and a `source` that is `""` on one side and absent on
the other, each make the pair differ. -/
theorem calculateChanges_classification (origM currM : List GModule) :
    (calculateChanges (some origM) currM).added =
      ((flattenModules currM).filter
        (fun p => (objLookup (flattenModules origM) p.1).isNone)).map (fun p => p.2) ∧
    (calculateChanges (some origM) currM).removed =
      ((flattenModules origM).filter
        (fun p => (objLookup (flattenModules currM) p.1).isNone)).map (fun p => p.2) ∧
    (calculateChanges (some origM) currM).modified =
      (flattenModules currM).filterMap (fun p =>
        match objLookup (flattenModules origM) p.1 with
        | some o => if attrsDiffer p.2.mapping o.mapping then some (p.2, o) else none
        | none => none) ∧
    (calculateChanges (some origM) currM).unchanged =
      (flattenModules currM).filterMap (fun p =>
        match objLookup (flattenModules origM) p.1 with
        | some o => if attrsDiffer p.2.mapping o.mapping then none else some p.2
        | none => none) ∧
    calculateChanges none currM = ⟨[], [], [], []⟩ ∧
    calculateChanges (some [⟨lit "main", [Mapping.direct (lit "x") (lit "a") .absent]⟩])
        [⟨lit "main", [Mapping.direct (lit "x") (lit "b") .absent,
                       Mapping.direct (lit "y") (lit "c") .absent]⟩] =
      ⟨[⟨lit "main", Mapping.direct (lit "y") (lit "c") .absent⟩], [],
       [(⟨lit "main", Mapping.direct (lit "x") (lit "b") .absent⟩,
         ⟨lit "main", Mapping.direct (lit "x") (lit "a") .absent⟩)], []⟩ ∧
    attrsDiffer (Mapping.direct (lit "x") (lit "s") .null)
      (Mapping.direct (lit "x") (lit "s") .absent) = true ∧
    attrsDiffer
      (Mapping.conditional (lit "t") (lit "f") (lit "==") (lit "1") (lit "y") (lit "n")
        (some []) .absent)
      (Mapping.conditional (lit "t") (lit "f") (lit "==") (lit "1") (lit "y") (lit "n")
        none .absent) = true := by
  have hmain : calculateChanges (some origM) currM =
      { added := (flattenModules currM).filter
          (fun p => (objLookup (flattenModules origM) p.1).isNone) |>.map (fun p => p.2),
        removed := (flattenModules origM).filter
          (fun p => (objLookup (flattenModules currM) p.1).isNone) |>.map (fun p => p.2),
        modified := (flattenModules currM).filterMap (fun p =>
          match objLookup (flattenModules origM) p.1 with
          | some o => if attrsDiffer p.2.mapping o.mapping then some (p.2, o) else none
          | none => none),
        unchanged := (flattenModules currM).filterMap (fun p =>
          match objLookup (flattenModules origM) p.1 with
          | some o => if attrsDiffer p.2.mapping o.mapping then none else some p.2
          | none => none) } := by
    rw [calculateChanges]
    rw [diffFold1, diffFold2]
    simp
  refine ⟨by rw [hmain], by rw [hmain], by rw [hmain], by rw [hmain], rfl, by decide,
    by decide, by decide⟩

/-!
## Character-class and trim lemmas (round-trip support) -/

theorem ne_of_class {c d : Char} (h : isLowerWordChar c = true)
    (h2 : isLowerWordChar d = false) : c ≠ d := by
  intro he
  rw [he, h2] at h
  cases h

theorem lower_isWordChar {c : Char} (h : isLowerWordChar c = true) : isWordChar c = true := by
  rw [isLowerWordChar] at h
  rw [isWordChar]
  rcases Bool.or_eq_true_iff.mp h with h1 | h1
  · rcases Bool.or_eq_true_iff.mp h1 with h2 | h2
    · simp [Char.isAlpha, h2]
    · simp [h2]
  · simp [h1]

theorem lower_not_WS {c : Char} (h : isLowerWordChar c = true) : isWS c = false := by
  have h1 : c ≠ ' ' := ne_of_class h (by decide)
  have h2 : c ≠ '\t' := ne_of_class h (by decide)
  have h3 : c ≠ '\n' := ne_of_class h (by decide)
  have h4 : c ≠ '\r' := ne_of_class h (by decide)
  simp [isWS, h1, h2, h3, h4]

theorem dropWhile_append_all {p : Char → Bool} :
    ∀ (xs ys : Str), (∀ c ∈ xs, p c = true) → (xs ++ ys).dropWhile p = ys.dropWhile p := by
  intro xs ys h
  induction xs with
  | nil => rfl
  | cons a t ih =>
    have ha : p a = true := h a (by simp)
    simp [List.dropWhile_cons, ha]
    exact ih fun c hc => h c (by simp [hc])

theorem dropWhile_head_false {p : Char → Bool} {c : Char} (rest : Str) (h : p c = false) :
    (c :: rest).dropWhile p = c :: rest := by
  simp [List.dropWhile_cons, h]

theorem takeWhile_all {p : Char → Bool} :
    ∀ (xs : Str), (∀ c ∈ xs, p c = true) → xs.takeWhile p = xs := by
  intro xs h
  induction xs with
  | nil => rfl
  | cons a t ih =>
    have ha : p a = true := h a (by simp)
    simp [List.takeWhile_cons, ha]
    exact fun c hc => h c (by simp [hc])

/-- `trim` of a 4-space-indented line whose content starts and ends
with a non-whitespace character. -/
theorem trim_indent (r : Str) (hne : r ≠ [])
    (hh : ∀ c, r.head? = some c → isWS c = false)
    (hl : ∀ c, r.getLast? = some c → isWS c = false) :
    trim (lit "    " ++ r) = r := by
  rw [trim]
  rw [dropWhile_append_all (lit "    ") r (by decide)]
  have e2 : r.dropWhile isWS = r := by
    cases hr : r with
    | nil => rfl
    | cons c rest =>
      have hc : isWS c = false := hh c (by rw [hr]; rfl)
      exact dropWhile_head_false rest hc
  rw [e2]
  cases hrev : r.reverse with
  | nil =>
    have : r = [] := by simpa using congrArg List.reverse hrev
    exact absurd this hne
  | cons d drest =>
    have hd : r.getLast? = some d := by
      rw [List.getLast?_eq_head?_reverse, hrev]
      rfl
    have hdw : isWS d = false := hl d hd
    rw [dropWhile_head_false drest hdw, ← hrev, List.reverse_reverse]

/-!
## Matcher lemmas (round-trip support) -/

theorem dropLit_append (p : Str) : ∀ (q l : Str), dropLit (p ++ q) (p ++ l) = dropLit q l := by
  induction p with
  | nil => intro q l; rfl
  | cons a t ih => intro q l; simp [dropLit, ih]

theorem dropLit_head_ne {a b : Char} (p l : Str) (h : a ≠ b) :
    dropLit (a :: p) (b :: l) = none := by
  simp [dropLit]
  intro he
  exact absurd he h

theorem matchDefTransform_head (c : Char) (rest : Str) (h : c ≠ 'd') :
    matchDefTransform (c :: rest) = false := by
  rw [matchDefTransform]
  have e : (lit "def transform(INPUT):" : Str) = 'd' :: lit "ef transform(INPUT):" := by decide
  rw [e, dropLit_head_ne _ _ (fun he => h he.symm)]
  rfl

theorem matchDefModule_head (c : Char) (rest : Str) (h : c ≠ 'd') :
    matchDefModule (c :: rest) = none := by
  rw [matchDefModule]
  have e : (lit "def map_" : Str) = 'd' :: lit "ef map_" := by decide
  rw [e, dropLit_head_ne _ _ (fun he => h he.symm)]

theorem startsWithDef_head (c : Char) (rest : Str) (h : c ≠ 'd') :
    startsWithDef (c :: rest) = false := by
  rw [startsWithDef]
  have e : (lit "def " : Str) = 'd' :: lit "ef " := by decide
  rw [e, dropLit_head_ne _ _ (fun he => h he.symm)]
  rfl

theorem matchModuleCall_head (c : Char) (rest : Str) (h : c ≠ 'm') :
    matchModuleCall (c :: rest) = none := by
  rw [matchModuleCall]
  have e : (lit "map_" : Str) = 'm' :: lit "ap_" := by decide
  rw [e, dropLit_head_ne _ _ (fun he => h he.symm)]

/-- `def map_<n>...` never matches the entry-point signature. -/
theorem matchDefTransform_defMap (x : Str) :
    matchDefTransform (lit "def map_" ++ x) = false := by
  rw [matchDefTransform]
  have e1 : (lit "def transform(INPUT):" : Str) = lit "def " ++ ('t' :: lit "ransform(INPUT):") := by
    decide
  have e2 : (lit "def map_" : Str) = lit "def " ++ ('m' :: lit "ap_") := by decide
  rw [e1, e2, List.append_assoc, dropLit_append, List.cons_append, dropLit_head_ne]
  · rfl
  · decide

/-- The sub-routine definition line `def map_<name>(INPUT, OUTPUT):`
opens module `name` (for a word-character `name`). -/
theorem matchDefModule_emit (n x : Str) (hn : lowerWord n = true)
    (hx : x = lit "(INPUT, OUTPUT):") :
    matchDefModule (lit "def map_" ++ (n ++ x)) = some n := by
  rw [matchDefModule]
  simp only [dropLit_self]
  obtain ⟨hne, hall⟩ := by
    rw [lowerWord] at hn
    exact Bool.and_eq_true_iff.mp hn
  have hword : ∀ c ∈ n, isWordChar c = true := fun c hc =>
    lower_isWordChar (by
      rw [List.all_eq_true] at hall
      exact hall c hc)
  have e : x = '(' :: lit "INPUT, OUTPUT):" := by rw [hx]; decide
  rw [e]
  rw [takeWhile_append_stop n '(' _ hword (by decide)]
  have hnem : n.isEmpty = false := by
    cases n
    · simp at hne
    · rfl
  rw [hnem]
  simp only [Bool.false_eq_true, if_false]
  rw [List.drop_left]
  have hdl : dropLit (lit "(INPUT, OUTPUT):") ('(' :: lit "INPUT, OUTPUT):") = some [] := by decide
  rw [hdl]
  rfl

/-- The module-call statement line matches the module-call pattern. -/
theorem matchModuleCall_emit (n : Str) (hn : lowerWord n = true) :
    matchModuleCall (lit "map_" ++ (n ++ lit "(INPUT, OUTPUT)")) = some n := by
  rw [matchModuleCall]
  simp only [dropLit_self]
  obtain ⟨hne, hall⟩ := by
    rw [lowerWord] at hn
    exact Bool.and_eq_true_iff.mp hn
  have hword : ∀ c ∈ n, isWordChar c = true := fun c hc =>
    lower_isWordChar (by
      rw [List.all_eq_true] at hall
      exact hall c hc)
  have e : (lit "(INPUT, OUTPUT)" : Str) = '(' :: lit "INPUT, OUTPUT)" := by decide
  rw [e, takeWhile_append_stop n '(' _ hword (by decide)]
  have hnem : n.isEmpty = false := by
    cases n
    · simp at hne
    · rfl
  rw [hnem]
  simp only [Bool.false_eq_true, if_false]
  rw [List.drop_left]
  have hdl : dropLit ('(' :: lit "INPUT, OUTPUT)") ('(' :: lit "INPUT, OUTPUT)") = some [] := by
    decide
  rw [hdl]
  rfl

/-- The module-call line does not look like a `def` line. -/
theorem startsWithDef_mapline (x : Str) : startsWithDef (lit "map_" ++ x) = false := by
  have e : lit "map_" ++ x = 'm' :: (lit "ap_" ++ x) := by rfl
  rw [e]
  exact startsWithDef_head 'm' _ (by decide)

theorem allowedTransform_elim (tr : JTransform) (h : allowedTransform tr = true) :
    tr.toOption = none ∨ ∃ w, tr.toOption = some w ∧ lowerWord w = true := by
  rw [allowedTransform] at h
  rcases Bool.or_eq_true_iff.mp h with h1 | h1
  · rcases Bool.or_eq_true_iff.mp h1 with h2 | h2
    · rcases Bool.or_eq_true_iff.mp h2 with h3 | h3
      · have : tr = JTransform.null := by simpa using h3
        exact Or.inl (by rw [this]; rfl)
      · have : tr = JTransform.str (lit "upper") := by simpa using h3
        exact Or.inr ⟨lit "upper", by rw [this]; rfl, by decide⟩
    · have : tr = JTransform.str (lit "lower") := by simpa using h2
      exact Or.inr ⟨lit "lower", by rw [this]; rfl, by decide⟩
  · have : tr = JTransform.str (lit "capitalize") := by simpa using h1
    exact Or.inr ⟨lit "capitalize", by rw [this]; rfl, by decide⟩

theorem allowedTransform_cases (tr : JTransform) (h : allowedTransform tr = true) :
    tr = .null ∨ tr = .str (lit "upper") ∨ tr = .str (lit "lower") ∨
      tr = .str (lit "capitalize") := by
  rw [allowedTransform] at h
  rcases Bool.or_eq_true_iff.mp h with h1 | h1
  · rcases Bool.or_eq_true_iff.mp h1 with h2 | h2
    · rcases Bool.or_eq_true_iff.mp h2 with h3 | h3
      · exact Or.inl (by simpa using h3)
      · exact Or.inr (Or.inl (by simpa using h3))
    · exact Or.inr (Or.inr (Or.inl (by simpa using h2)))
  · exact Or.inr (Or.inr (Or.inr (by simpa using h1)))

theorem allowedCapture_cases (tr : Option Str) (h : allowedCapture tr = true) :
    tr = none ∨ tr = some (lit "upper") ∨ tr = some (lit "lower") ∨
      tr = some (lit "capitalize") := by
  rw [allowedCapture] at h
  rcases Bool.or_eq_true_iff.mp h with h1 | h1
  · rcases Bool.or_eq_true_iff.mp h1 with h2 | h2
    · rcases Bool.or_eq_true_iff.mp h2 with h3 | h3
      · exact Or.inl (by simpa using h3)
      · exact Or.inr (Or.inl (by simpa using h3))
    · exact Or.inr (Or.inr (Or.inl (by simpa using h2)))
  · exact Or.inr (Or.inr (Or.inr (by simpa using h1)))

theorem allowedCapture_of (tr : JTransform) (h : allowedTransform tr = true) :
    allowedCapture tr.toOption = true ∧ parsedTransform tr.toOption = tr := by
  rcases allowedTransform_cases tr h with rfl | rfl | rfl | rfl
  · exact ⟨by decide, by decide⟩
  · exact ⟨by decide, by decide⟩
  · exact ⟨by decide, by decide⟩
  · exact ⟨by decide, by decide⟩

theorem lowerWord_mem {s : Str} (hs : lowerWord s = true) :
    s ≠ [] ∧ ∀ c ∈ s, isLowerWordChar c = true := by
  rw [lowerWord] at hs
  obtain ⟨h1, h2⟩ := Bool.and_eq_true_iff.mp hs
  refine ⟨?_, ?_⟩
  · cases s
    · simp at h1
    · simp
  · rw [List.all_eq_true] at h2
    exact h2

theorem optTransform_nil : optTransform [] = none := rfl

theorem optTransform_emit (w : Str) (hw : lowerWord w = true) :
    optTransform ('.' :: (w ++ lit "()")) = some w := by
  obtain ⟨hwne, hwmem⟩ := lowerWord_mem hw
  rw [optTransform]
  have hw3 : w ++ lit "()" = w ++ ('(' :: lit ")") := by
    rw [show (lit "()" : Str) = '(' :: lit ")" from by decide]
  rw [hw3]
  rw [takeWhile_append_stop w '(' _ (fun c hc => lower_isWordChar (hwmem c hc)) (by decide)]
  have hwem : w.isEmpty = false := by
    cases w
    · exact absurd rfl hwne
    · rfl
  rw [hwem]
  simp only [Bool.false_eq_true, if_false]
  rw [List.drop_left]
  rfl

/-- The anchored simple-assignment attempt on a generated
single-segment assignment line recovers target, source and
transform. -/
theorem attemptSimple_emit (t s : Str) (tr : Option Str)
    (ht : t ≠ []) (htq : ∀ c ∈ t, ¬ c = '"') (hs : lowerWord s = true)
    (htr : tr = none ∨ ∃ w, tr = some w ∧ lowerWord w = true) :
    attemptSimple (lit "OUTPUT[\"" ++ (t ++ (lit "\"] = INPUT." ++ (s ++ transformCode tr)))) =
      some (t, s, tr) := by
  obtain ⟨hsne, hsmem⟩ := lowerWord_mem hs
  rw [attemptSimple]
  simp only [dropLit_self]
  have hu : lit "\"] = INPUT." ++ (s ++ transformCode tr) =
      '"' :: (lit "] = INPUT." ++ (s ++ transformCode tr)) := by
    rw [show (lit "\"] = INPUT." : Str) = '"' :: lit "] = INPUT." from by decide,
      List.cons_append]
  rw [hu]
  rw [takeWhile_append_stop t '"' _ (fun c hc => by simpa using htq c hc) (by decide)]
  have htem : t.isEmpty = false := by
    cases t
    · exact absurd rfl ht
    · rfl
  rw [htem]
  simp only [Bool.false_eq_true, if_false]
  rw [List.drop_left]
  have hv : lit "] = INPUT." ++ (s ++ transformCode tr) =
      ']' :: (lit " = INPUT." ++ (s ++ transformCode tr)) := by
    rw [show (lit "] = INPUT." : Str) = ']' :: lit " = INPUT." from by decide,
      List.cons_append]
  rw [hv]
  have hdrop2 : ∀ w : Str, dropLit (lit "\"]") ('"' :: ']' :: w) = some w := fun w => rfl
  simp only [hdrop2]
  have hw1 : lit " = INPUT." ++ (s ++ transformCode tr) =
      ' ' :: ('=' :: (lit " INPUT." ++ (s ++ transformCode tr))) := by
    rw [show (lit " = INPUT." : Str) = ' ' :: '=' :: lit " INPUT." from by decide,
      List.cons_append, List.cons_append]
  rw [hw1]
  have hdw1 : (' ' :: ('=' :: (lit " INPUT." ++ (s ++ transformCode tr)))).dropWhile isWS =
      '=' :: (lit " INPUT." ++ (s ++ transformCode tr)) := by
    rw [List.dropWhile_cons]
    simp only [show isWS ' ' = true from rfl, if_true]
    exact dropWhile_head_false _ (by decide)
  simp only [hdw1]
  have hw2 : lit " INPUT." ++ (s ++ transformCode tr) =
      ' ' :: (lit "INPUT." ++ (s ++ transformCode tr)) := by
    rw [show (lit " INPUT." : Str) = ' ' :: lit "INPUT." from by decide, List.cons_append]
  rw [hw2]
  have hdw2 : (' ' :: (lit "INPUT." ++ (s ++ transformCode tr))).dropWhile isWS =
      lit "INPUT." ++ (s ++ transformCode tr) := by
    rw [List.dropWhile_cons]
    simp only [show isWS ' ' = true from rfl, if_true]
    exact dropWhile_head_false _ (by decide)
  simp only [hdw2, dropLit_self]
  have hsgood : ∀ c ∈ s, (!isWS c && c != '.') = true := by
    intro c hc
    have h1 := lower_not_WS (hsmem c hc)
    have h2 : c ≠ '.' := ne_of_class (hsmem c hc) (by decide)
    simp [h1, h2]
  have hsem : s.isEmpty = false := by
    cases s
    · exact absurd rfl hsne
    · rfl
  rcases htr with rfl | ⟨w, rfl, hw⟩
  · have htc : transformCode none = [] := rfl
    rw [htc, List.append_nil]
    rw [takeWhile_all s hsgood]
    rw [hsem]
    simp only [Bool.false_eq_true, if_false]
    rw [List.drop_length, optTransform_nil]
  · have htc : transformCode (some w) = '.' :: (w ++ lit "()") := rfl
    rw [htc]
    rw [takeWhile_append_stop s '.' _ hsgood (by decide)]
    rw [hsem]
    simp only [Bool.false_eq_true, if_false]
    rw [List.drop_left, optTransform_emit w hw]

theorem attemptSimple_none_no_O (l : Str) (h : ∀ c ∈ l, ¬ c = 'O') :
    attemptSimple l = none := by
  cases l with
  | nil => rfl
  | cons c rest =>
    rw [attemptSimple]
    rw [show (lit "OUTPUT[\"" : Str) = 'O' :: lit "UTPUT[\"" from by decide]
    rw [dropLit_head_ne _ _ (fun he => (h c (by simp)) he.symm)]

theorem matchSimple_cons_none (c : Char) (rest : Str) (h : attemptSimple (c :: rest) = none) :
    matchSimple (c :: rest) = matchSimple rest := by
  show (match attemptSimple (c :: rest) with
    | some r => some r
    | none => matchSimple rest) = matchSimple rest
  rw [h]

theorem matchSimple_of_attempt (c : Char) (rest : Str) (r : Str × Str × Option Str)
    (h : attemptSimple (c :: rest) = some r) : matchSimple (c :: rest) = some r := by
  show (match attemptSimple (c :: rest) with
    | some r => some r
    | none => matchSimple rest) = some r
  rw [h]

theorem matchSimple_none_no_O (l : Str) (h : ∀ c ∈ l, ¬ c = 'O') :
    matchSimple l = none := by
  induction l with
  | nil => rfl
  | cons c rest ih =>
    rw [matchSimple_cons_none c rest (attemptSimple_none_no_O _ h)]
    exact ih fun x hx => h x (by simp [hx])

theorem attemptNested_none_no_O (l : Str) (h : ∀ c ∈ l, ¬ c = 'O') :
    attemptNested l = none := by
  cases l with
  | nil => rfl
  | cons c rest =>
    rw [attemptNested]
    rw [show (lit "OUTPUT" : Str) = 'O' :: lit "UTPUT" from by decide]
    rw [dropLit_head_ne _ _ (fun he => (h c (by simp)) he.symm)]

theorem matchNested_cons_none (c : Char) (rest : Str) (h : attemptNested (c :: rest) = none) :
    matchNested (c :: rest) = matchNested rest := by
  show (match attemptNested (c :: rest) with
    | some r => some r
    | none => matchNested rest) = matchNested rest
  rw [h]

theorem matchNested_of_attempt (c : Char) (rest : Str) (r : Str × Option Str)
    (h : attemptNested (c :: rest) = some r) : matchNested (c :: rest) = some r := by
  show (match attemptNested (c :: rest) with
    | some r => some r
    | none => matchNested rest) = some r
  rw [h]

theorem matchNested_none_no_O (l : Str) (h : ∀ c ∈ l, ¬ c = 'O') :
    matchNested l = none := by
  induction l with
  | nil => rfl
  | cons c rest ih =>
    rw [matchNested_cons_none c rest (attemptNested_none_no_O _ h)]
    exact ih fun x hx => h x (by simp [hx])

theorem attemptCond_none_no_O (l : Str) (h : ∀ c ∈ l, ¬ c = 'O') :
    attemptCond l = none := by
  cases l with
  | nil => rfl
  | cons c rest =>
    rw [attemptCond]
    rw [show (lit "OUTPUT[\"" : Str) = 'O' :: lit "UTPUT[\"" from by decide]
    rw [dropLit_head_ne _ _ (fun he => (h c (by simp)) he.symm)]

theorem matchCond_cons_none (c : Char) (rest : Str)
    (h : attemptCond (c :: rest) = none) : matchCond (c :: rest) = matchCond rest := by
  show (match attemptCond (c :: rest) with
    | some r => some r
    | none => matchCond rest) = matchCond rest
  rw [h]

theorem matchCond_of_attempt (c : Char) (rest : Str) (r : Str × Str × Str × Str × Str × Str)
    (h : attemptCond (c :: rest) = some r) : matchCond (c :: rest) = some r := by
  show (match attemptCond (c :: rest) with
    | some r => some r
    | none => matchCond rest) = some r
  rw [h]

theorem matchCond_none_no_O (l : Str) (h : ∀ c ∈ l, ¬ c = 'O') :
    matchCond l = none := by
  induction l with
  | nil => rfl
  | cons c rest ih =>
    rw [matchCond_cons_none c rest (attemptCond_none_no_O _ h)]
    exact ih fun x hx => h x (by simp [hx])

/-!
## Lazy-source lemmas (nested-assignment pattern) -/

theorem lazy_end_none (acc : Str) : lazySourceLoop acc [] = some (acc, none) := rfl

theorem lazy_end_tr (acc w : Str) (hw : lowerWord w = true) :
    lazySourceLoop acc ('.' :: (w ++ lit "()")) = some (acc, some w) := by
  obtain ⟨hwne, hwmem⟩ := lowerWord_mem hw
  rw [lazySourceLoop]
  have h1 : w ++ lit "()" = w ++ ('(' :: lit ")") := by
    rw [show (lit "()" : Str) = '(' :: lit ")" from by decide]
  rw [h1, takeWhile_append_stop w '(' _ (fun c hc => lower_isWordChar (hwmem c hc)) (by decide)]
  have hwem : w.isEmpty = false := by
    cases w
    · exact absurd rfl hwne
    · rfl
  rw [List.drop_left]
  have hcond : (!w.isEmpty && (('(' :: lit ")" : Str) == lit "()")) = true := by
    rw [hwem]
    have : (('(' :: lit ")" : Str) == lit "()") = true := by decide
    rw [this]
    rfl
  rw [hcond]
  simp

theorem lazy_skip_word : ∀ (w : Str) (acc rest : Str),
    (∀ c ∈ w, isLowerWordChar c = true) →
    lazySourceLoop acc (w ++ rest) = lazySourceLoop (acc ++ w) rest := by
  intro w
  induction w with
  | nil => intro acc rest _; simp
  | cons c w2 ih =>
    intro acc rest hw
    have hc := hw c (by simp)
    have hcd : c ≠ '.' := ne_of_class hc (by decide)
    rw [List.cons_append, lazySourceLoop.eq_def]
    split
    · rename_i heq
      cases heq
    · rename_i r2 heq
      injection heq with h1 h2
      exact absurd h1 hcd
    · rename_i c2 r3 hne heq
      injection heq with h1 h2
      subst h1
      subst h2
      rw [lower_isWordChar hc]
      simp only [Bool.true_or, if_true]
      rw [ih (acc ++ [c]) rest (fun x hx => hw x (by simp [hx])), List.append_assoc]
      rfl

theorem beq_false_head (a b : Char) (as bs : Str) (h : a ≠ b) :
    ((a :: as : Str) == (b :: bs)) = false := by
  rw [beq_eq_false_iff_ne]
  intro hEq
  injection hEq with h1 _
  exact h h1

theorem lazy_dot_step (acc s2 u : Str) (hs2 : lowerWord s2 = true)
    (hu : u = [] ∨ ∃ v, u = '.' :: v) :
    lazySourceLoop acc ('.' :: (s2 ++ u)) = lazySourceLoop (acc ++ ['.']) (s2 ++ u) := by
  obtain ⟨hne, hmem⟩ := lowerWord_mem hs2
  rw [lazySourceLoop]
  rcases hu with rfl | ⟨v, rfl⟩
  · rw [List.append_nil]
    have htw : List.takeWhile isWordChar s2 = s2 :=
      List.takeWhile_eq_self_iff.mpr (fun c hc => lower_isWordChar (hmem c hc))
    rw [htw, List.drop_length]
    have hbeq : (([] : Str) == lit "()") = false := by decide
    rw [hbeq, Bool.and_false]
    simp
  · rw [takeWhile_append_stop s2 '.' v (fun c hc => lower_isWordChar (hmem c hc)) (by decide),
       List.drop_left]
    have hbeq : (('.' :: v : Str) == lit "()") = false := by
      rw [show (lit "()" : Str) = '(' :: lit ")" from by decide]
      exact beq_false_head '.' '(' v (lit ")") (by decide)
    rw [hbeq, Bool.and_false]
    simp

theorem lazy_segs : ∀ (segs : List Str) (acc : Str) (trOpt : Option Str),
    segs ≠ [] → (∀ s ∈ segs, lowerWord s = true) →
    (∀ w, trOpt = some w → lowerWord w = true) →
    lazySourceLoop acc (joinWithChar '.' segs ++ transformCode trOpt) =
      some (acc ++ joinWithChar '.' segs, trOpt) := by
  intro segs
  induction segs with
  | nil => intro acc trOpt hne _ _; exact absurd rfl hne
  | cons s segs2 ih =>
    intro acc trOpt _ hmem htr
    have hs := hmem s (by simp)
    obtain ⟨hsne, hsmem⟩ := lowerWord_mem hs
    cases segs2 with
    | nil =>
      show lazySourceLoop acc (s ++ transformCode trOpt) = some (acc ++ s, trOpt)
      rw [lazy_skip_word s acc _ hsmem]
      cases trOpt with
      | none => exact lazy_end_none _
      | some w => exact lazy_end_tr _ w (htr w rfl)
    | cons s2 t2 =>
      have hs2 := hmem s2 (by simp)
      have hj : joinWithChar '.' (s :: s2 :: t2) = s ++ '.' :: joinWithChar '.' (s2 :: t2) := rfl
      have hdec : ∃ u, joinWithChar '.' (s2 :: t2) ++ transformCode trOpt = s2 ++ u ∧
          (u = [] ∨ ∃ v, u = '.' :: v) := by
        cases t2 with
        | nil =>
          cases trOpt with
          | none => exact ⟨[], by simp [joinWithChar, transformCode], Or.inl rfl⟩
          | some w =>
            exact ⟨'.' :: (w ++ lit "()"), by simp [joinWithChar, transformCode], Or.inr ⟨_, rfl⟩⟩
        | cons t3 t4 =>
          refine ⟨'.' :: (joinWithChar '.' (t3 :: t4) ++ transformCode trOpt), ?_, Or.inr ⟨_, rfl⟩⟩
          show (s2 ++ '.' :: joinWithChar '.' (t3 :: t4)) ++ _ = _
          simp
      obtain ⟨u, hu1, hu2⟩ := hdec
      rw [hj, List.append_assoc, lazy_skip_word s acc _ hsmem, List.cons_append, hu1,
        lazy_dot_step _ s2 u hs2 hu2, ← hu1,
        ih (acc ++ s ++ ['.']) trOpt (by simp) (fun x hx => hmem x (by simp [hx])) htr]
      simp [List.append_assoc]

/-!
## Bracket-chain lemmas -/

theorem bracketConcat_length_ge : ∀ segs : List Str, segs.length ≤ (bracketConcat segs).length := by
  intro segs
  induction segs with
  | nil => simp [bracketConcat]
  | cons s t ih =>
    have hc : bracketConcat (s :: t) = bracketPart s ++ bracketConcat t := by
      simp [bracketConcat]
    rw [hc, List.length_append]
    have hp : 1 ≤ (bracketPart s).length := by
      rw [bracketPart]
      simp [List.length_append]
      have : (lit "[\"").length = 2 := by decide
      omega
    simp only [List.length_cons]
    omega

theorem bracketChainAux_complete : ∀ (segs : List Str) (fuel : Nat) (rest : Str),
    segs.length ≤ fuel →
    (∀ x ∈ segs, lowerWord x = true) →
    dropLit (lit "[\"") rest = none →
    bracketChainAux fuel (bracketConcat segs ++ rest) = (segs, rest) := by
  intro segs
  induction segs with
  | nil =>
    intro fuel rest _ _ hrest
    show bracketChainAux fuel rest = ([], rest)
    cases fuel with
    | zero => rfl
    | succ f =>
      rw [bracketChainAux]
      simp [hrest]
  | cons seg segs2 ih =>
    intro fuel rest hfuel hmem hrest
    have hseg := hmem seg (by simp)
    obtain ⟨hsne, hsmem⟩ := lowerWord_mem hseg
    cases fuel with
    | zero => simp at hfuel
    | succ f =>
      have hbc : bracketConcat (seg :: segs2) ++ rest =
          lit "[\"" ++ (seg ++ ('"' :: (']' :: (bracketConcat segs2 ++ rest)))) := by
        show (bracketPart seg ++ bracketConcat segs2) ++ rest = _
        rw [bracketPart, show (lit "\"]" : Str) = '"' :: ']' :: [] from by decide]
        simp
      rw [hbc, bracketChainAux]
      simp only [dropLit_self]
      rw [takeWhile_append_stop seg '"' _
        (fun c hc => by simpa using ne_of_class (hsmem c hc) (by decide)) (by decide)]
      have hsem : seg.isEmpty = false := by
        cases seg
        · exact absurd rfl hsne
        · rfl
      rw [hsem]
      simp only [Bool.false_eq_true, if_false]
      rw [List.drop_left]
      have hdrop2 : ∀ w : Str, dropLit (lit "\"]") ('"' :: ']' :: w) = some w := fun w => rfl
      simp only [hdrop2]
      have hf2 : segs2.length ≤ f := by
        simp only [List.length_cons] at hfuel
        omega
      rw [ih f rest hf2 (fun x hx => hmem x (by simp [hx])) hrest]

theorem bracketChainParse_emit (segs : List Str) (rest : Str)
    (hmem : ∀ x ∈ segs, lowerWord x = true)
    (hrest : dropLit (lit "[\"") rest = none) :
    bracketChainParse (bracketConcat segs ++ rest) = (segs, rest) := by
  rw [bracketChainParse]
  refine bracketChainAux_complete segs _ rest ?_ hmem hrest
  have h1 := bracketConcat_length_ge segs
  rw [List.length_append]
  omega

/-- The anchored nested attempt on a generated multi-bracket
assignment line recovers the dotted source and the transform, with the
source given in joined-segments form. -/
theorem attemptNested_emit_join (segs gs : List Str) (tr : Option Str)
    (hsegs : segs ≠ []) (hmem : ∀ x ∈ segs, lowerWord x = true)
    (hgs : gs ≠ []) (hgmem : ∀ x ∈ gs, lowerWord x = true)
    (htr : ∀ w, tr = some w → lowerWord w = true) :
    attemptNested (lit "OUTPUT" ++ (bracketConcat segs ++
        (lit " = INPUT." ++ (joinWithChar '.' gs ++ transformCode tr)))) =
      some (joinWithChar '.' gs, tr) := by
  rw [attemptNested]
  simp only [dropLit_self]
  have hsp : lit " = INPUT." ++ (joinWithChar '.' gs ++ transformCode tr) =
      ' ' :: ('=' :: (' ' :: (lit "INPUT." ++ (joinWithChar '.' gs ++ transformCode tr)))) := by
    rw [show (lit " = INPUT." : Str) = ' ' :: '=' :: ' ' :: lit "INPUT." from by decide]
    simp only [List.cons_append]
  have hrest : dropLit (lit "[\"")
      (lit " = INPUT." ++ (joinWithChar '.' gs ++ transformCode tr)) = none := by
    rw [hsp, show (lit "[\"" : Str) = '[' :: lit "\"" from by decide]
    exact dropLit_head_ne _ _ (by decide)
  rw [bracketChainParse_emit segs _ hmem hrest]
  have hne : segs.isEmpty = false := by
    cases segs
    · exact absurd rfl hsegs
    · rfl
  simp only [hne, Bool.false_eq_true, if_false]
  rw [hsp]
  have hdw1 : (' ' :: ('=' :: (' ' :: (lit "INPUT." ++
      (joinWithChar '.' gs ++ transformCode tr))))).dropWhile isWS =
      '=' :: (' ' :: (lit "INPUT." ++ (joinWithChar '.' gs ++ transformCode tr))) := by
    rw [List.dropWhile_cons]
    simp only [show isWS ' ' = true from rfl, if_true]
    exact dropWhile_head_false _ (by decide)
  simp only [hdw1]
  have hdw2 : (' ' :: (lit "INPUT." ++ (joinWithChar '.' gs ++ transformCode tr))).dropWhile isWS =
      lit "INPUT." ++ (joinWithChar '.' gs ++ transformCode tr) := by
    rw [List.dropWhile_cons]
    simp only [show isWS ' ' = true from rfl, if_true]
    exact dropWhile_head_false _ (by decide)
  simp only [hdw2, dropLit_self]
  obtain ⟨g1, grest, rfl⟩ : ∃ g1 grest, gs = g1 :: grest := by
    cases gs
    · exact absurd rfl hgs
    · exact ⟨_, _, rfl⟩
  have hg1 := hgmem g1 (by simp)
  obtain ⟨hg1ne, hg1mem⟩ := lowerWord_mem hg1
  obtain ⟨c0, g1t, rfl⟩ : ∃ c0 g1t, g1 = c0 :: g1t := by
    cases g1
    · exact absurd rfl hg1ne
    · exact ⟨_, _, rfl⟩
  have hc0 := hg1mem c0 (by simp)
  obtain ⟨T, hT⟩ : ∃ T, joinWithChar '.' ((c0 :: g1t) :: grest) = c0 :: T := by
    cases grest with
    | nil => exact ⟨g1t, rfl⟩
    | cons a b => exact ⟨g1t ++ '.' :: joinWithChar '.' (a :: b), rfl⟩
  have hlz := lazy_segs ((c0 :: g1t) :: grest) [] tr (by simp) hgmem htr
  rw [hT] at hlz
  rw [show (c0 :: T) ++ transformCode tr = c0 :: (T ++ transformCode tr) from rfl,
    show ([] : Str) ++ (c0 :: T) = c0 :: T from rfl] at hlz
  have hskip := lazy_skip_word [c0] [] (T ++ transformCode tr) (fun c hc => by
    simp at hc
    rw [hc]
    exact hc0)
  simp only [List.singleton_append, List.nil_append] at hskip
  rw [hskip] at hlz
  rw [hT, show (c0 :: T) ++ transformCode tr = c0 :: (T ++ transformCode tr) from rfl]
  show (if (isWordChar c0 || c0 == '.') = true then lazySourceLoop [c0] (T ++ transformCode tr)
    else none) = some (c0 :: T, tr)
  rw [lower_isWordChar hc0]
  simp only [Bool.true_or, if_true]
  exact hlz

/-- The anchored nested attempt on a generated multi-bracket
assignment line, with the source as the raw (dotted) path string. -/
theorem attemptNested_emit (segs : List Str) (s : Str) (tr : Option Str)
    (hsegs : segs ≠ []) (hmem : ∀ x ∈ segs, lowerWord x = true)
    (hs : lowerPath s = true)
    (htr : ∀ w, tr = some w → lowerWord w = true) :
    attemptNested (lit "OUTPUT" ++ (bracketConcat segs ++
        (lit " = INPUT." ++ (s ++ transformCode tr)))) = some (s, tr) := by
  have hgmem : ∀ x ∈ splitOnChar '.' s, lowerWord x = true := by
    rw [lowerPath] at hs
    exact fun x hx => List.all_eq_true.mp hs x hx
  have h := attemptNested_emit_join segs (splitOnChar '.' s) tr hsegs hmem
    (splitOnChar_ne_nil '.' s) hgmem htr
  rwa [joinWithChar_splitOnChar] at h

/-!
## Global bracket-scan (`matchAll`) lemmas -/

theorem allBracketsAux_none : ∀ (l : Str) (fuel : Nat), (∀ c ∈ l, ¬ c = '[') →
    allBracketsAux fuel l = [] := by
  intro l
  induction l with
  | nil =>
    intro fuel _
    cases fuel <;> rfl
  | cons c t ih =>
    intro fuel h
    cases fuel with
    | zero => rfl
    | succ f =>
      rw [allBracketsAux]
      have hdrop : dropLit (lit "[\"") (c :: t) = none := by
        rw [show (lit "[\"" : Str) = '[' :: lit "\"" from by decide]
        exact dropLit_head_ne _ _ (fun he => (h c (by simp)) he.symm)
      simp only [hdrop]
      exact ih f (fun x hx => h x (by simp [hx]))
      simp

theorem allBracketsAux_skip : ∀ (x : Str) (fuel : Nat) (l : Str), l ≠ [] →
    (∀ c ∈ x, ¬ c = '[') →
    allBracketsAux (x.length + fuel) (x ++ l) = allBracketsAux fuel l := by
  intro x
  induction x with
  | nil => intro fuel l _ _; simp
  | cons c t ih =>
    intro fuel l hl h
    have hlen : (c :: t).length + fuel = Nat.succ (t.length + fuel) := by
      simp [Nat.succ_add]
    rw [hlen, List.cons_append, allBracketsAux]
    have hdrop : dropLit (lit "[\"") (c :: (t ++ l)) = none := by
      rw [show (lit "[\"" : Str) = '[' :: lit "\"" from by decide]
      exact dropLit_head_ne _ _ (fun he => (h c (by simp)) he.symm)
    simp only [hdrop]
    rw [show (c :: (t ++ l)).drop 1 = t ++ l from rfl]
    exact ih fuel l hl (fun y hy => h y (by simp [hy]))
    simp

theorem allBracketsAux_emit : ∀ (segs : List Str) (fuel : Nat) (rest : Str),
    segs.length ≤ fuel → (∀ x ∈ segs, lowerWord x = true) → (∀ c ∈ rest, ¬ c = '[') →
    allBracketsAux fuel (bracketConcat segs ++ rest) = segs := by
  intro segs
  induction segs with
  | nil =>
    intro fuel rest _ _ hrest
    show allBracketsAux fuel rest = []
    exact allBracketsAux_none rest fuel hrest
  | cons seg t ih =>
    intro fuel rest hfuel hmem hrest
    have hseg := hmem seg (by simp)
    obtain ⟨hsne, hsmem⟩ := lowerWord_mem hseg
    cases fuel with
    | zero => simp at hfuel
    | succ f =>
      have hbc : bracketConcat (seg :: t) ++ rest =
          '[' :: ('"' :: (seg ++ ('"' :: (']' :: (bracketConcat t ++ rest))))) := by
        show (bracketPart seg ++ bracketConcat t) ++ rest = _
        rw [bracketPart, show (lit "\"]" : Str) = '"' :: ']' :: [] from by decide,
          show (lit "[\"" : Str) = '[' :: '"' :: [] from by decide]
        simp
      rw [hbc, allBracketsAux]
      have hdrop : dropLit (lit "[\"")
          ('[' :: ('"' :: (seg ++ ('"' :: (']' :: (bracketConcat t ++ rest)))))) =
          some (seg ++ ('"' :: (']' :: (bracketConcat t ++ rest)))) := by
        rw [show (lit "[\"" : Str) = '[' :: '"' :: [] from by decide]
        rfl
      simp only [hdrop]
      rw [takeWhile_append_stop seg '"' _
        (fun c hc => by simpa using ne_of_class (hsmem c hc) (by decide)) (by decide)]
      have hsem : seg.isEmpty = false := by
        cases seg
        · exact absurd rfl hsne
        · rfl
      rw [hsem]
      simp only [Bool.false_eq_true, if_false]
      rw [List.drop_left]
      have hdrop2 : ∀ w : Str, dropLit (lit "\"]") ('"' :: ']' :: w) = some w := fun w => rfl
      simp only [hdrop2]
      have hf2 : t.length ≤ f := by
        simp only [List.length_cons] at hfuel
        omega
      rw [ih f rest hf2 (fun x hx => hmem x (by simp [hx])) hrest]
      simp

/-- `matchAll` of the bracket-group regex over a generated nested
assignment line recovers exactly the target segments. -/
theorem allBrackets_line (segs : List Str) (rest : Str)
    (hmem : ∀ x ∈ segs, lowerWord x = true) (hrest : ∀ c ∈ rest, ¬ c = '[')
    (hrne : rest ≠ []) :
    allBrackets (lit "OUTPUT" ++ (bracketConcat segs ++ rest)) = segs := by
  rw [allBrackets, List.length_append]
  have hbne : bracketConcat segs ++ rest ≠ [] := by
    intro hb
    rcases List.append_eq_nil.mp hb with ⟨_, h2⟩
    exact hrne h2
  rw [allBracketsAux_skip (lit "OUTPUT") _ _ hbne (by decide)]
  rw [List.length_append]
  refine allBracketsAux_emit segs _ rest ?_ hmem hrest
  have := bracketConcat_length_ge segs
  omega

/-!
## Rendering lemmas for round-trippable mappings -/

theorem trim_id (l : Str)
    (hh : ∀ c, l.head? = some c → isWS c = false)
    (hl : ∀ c, l.getLast? = some c → isWS c = false) :
    trim l = l := by
  rw [trim]
  have e2 : l.dropWhile isWS = l := by
    cases hr : l with
    | nil => rfl
    | cons c rest =>
      have hc : isWS c = false := hh c (by rw [hr]; rfl)
      exact dropWhile_head_false rest hc
  rw [e2]
  cases hrev : l.reverse with
  | nil =>
    have : l = [] := by simpa using congrArg List.reverse hrev
    rw [this]
    rfl
  | cons d drest =>
    have hd : l.getLast? = some d := by
      rw [List.getLast?_eq_head?_reverse, hrev]
      rfl
    have hdw : isWS d = false := hl d hd
    rw [dropWhile_head_false drest hdw, ← hrev, List.reverse_reverse]

theorem contains_eq_false (l : Str) (c : Char) (h : ∀ x ∈ l, ¬ x = c) :
    l.contains c = false := by
  induction l with
  | nil => rfl
  | cons a t ih =>
    have ha : (c == a) = false := by
      rw [beq_eq_false_iff_ne]
      exact fun he => h a (by simp) he.symm
    simp only [List.contains_cons, ha, Bool.false_or]
    exact ih (fun x hx => h x (by simp [hx]))

theorem orDefault_some (s d : Str) (hs : s ≠ []) : orDefault (some s) d = s := by
  rw [orDefault]
  cases s
  · exact absurd rfl hs
  · rfl

theorem plainText_mem {s : Str} (h : plainText s = true) :
    ∀ c ∈ s, ¬ c = '"' ∧ ¬ c = '.' ∧ ¬ c = 'O' ∧ ¬ c = '\n' := by
  rw [plainText, List.all_eq_true] at h
  intro c hc
  have h2 := h c hc
  refine ⟨fun he => ?_, fun he => ?_, fun he => ?_, fun he => ?_⟩ <;>
    (subst he; simp at h2)

/-- `directGenerate` on a round-trippable direct mapping renders
`INPUT.<source>` plus the method-style transform suffix. -/
theorem directGenerate_rt (t s : Str) (tr : JTransform) (hs : s ≠ [])
    (htr : allowedTransform tr = true) :
    directGenerate (.direct t s tr) = lit "INPUT." ++ (s ++ transformCode tr.toOption) := by
  have hsrc : orDefault (Mapping.sourceAttr (.direct t s tr)) (lit "source") = s := by
    show orDefault (some s) (lit "source") = s
    exact orDefault_some s _ hs
  rcases allowedTransform_cases tr htr with rfl | rfl | rfl | rfl
  · rw [directGenerate, hsrc]
    have h1 : (Mapping.transformAttr (.direct t s .null) == some (lit "upper")) = false := rfl
    have h2 : (Mapping.transformAttr (.direct t s .null) == some (lit "lower")) = false := rfl
    have h3 : (Mapping.transformAttr (.direct t s .null) == some (lit "capitalize")) = false := rfl
    rw [h1]
    simp only [Bool.false_eq_true, if_false]
    rw [h2]
    simp only [Bool.false_eq_true, if_false]
    rw [h3]
    simp only [Bool.false_eq_true, if_false]
    show lit "INPUT." ++ s = lit "INPUT." ++ (s ++ transformCode JTransform.null.toOption)
    rw [show transformCode JTransform.null.toOption = [] from rfl, List.append_nil]
  · rw [directGenerate, hsrc]
    have : (Mapping.transformAttr (.direct t s (.str (lit "upper"))) ==
        some (lit "upper")) = true := rfl
    rw [this]
    simp only [if_true]
    rw [show (lit ".upper()" : Str) = '.' :: (lit "upper" ++ lit "()") from by decide]
    simp [JTransform.toOption, transformCode, List.append_assoc]
  · rw [directGenerate, hsrc]
    have h1 : (Mapping.transformAttr (.direct t s (.str (lit "lower"))) ==
        some (lit "upper")) = false := rfl
    have h2 : (Mapping.transformAttr (.direct t s (.str (lit "lower"))) ==
        some (lit "lower")) = true := rfl
    rw [h1]
    simp only [Bool.false_eq_true, if_false]
    rw [h2]
    simp only [if_true]
    rw [show (lit ".lower()" : Str) = '.' :: (lit "lower" ++ lit "()") from by decide]
    simp [JTransform.toOption, transformCode, List.append_assoc]
  · rw [directGenerate, hsrc]
    have h1 : (Mapping.transformAttr (.direct t s (.str (lit "capitalize"))) ==
        some (lit "upper")) = false := rfl
    have h2 : (Mapping.transformAttr (.direct t s (.str (lit "capitalize"))) ==
        some (lit "lower")) = false := rfl
    have h3 : (Mapping.transformAttr (.direct t s (.str (lit "capitalize"))) ==
        some (lit "capitalize")) = true := rfl
    rw [h1]
    simp only [Bool.false_eq_true, if_false]
    rw [h2]
    simp only [Bool.false_eq_true, if_false]
    rw [h3]
    simp only [if_true]
    rw [show (lit ".capitalize()" : Str) = '.' :: (lit "capitalize" ++ lit "()") from by decide]
    simp [JTransform.toOption, transformCode, List.append_assoc]

theorem fieldMappingLines_direct (t s : Str) (tr : JTransform) (ht : t ≠ []) :
    fieldMappingLines (.direct t s tr) =
      [assignmentLine t (directGenerate (.direct t s tr))] := by
  rw [fieldMappingLines]
  have hp : pluginGenerate (Mapping.transformationOf (.direct t s tr)) =
      some directGenerate := rfl
  rw [hp]
  have htg : Mapping.targetAttr (.direct t s tr) = some t := rfl
  rw [htg]
  have htem : t.isEmpty = false := by
    cases t
    · exact absurd rfl ht
    · rfl
  simp [htem]

theorem fieldMappingLines_conditional (t f op v tv ev : Str) (src : Option Str)
    (jtr : JTransform) (ht : t ≠ []) :
    fieldMappingLines (.conditional t f op v tv ev src jtr) =
      [assignmentLine t (conditionalGenerate (.conditional t f op v tv ev src jtr))] := by
  rw [fieldMappingLines]
  have hp : pluginGenerate (Mapping.transformationOf (.conditional t f op v tv ev src jtr)) =
      some conditionalGenerate := rfl
  rw [hp]
  have htg : Mapping.targetAttr (.conditional t f op v tv ev src jtr) = some t := rfl
  rw [htg]
  have htem : t.isEmpty = false := by
    cases t
    · exact absurd rfl ht
    · rfl
  simp [htem]

/-- The generated single-segment assignment line, re-associated into
the shape the anchored simple attempt consumes. -/
theorem simple_line_shape (t code : Str) (hsingle : splitOnChar '.' t = [t]) :
    assignmentLine t code =
      lit "    " ++ (lit "OUTPUT[\"" ++ (t ++ (lit "\"] = " ++ code))) := by
  rw [assignmentLine, hsingle]
  simp only [List.length_cons, List.length_nil, List.headD_cons]
  simp only [show ((0 : Nat) + 1 == 1) = true from rfl, if_true]
  have e1 : (lit "    " : Str) ++ lit "OUTPUT[\"" = lit "    OUTPUT[\"" := by decide
  rw [← List.append_assoc (lit "    ") (lit "OUTPUT[\"") _, e1]
  simp [List.append_assoc]

/-- The generated multi-segment assignment line, re-associated into
the shape the anchored nested attempt consumes. -/
theorem nested_line_shape (t code : Str) (hmulti : ((splitOnChar '.' t).length == 1) = false) :
    assignmentLine t code =
      lit "    " ++ (lit "OUTPUT" ++ (bracketConcat (splitOnChar '.' t) ++
        (lit " = " ++ code))) := by
  rw [assignmentLine]
  rw [hmulti]
  simp only [Bool.false_eq_true, if_false]
  have e1 : (lit "    " : Str) ++ lit "OUTPUT" = lit "    OUTPUT" := by decide
  rw [← List.append_assoc (lit "    ") (lit "OUTPUT") _, e1]
  rw [bracketConcat]
  simp [List.append_assoc]

/-!
## Line-level behaviour of `parseLine` on generated lines -/

theorem parseLine_noop (st : ParseState) (line : Str)
    (h1 : matchDefTransform (trim line) = false)
    (h2 : matchDefModule (trim line) = none)
    (h3 : (startsWithDef (trim line) && !matchDefEither (trim line)) = false)
    (h4 : matchModuleCall (trim line) = none)
    (h5 : matchSimple (trim line) = none)
    (h6 : matchNested (trim line) = none)
    (h7 : matchCond (trim line) = none) :
    parseLine st line = st := by
  rw [parseLine]
  simp only [h1, h2, h3, h4, h5, h6, h7, Bool.false_eq_true, if_false]
  cases st.current <;> rfl

theorem parseLine_noop_empty (st : ParseState) (line : Str) (h : trim line = []) :
    parseLine st line = st := by
  refine parseLine_noop st line ?_ ?_ ?_ ?_ ?_ ?_ ?_ <;> rw [h] <;> rfl

theorem parseLine_noop_no_O (st : ParseState) (line : Str) (c : Char) (r : Str)
    (h : trim line = c :: r) (hd : ¬ c = 'd') (hm : ¬ c = 'm')
    (hO : ∀ x ∈ c :: r, ¬ x = 'O') :
    parseLine st line = st := by
  refine parseLine_noop st line ?_ ?_ ?_ ?_ ?_ ?_ ?_ <;> rw [h]
  · exact matchDefTransform_head c r hd
  · exact matchDefModule_head c r hd
  · rw [startsWithDef_head c r hd]
    rfl
  · exact matchModuleCall_head c r hm
  · exact matchSimple_none_no_O _ hO
  · exact matchNested_none_no_O _ hO
  · exact matchCond_none_no_O _ hO

theorem parseLine_defTransform (st : ParseState) :
    parseLine st (lit "def transform(INPUT):") =
      { finished := flushCurrent st, current := some ⟨lit "main", []⟩, total := st.total } := by
  rw [parseLine]
  have ht : trim (lit "def transform(INPUT):") = lit "def transform(INPUT):" := by decide
  have h1 : matchDefTransform (trim (lit "def transform(INPUT):")) = true := by decide
  simp only [h1, if_true]

theorem parseLine_defModule (st : ParseState) (name : Str) (hn : lowerWord name = true) :
    parseLine st (lit "def map_" ++ (name ++ lit "(INPUT, OUTPUT):")) =
      { finished := flushCurrent st, current := some ⟨name, []⟩, total := st.total } := by
  have hBne : (name ++ lit "(INPUT, OUTPUT):") ≠ [] := by
    intro h
    rcases List.append_eq_nil.mp h with ⟨_, h2⟩
    exact absurd h2 (by decide)
  have htrim : trim (lit "def map_" ++ (name ++ lit "(INPUT, OUTPUT):")) =
      lit "def map_" ++ (name ++ lit "(INPUT, OUTPUT):") := by
    refine trim_id _ ?_ ?_
    · intro c hc
      have : (lit "def map_" ++ (name ++ lit "(INPUT, OUTPUT):")).head? = some 'd' := rfl
      rw [this] at hc
      injection hc with h1
      rw [← h1]
      decide
    · intro c hc
      rw [List.getLast?_append_of_ne_nil _ hBne,
        List.getLast?_append_of_ne_nil _ (by decide : (lit "(INPUT, OUTPUT):" : Str) ≠ [])] at hc
      have : (lit "(INPUT, OUTPUT):" : Str).getLast? = some ':' := by decide
      rw [this] at hc
      injection hc with h1
      rw [← h1]
      decide
  rw [parseLine]
  simp only [htrim, matchDefTransform_defMap, Bool.false_eq_true, if_false,
    matchDefModule_emit name _ hn rfl]

theorem parseLine_moduleCallLine (st : ParseState) (cur : GModule) (n : Str)
    (hst : st.current = some cur) (hn : lowerWord n = true) :
    parseLine st (lit "    " ++ (lit "map_" ++ (n ++ lit "(INPUT, OUTPUT)"))) =
      pushMapping st cur (.moduleCall n) := by
  have hRne : (lit "map_" ++ (n ++ lit "(INPUT, OUTPUT)")) =
      'm' :: (lit "ap_" ++ (n ++ lit "(INPUT, OUTPUT)")) := rfl
  have htrim : trim (lit "    " ++ (lit "map_" ++ (n ++ lit "(INPUT, OUTPUT)"))) =
      lit "map_" ++ (n ++ lit "(INPUT, OUTPUT)") := by
    refine trim_indent _ (by rw [hRne]; simp) ?_ ?_
    · intro c hc
      rw [hRne] at hc
      injection hc with h1
      rw [← h1]
      decide
    · intro c hc
      have hBne : (n ++ lit "(INPUT, OUTPUT)") ≠ [] := by
        intro h
        rcases List.append_eq_nil.mp h with ⟨_, h2⟩
        exact absurd h2 (by decide)
      rw [List.getLast?_append_of_ne_nil _ hBne,
        List.getLast?_append_of_ne_nil _ (by decide : (lit "(INPUT, OUTPUT)" : Str) ≠ [])] at hc
      have : (lit "(INPUT, OUTPUT)" : Str).getLast? = some ')' := by decide
      rw [this] at hc
      injection hc with h1
      rw [← h1]
      decide
  rw [parseLine]
  simp only [htrim]
  rw [hRne, matchDefTransform_head 'm' _ (by decide), matchDefModule_head 'm' _ (by decide),
    startsWithDef_head 'm' _ (by decide)]
  simp only [Bool.false_eq_true, if_false, Bool.false_and]
  rw [← hRne, hst, matchModuleCall_emit n hn]

theorem lowerPath_mem {s : Str} (hs : lowerPath s = true) :
    ∀ x ∈ splitOnChar '.' s, lowerWord x = true := by
  rw [lowerPath] at hs
  exact fun x hx => List.all_eq_true.mp hs x hx

theorem joinWithChar_mem (sep : Char) : ∀ (gs : List Str) (c : Char),
    c ∈ joinWithChar sep gs → c = sep ∨ ∃ g ∈ gs, c ∈ g := by
  intro gs
  induction gs with
  | nil => intro c hc; cases hc
  | cons g gs2 ih =>
    intro c hc
    cases gs2 with
    | nil => exact Or.inr ⟨g, by simp, hc⟩
    | cons g2 t2 =>
      rw [show joinWithChar sep (g :: g2 :: t2) = g ++ sep :: joinWithChar sep (g2 :: t2)
        from rfl] at hc
      rcases List.mem_append.mp hc with h | h
      · exact Or.inr ⟨g, by simp, h⟩
      · rcases List.mem_cons.mp h with h2 | h2
        · exact Or.inl h2
        · rcases ih c h2 with h3 | ⟨g3, hg3, hc3⟩
          · exact Or.inl h3
          · exact Or.inr ⟨g3, by simp [hg3], hc3⟩

theorem lowerPath_chars {s : Str} (hs : lowerPath s = true) :
    ∀ c ∈ s, isLowerWordChar c = true ∨ c = '.' := by
  intro c hc
  rw [← joinWithChar_splitOnChar '.' s] at hc
  rcases joinWithChar_mem '.' _ c hc with h | ⟨g, hg, hcg⟩
  · exact Or.inr h
  · exact Or.inl ((lowerWord_mem (lowerPath_mem hs g hg)).2 c hcg)

theorem code_getLast_nonWS (s : Str) (tr : Option Str) (hs : s ≠ [])
    (hsl : ∀ c ∈ s, isLowerWordChar c = true ∨ c = '.') :
    ∀ c, (s ++ transformCode tr).getLast? = some c → isWS c = false := by
  intro c hc
  cases tr with
  | none =>
    rw [show transformCode none = [] from rfl, List.append_nil] at hc
    have hmem : c ∈ s := List.mem_of_mem_getLast? hc
    rcases hsl c hmem with h | h
    · exact lower_not_WS h
    · rw [h]
      decide
  | some w =>
    rw [show transformCode (some w) = ('.' :: w) ++ lit "()" from rfl] at hc
    rw [List.getLast?_append_of_ne_nil _ (by
        intro h
        rcases List.append_eq_nil.mp h with ⟨h1, _⟩
        simp at h1),
      List.getLast?_append_of_ne_nil _ (by decide : (lit "()" : Str) ≠ [])] at hc
    have : (lit "()" : Str).getLast? = some ')' := by decide
    rw [this] at hc
    injection hc with h1
    rw [← h1]
    decide

/-- Characters of the post-bracket tail ` = INPUT.<src><transform>`
avoid any character outside lower-case identifiers, `'.'` and the
literal glyphs. -/
theorem rest_chars_ne (s : Str) (tr : Option Str) (hs : ∀ c ∈ s, isLowerWordChar c = true ∨ c = '.')
    (htr : ∀ w, tr = some w → lowerWord w = true) (d : Char)
    (hd1 : isLowerWordChar d = false) (hd2 : ∀ c ∈ lit " =INPUT.()", ¬ c = d) :
    ∀ c ∈ lit " = INPUT." ++ (s ++ transformCode tr), ¬ c = d := by
  intro c hc he
  subst he
  rcases List.mem_append.mp hc with h | h
  · have hsub : ∀ x ∈ lit " = INPUT.", x ∈ lit " =INPUT.()" := by decide
    exact hd2 c (hsub c h) rfl
  · rcases List.mem_append.mp h with h2 | h2
    · rcases hs c h2 with h3 | h3
      · rw [hd1] at h3
        cases h3
      · exact hd2 c (by rw [h3]; decide) rfl
    · cases tr with
      | none => cases h2
      | some w =>
        rw [show transformCode (some w) = '.' :: (w ++ lit "()") from rfl] at h2
        rcases List.mem_cons.mp h2 with h3 | h3
        · exact hd2 c (by rw [h3]; decide) rfl
        · rcases List.mem_append.mp h3 with h4 | h4
          · have := (lowerWord_mem (htr w rfl)).2 c h4
            rw [hd1] at this
            cases this
          · exact hd2 c (by
              have hsub : ∀ x ∈ lit "()", x ∈ lit " =INPUT.()" := by decide
              exact hsub c h4) rfl

theorem bracketConcat_chars_ne (segs : List Str) (hmem : ∀ x ∈ segs, lowerWord x = true)
    (d : Char) (hd1 : isLowerWordChar d = false)
    (hd2 : ¬ d = '[' ∧ ¬ d = '"' ∧ ¬ d = ']') :
    ∀ c ∈ bracketConcat segs, ¬ c = d := by
  intro c hc he
  subst he
  rw [bracketConcat] at hc
  rcases List.mem_flatten.mp hc with ⟨l, hl, hcl⟩
  rcases List.mem_map.mp hl with ⟨seg, hseg, rfl⟩
  rw [bracketPart] at hcl
  rcases List.mem_append.mp hcl with h | h
  · rcases List.mem_append.mp h with h2 | h2
    · rcases List.mem_cons.mp h2 with h3 | h3
      · exact hd2.1 h3
      · rcases List.mem_cons.mp h3 with h4 | h4
        · exact hd2.2.1 h4
        · cases h4
    · have := (lowerWord_mem (hmem seg hseg)).2 c h2
      rw [hd1] at this
      cases this
  · rcases List.mem_cons.mp h with h3 | h3
    · exact hd2.2.1 h3
    · rcases List.mem_cons.mp h3 with h4 | h4
      · exact hd2.2.2 h4
      · cases h4

/-- The simple-assignment pattern fails on a multi-bracket nested
line: after the first bracket group the `\s*=` requirement meets the
second `[`. -/
theorem attemptSimple_nested_none (seg1 : Str) (segs2 : List Str) (rest : Str)
    (h1 : lowerWord seg1 = true) (hne2 : segs2 ≠ []) :
    attemptSimple (lit "OUTPUT" ++ (bracketConcat (seg1 :: segs2) ++ rest)) = none := by
  obtain ⟨hs1ne, hs1mem⟩ := lowerWord_mem h1
  obtain ⟨seg2, t2, rfl⟩ : ∃ seg2 t2, segs2 = seg2 :: t2 := by
    cases segs2
    · exact absurd rfl hne2
    · exact ⟨_, _, rfl⟩
  have hshape : lit "OUTPUT" ++ (bracketConcat (seg1 :: seg2 :: t2) ++ rest) =
      lit "OUTPUT[\"" ++ (seg1 ++ ('"' :: (']' :: ('[' :: ('"' :: ((seg2 ++ ('"' :: (']' :: [])))
        ++ (bracketConcat t2 ++ rest))))))) := by
    show lit "OUTPUT" ++ (((bracketPart seg1 ++ (bracketPart seg2 ++ bracketConcat t2))) ++ rest) = _
    rw [bracketPart, bracketPart,
      show (lit "[\"" : Str) = '[' :: '"' :: [] from by decide,
      show (lit "\"]" : Str) = '"' :: ']' :: [] from by decide,
      show (lit "OUTPUT[\"" : Str) = lit "OUTPUT" ++ ('[' :: '"' :: []) from by decide]
    simp
  rw [hshape, attemptSimple]
  simp only [dropLit_self]
  rw [takeWhile_append_stop seg1 '"' _
    (fun c hc => by simpa using ne_of_class (hs1mem c hc) (by decide)) (by decide)]
  have hsem : seg1.isEmpty = false := by
    cases seg1
    · exact absurd rfl hs1ne
    · rfl
  rw [hsem]
  simp only [Bool.false_eq_true, if_false]
  rw [List.drop_left]
  have hdrop2 : ∀ w : Str, dropLit (lit "\"]") ('"' :: ']' :: w) = some w := fun w => rfl
  simp only [hdrop2]
  have hdw : ('[' :: ('"' :: ((seg2 ++ ('"' :: (']' :: []))) ++
      (bracketConcat t2 ++ rest)))).dropWhile isWS = '[' :: ('"' :: ((seg2 ++ ('"' :: (']' :: [])))
      ++ (bracketConcat t2 ++ rest))) := dropWhile_head_false _ (by decide)
  rw [hdw]
  rfl

/-- The generated single-segment assignment line pushes exactly the
original direct mapping. -/
theorem parseLine_simpleLine (st : ParseState) (cur : GModule) (t s : Str) (tr : Option Str)
    (hst : st.current = some cur) (ht : lowerWord t = true) (hs : lowerWord s = true)
    (htr : allowedCapture tr = true) :
    parseLine st (lit "    " ++ (lit "OUTPUT[\"" ++
        (t ++ (lit "\"] = INPUT." ++ (s ++ transformCode tr))))) =
      pushMapping st cur (.direct t s (parsedTransform tr)) := by
  obtain ⟨htne, htmem⟩ := lowerWord_mem ht
  obtain ⟨hsne, hsmem⟩ := lowerWord_mem hs
  have htrw : ∀ w, tr = some w → lowerWord w = true := by
    rcases allowedCapture_cases tr htr with rfl | rfl | rfl | rfl
    · intro w h; cases h
    · intro w h; injection h with h1; rw [← h1]; decide
    · intro w h; injection h with h1; rw [← h1]; decide
    · intro w h; injection h with h1; rw [← h1]; decide
  have htrim : trim (lit "    " ++ (lit "OUTPUT[\"" ++
      (t ++ (lit "\"] = INPUT." ++ (s ++ transformCode tr))))) =
      lit "OUTPUT[\"" ++ (t ++ (lit "\"] = INPUT." ++ (s ++ transformCode tr))) := by
    refine trim_indent _ (by simp [lit]) ?_ ?_
    · intro c hc
      have : (lit "OUTPUT[\"" ++ (t ++ (lit "\"] = INPUT." ++
          (s ++ transformCode tr)))).head? = some 'O' := rfl
      rw [this] at hc
      injection hc with h1
      rw [← h1]
      decide
    · intro c hc
      have hcode : (s ++ transformCode tr) ≠ [] := by
        intro h
        rcases List.append_eq_nil.mp h with ⟨h1, _⟩
        exact hsne h1
      rw [List.getLast?_append_of_ne_nil _ (by
          intro h
          rcases List.append_eq_nil.mp h with ⟨h1, _⟩
          exact htne h1),
        List.getLast?_append_of_ne_nil _ (by
          intro h
          rcases List.append_eq_nil.mp h with ⟨_, h2⟩
          exact hcode h2),
        List.getLast?_append_of_ne_nil _ hcode] at hc
      exact code_getLast_nonWS s tr hsne (fun c hc2 => Or.inl (hsmem c hc2)) c hc
  rw [parseLine]
  simp only [htrim]
  have hL : lit "OUTPUT[\"" ++ (t ++ (lit "\"] = INPUT." ++ (s ++ transformCode tr))) =
      'O' :: (lit "UTPUT[\"" ++ (t ++ (lit "\"] = INPUT." ++ (s ++ transformCode tr)))) := rfl
  rw [hL, matchDefTransform_head 'O' _ (by decide), matchDefModule_head 'O' _ (by decide),
    startsWithDef_head 'O' _ (by decide)]
  simp only [Bool.false_eq_true, if_false, Bool.false_and]
  rw [matchModuleCall_head 'O' _ (by decide), hst]
  have hattempt := attemptSimple_emit t s tr htne
    (fun c hc => ne_of_class (htmem c hc) (by decide)) hs
    (by
      rcases allowedCapture_cases tr htr with rfl | rfl | rfl | rfl
      · exact Or.inl rfl
      · exact Or.inr ⟨_, rfl, by decide⟩
      · exact Or.inr ⟨_, rfl, by decide⟩
      · exact Or.inr ⟨_, rfl, by decide⟩)
  rw [matchSimple_of_attempt 'O'
    (lit "UTPUT[\"" ++ (t ++ (lit "\"] = INPUT." ++ (s ++ transformCode tr))))
    (t, s, tr) hattempt]

theorem allowedCapture_lower (tr : Option Str) (htr : allowedCapture tr = true) :
    ∀ w, tr = some w → lowerWord w = true := by
  rcases allowedCapture_cases tr htr with rfl | rfl | rfl | rfl
  · intro w h; cases h
  · intro w h; injection h with h1; rw [← h1]; decide
  · intro w h; injection h with h1; rw [← h1]; decide
  · intro w h; injection h with h1; rw [← h1]; decide

/-- The generated multi-segment assignment line pushes a direct
mapping with the same dotted target, source and transform. -/
theorem parseLine_nestedLine (st : ParseState) (cur : GModule) (t s : Str) (tr : Option Str)
    (hst : st.current = some cur) (ht : lowerPath t = true)
    (hmulti : ((splitOnChar '.' t).length == 1) = false)
    (hs : lowerPath s = true) (htr : allowedCapture tr = true) :
    parseLine st (lit "    " ++ (lit "OUTPUT" ++ (bracketConcat (splitOnChar '.' t) ++
        (lit " = INPUT." ++ (s ++ transformCode tr))))) =
      pushMapping st cur (.direct t s (parsedTransform tr)) := by
  have hsegmem : ∀ x ∈ splitOnChar '.' t, lowerWord x = true := lowerPath_mem ht
  have hsegne : splitOnChar '.' t ≠ [] := splitOnChar_ne_nil '.' t
  have htrw := allowedCapture_lower tr htr
  have hschars := lowerPath_chars hs
  have hsne : s ≠ [] := by
    intro h
    rw [h] at hs
    rw [lowerPath] at hs
    simp [splitOnChar, lowerWord] at hs
  obtain ⟨a, b, t2, hsegs⟩ : ∃ a b t2, splitOnChar '.' t = a :: b :: t2 := by
    cases h1 : splitOnChar '.' t with
    | nil => exact absurd h1 (splitOnChar_ne_nil '.' t)
    | cons a rest2 =>
      cases rest2 with
      | nil =>
        rw [h1] at hmulti
        simp at hmulti
      | cons b t2 => exact ⟨a, b, t2, rfl⟩
  have hrestO : ∀ c ∈ lit " = INPUT." ++ (s ++ transformCode tr), ¬ c = 'O' :=
    rest_chars_ne s tr hschars htrw 'O' (by decide) (by decide)
  have hrestBr : ∀ c ∈ lit " = INPUT." ++ (s ++ transformCode tr), ¬ c = '[' :=
    rest_chars_ne s tr hschars htrw '[' (by decide) (by decide)
  have hrestne : (lit " = INPUT." ++ (s ++ transformCode tr)) ≠ [] := by simp [lit]
  have hcode : (s ++ transformCode tr) ≠ [] := by
    intro h
    rcases List.append_eq_nil.mp h with ⟨h1, _⟩
    exact hsne h1
  have htrim : trim (lit "    " ++ (lit "OUTPUT" ++ (bracketConcat (splitOnChar '.' t) ++
      (lit " = INPUT." ++ (s ++ transformCode tr))))) =
      lit "OUTPUT" ++ (bracketConcat (splitOnChar '.' t) ++
        (lit " = INPUT." ++ (s ++ transformCode tr))) := by
    refine trim_indent _ (by simp [lit]) ?_ ?_
    · intro c hc
      have : (lit "OUTPUT" ++ (bracketConcat (splitOnChar '.' t) ++
          (lit " = INPUT." ++ (s ++ transformCode tr)))).head? = some 'O' := rfl
      rw [this] at hc
      injection hc with h1
      rw [← h1]
      decide
    · intro c hc
      rw [List.getLast?_append_of_ne_nil _ (by
          intro h
          rcases List.append_eq_nil.mp h with ⟨_, h2⟩
          exact hrestne h2),
        List.getLast?_append_of_ne_nil _ (by
          intro h
          rcases List.append_eq_nil.mp h with ⟨_, h2⟩
          exact hcode h2),
        List.getLast?_append_of_ne_nil _ hcode] at hc
      exact code_getLast_nonWS s tr hsne hschars c hc
  rw [parseLine]
  simp only [htrim]
  have hL : lit "OUTPUT" ++ (bracketConcat (splitOnChar '.' t) ++
      (lit " = INPUT." ++ (s ++ transformCode tr))) =
      'O' :: (lit "UTPUT" ++ (bracketConcat (splitOnChar '.' t) ++
        (lit " = INPUT." ++ (s ++ transformCode tr)))) := rfl
  rw [hL, matchDefTransform_head 'O' _ (by decide), matchDefModule_head 'O' _ (by decide),
    startsWithDef_head 'O' _ (by decide)]
  simp only [Bool.false_eq_true, if_false, Bool.false_and]
  rw [matchModuleCall_head 'O' _ (by decide), hst]
  have hAS : attemptSimple ('O' :: (lit "UTPUT" ++ (bracketConcat (splitOnChar '.' t) ++
      (lit " = INPUT." ++ (s ++ transformCode tr))))) = none := by
    show attemptSimple (lit "OUTPUT" ++ (bracketConcat (splitOnChar '.' t) ++
      (lit " = INPUT." ++ (s ++ transformCode tr)))) = none
    rw [hsegs]
    exact attemptSimple_nested_none a (b :: t2) _
      (hsegmem a (by rw [hsegs]; simp)) (by simp)
  have hTailO : ∀ c ∈ lit "UTPUT" ++ (bracketConcat (splitOnChar '.' t) ++
      (lit " = INPUT." ++ (s ++ transformCode tr))), ¬ c = 'O' := by
    intro c hc
    rcases List.mem_append.mp hc with h | h
    · intro he
      rw [he] at h
      have : ∀ x ∈ lit "UTPUT", ¬ x = 'O' := by decide
      exact this 'O' h rfl
    · rcases List.mem_append.mp h with h2 | h2
      · exact bracketConcat_chars_ne _ hsegmem 'O' (by decide) (by decide) c h2
      · exact hrestO c h2
  rw [matchSimple_cons_none 'O' _ hAS, matchSimple_none_no_O _ hTailO]
  have hAN : attemptNested ('O' :: (lit "UTPUT" ++ (bracketConcat (splitOnChar '.' t) ++
      (lit " = INPUT." ++ (s ++ transformCode tr))))) = some (s, tr) :=
    attemptNested_emit (splitOnChar '.' t) s tr hsegne hsegmem hs htrw
  rw [matchNested_of_attempt 'O'
    (lit "UTPUT" ++ (bracketConcat (splitOnChar '.' t) ++
      (lit " = INPUT." ++ (s ++ transformCode tr)))) (s, tr) hAN]
  have hab : allBrackets ('O' :: (lit "UTPUT" ++ (bracketConcat (splitOnChar '.' t) ++
      (lit " = INPUT." ++ (s ++ transformCode tr))))) = splitOnChar '.' t :=
    allBrackets_line (splitOnChar '.' t) _ hsegmem hrestBr hrestne
  show pushMapping st cur (.direct _ _ (parsedTransform tr)) = _
  rw [hab, joinWithChar_splitOnChar '.' s, joinWithChar_splitOnChar '.' t]

/-!
## Conditional-pattern lemmas -/

theorem condTailParse_emit (F OP V B : Str)
    (hF : lowerWord F = true)
    (hOP : OP = lit "==" ∨ OP = lit "!=" ∨ OP = lit ">" ∨ OP = lit "<")
    (hV : V ≠ []) (hVq : ∀ c ∈ V, ¬ c = '"')
    (hBne : B.isEmpty = false) (hBnl : B.contains '\n' = false) :
    condTailParse (lit " if INPUT." ++ (F ++ (' ' :: (OP ++ (' ' :: ('"' :: (V ++
        ('"' :: (lit " else " ++ B))))))))) = some (F, OP, V, B) := by
  obtain ⟨hFne, hFmem⟩ := lowerWord_mem hF
  rw [condTailParse]
  simp only [dropLit_self]
  rw [takeWhile_append_stop F ' ' _ (fun c hc => lower_isWordChar (hFmem c hc)) (by decide)]
  have hFem : F.isEmpty = false := by
    cases F
    · exact absurd rfl hFne
    · rfl
  rw [hFem]
  simp only [Bool.false_eq_true, if_false]
  rw [List.drop_left]
  have hop : (match dropLit (lit "==") (OP ++ (' ' :: ('"' :: (V ++ ('"' :: (lit " else " ++ B)))))) with
      | some r => some ((lit "==" : Str), r)
      | none =>
        match dropLit (lit "!=") (OP ++ (' ' :: ('"' :: (V ++ ('"' :: (lit " else " ++ B)))))) with
        | some r => some ((lit "!=" : Str), r)
        | none =>
          match dropLit (lit ">") (OP ++ (' ' :: ('"' :: (V ++ ('"' :: (lit " else " ++ B)))))) with
          | some r => some ((lit ">" : Str), r)
          | none =>
            match dropLit (lit "<") (OP ++ (' ' :: ('"' :: (V ++ ('"' :: (lit " else " ++ B)))))) with
            | some r => some ((lit "<" : Str), r)
            | none => none) =
      some (OP, ' ' :: ('"' :: (V ++ ('"' :: (lit " else " ++ B))))) := by
    rcases hOP with rfl | rfl | rfl | rfl
    · simp only [dropLit_self]
    · have h1 : dropLit (lit "==") (lit "!=" ++ (' ' :: ('"' :: (V ++ ('"' :: (lit " else " ++ B)))))) = none := by
        rw [show (lit "==" : Str) = '=' :: lit "=" from by decide,
          show lit "!=" ++ (' ' :: ('"' :: (V ++ ('"' :: (lit " else " ++ B))))) =
            '!' :: (lit "=" ++ (' ' :: ('"' :: (V ++ ('"' :: (lit " else " ++ B)))))) from rfl]
        exact dropLit_head_ne _ _ (by decide)
      rw [h1]
      simp only [dropLit_self]
    · have h1 : dropLit (lit "==") (lit ">" ++ (' ' :: ('"' :: (V ++ ('"' :: (lit " else " ++ B)))))) = none := by
        rw [show (lit "==" : Str) = '=' :: lit "=" from by decide,
          show lit ">" ++ (' ' :: ('"' :: (V ++ ('"' :: (lit " else " ++ B))))) =
            '>' :: (' ' :: ('"' :: (V ++ ('"' :: (lit " else " ++ B))))) from rfl]
        exact dropLit_head_ne _ _ (by decide)
      have h2 : dropLit (lit "!=") (lit ">" ++ (' ' :: ('"' :: (V ++ ('"' :: (lit " else " ++ B)))))) = none := by
        rw [show (lit "!=" : Str) = '!' :: lit "=" from by decide,
          show lit ">" ++ (' ' :: ('"' :: (V ++ ('"' :: (lit " else " ++ B))))) =
            '>' :: (' ' :: ('"' :: (V ++ ('"' :: (lit " else " ++ B))))) from rfl]
        exact dropLit_head_ne _ _ (by decide)
      rw [h1, h2]
      simp only [dropLit_self]
    · have h1 : dropLit (lit "==") (lit "<" ++ (' ' :: ('"' :: (V ++ ('"' :: (lit " else " ++ B)))))) = none := by
        rw [show (lit "==" : Str) = '=' :: lit "=" from by decide,
          show lit "<" ++ (' ' :: ('"' :: (V ++ ('"' :: (lit " else " ++ B))))) =
            '<' :: (' ' :: ('"' :: (V ++ ('"' :: (lit " else " ++ B))))) from rfl]
        exact dropLit_head_ne _ _ (by decide)
      have h2 : dropLit (lit "!=") (lit "<" ++ (' ' :: ('"' :: (V ++ ('"' :: (lit " else " ++ B)))))) = none := by
        rw [show (lit "!=" : Str) = '!' :: lit "=" from by decide,
          show lit "<" ++ (' ' :: ('"' :: (V ++ ('"' :: (lit " else " ++ B))))) =
            '<' :: (' ' :: ('"' :: (V ++ ('"' :: (lit " else " ++ B))))) from rfl]
        exact dropLit_head_ne _ _ (by decide)
      have h3 : dropLit (lit ">") (lit "<" ++ (' ' :: ('"' :: (V ++ ('"' :: (lit " else " ++ B)))))) = none := by
        rw [show (lit ">" : Str) = '>' :: ([] : Str) from by decide,
          show lit "<" ++ (' ' :: ('"' :: (V ++ ('"' :: (lit " else " ++ B))))) =
            '<' :: (' ' :: ('"' :: (V ++ ('"' :: (lit " else " ++ B))))) from rfl]
        exact dropLit_head_ne _ _ (by decide)
      rw [h1, h2, h3]
      simp only [dropLit_self]
  simp only [hop]
  rw [takeWhile_append_stop V '"' _ (fun c hc => by simpa using hVq c hc) (by decide)]
  have hVem : V.isEmpty = false := by
    cases V
    · exact absurd rfl hV
    · rfl
  rw [hVem]
  simp only [Bool.false_eq_true, if_false]
  rw [List.drop_left]
  have hdl : dropLit (lit "\" else ") ('"' :: (lit " else " ++ B)) = some B := by
    rw [show (lit "\" else " : Str) = '"' :: lit " else " from by decide,
      show ('"' :: (lit " else " ++ B)) = '"' :: (lit " else " ++ B) from rfl]
    show (if ('"' == '"') = true then dropLit (lit " else ") (lit " else " ++ B) else none) = some B
    rw [show (('"' : Char) == '"') = true from rfl, if_pos rfl, dropLit_self]
  simp only [hdl, hBne, hBnl]
  rfl

theorem condSplit_exists : ∀ (a tail : Str), a ≠ [] → (∀ c ∈ a, ¬ c = '\n') →
    condTailParse tail ≠ none → condSplit (a ++ tail) ≠ none := by
  intro a
  induction a with
  | nil => intro tail h _ _; exact absurd rfl h
  | cons c a2 ih =>
    intro tail _ hnl htail
    rw [List.cons_append, condSplit]
    have hc : (c == '\n') = false := by
      rw [beq_eq_false_iff_ne]
      exact hnl c (by simp)
    rw [hc]
    simp only [Bool.false_eq_true, if_false]
    cases a2 with
    | nil =>
      simp only [List.nil_append]
      cases hcs : condSplit tail with
      | some r => simp
      | none =>
        cases hct : condTailParse tail with
        | some r => simp
        | none => exact absurd hct htail
    | cons d a3 =>
      cases hcs : condSplit ((d :: a3) ++ tail) with
      | some r => simp
      | none =>
        exact absurd hcs (ih tail (by simp) (fun x hx => hnl x (by simp [hx])) htail)

theorem attemptSimple_quote_code_none (t CT : Str) (ht : lowerWord t = true) :
    attemptSimple (lit "OUTPUT[\"" ++ (t ++ (lit "\"] = " ++ ('"' :: CT)))) = none := by
  obtain ⟨htne, htmem⟩ := lowerWord_mem ht
  rw [attemptSimple]
  simp only [dropLit_self]
  have hu : lit "\"] = " ++ ('"' :: CT) = '"' :: (']' :: (' ' :: ('=' :: (' ' :: ('"' :: CT))))) := rfl
  rw [hu]
  rw [takeWhile_append_stop t '"' _
    (fun c hc => by simpa using ne_of_class (htmem c hc) (by decide)) (by decide)]
  have htem : t.isEmpty = false := by
    cases t
    · exact absurd rfl htne
    · rfl
  rw [htem]
  simp only [Bool.false_eq_true, if_false]
  rw [List.drop_left]
  have hdrop2 : ∀ w : Str, dropLit (lit "\"]") ('"' :: ']' :: w) = some w := fun w => rfl
  simp only [hdrop2]
  have hdw : (' ' :: ('=' :: (' ' :: ('"' :: CT)))).dropWhile isWS =
      '=' :: (' ' :: ('"' :: CT)) := by
    rw [List.dropWhile_cons]
    simp only [show isWS ' ' = true from rfl, if_true]
    exact dropWhile_head_false _ (by decide)
  simp only [hdw]
  have hdw2 : (' ' :: ('"' :: CT)).dropWhile isWS = '"' :: CT := by
    rw [List.dropWhile_cons]
    simp only [show isWS ' ' = true from rfl, if_true]
    exact dropWhile_head_false _ (by decide)
  simp only [hdw2]
  rw [show (lit "INPUT." : Str) = 'I' :: lit "NPUT." from by decide,
    dropLit_head_ne _ _ (by decide)]

theorem attemptNested_quote_code_none (t CT : Str) (ht : lowerWord t = true) :
    attemptNested (lit "OUTPUT[\"" ++ (t ++ (lit "\"] = " ++ ('"' :: CT)))) = none := by
  obtain ⟨htne, htmem⟩ := lowerWord_mem ht
  have hshape : lit "OUTPUT[\"" ++ (t ++ (lit "\"] = " ++ ('"' :: CT))) =
      lit "OUTPUT" ++ (bracketConcat [t] ++ (' ' :: ('=' :: (' ' :: ('"' :: CT))))) := by
    rw [show bracketConcat [t] = (lit "[\"" ++ t) ++ lit "\"]" from by
        simp [bracketConcat, bracketPart],
      show (lit "OUTPUT[\"" : Str) = lit "OUTPUT" ++ lit "[\"" from by decide,
      show (lit "\"] = " : Str) = lit "\"]" ++ (' ' :: ('=' :: (' ' :: []))) from by decide]
    simp
  rw [hshape, attemptNested]
  simp only [dropLit_self]
  rw [bracketChainParse_emit [t] _ (by
      intro x hx
      rcases List.mem_singleton.mp hx with rfl
      exact ht)
    (by
      rw [show (lit "[\"" : Str) = '[' :: lit "\"" from by decide]
      exact dropLit_head_ne _ _ (by decide))]
  simp only [List.isEmpty_cons, Bool.false_eq_true, if_false]
  have hdw : (' ' :: ('=' :: (' ' :: ('"' :: CT)))).dropWhile isWS =
      '=' :: (' ' :: ('"' :: CT)) := by
    rw [List.dropWhile_cons]
    simp only [show isWS ' ' = true from rfl, if_true]
    exact dropWhile_head_false _ (by decide)
  simp only [hdw]
  have hdw2 : (' ' :: ('"' :: CT)).dropWhile isWS = '"' :: CT := by
    rw [List.dropWhile_cons]
    simp only [show isWS ' ' = true from rfl, if_true]
    exact dropWhile_head_false _ (by decide)
  simp only [hdw2]
  rw [show (lit "INPUT." : Str) = 'I' :: lit "NPUT." from by decide,
    dropLit_head_ne _ _ (by decide)]


/-- The anchored conditional attempt succeeds on a generated
conditional line, recovering the target (the other captures depend on
the backtracking search and are existential). -/
theorem attemptCond_cond_line (t F OP V TV EV : Str)
    (ht : lowerWord t = true) (hF : lowerWord F = true)
    (hOP : OP = lit "==" ∨ OP = lit "!=" ∨ OP = lit ">" ∨ OP = lit "<")
    (hV : V ≠ []) (hVq : ∀ c ∈ V, ¬ c = '"')
    (hTVnl : ∀ c ∈ TV, ¬ c = '\n') (hEVnl : ∀ c ∈ EV, ¬ c = '\n') :
    ∃ a f2 op2 v2 b2,
      attemptCond (lit "OUTPUT[\"" ++ (t ++ (lit "\"] = " ++ ('"' :: (TV ++ ('"' :: (lit " if INPUT." ++ (F ++ (' ' :: (OP ++ (' ' :: ('"' :: (V ++ ('"' :: (lit " else " ++ ('"' :: (EV ++ ['"']))))))))))))))))) = some (t, a, f2, op2, v2, b2) := by
  obtain ⟨htne, htmem⟩ := lowerWord_mem ht
  have hct : condTailParse (lit " if INPUT." ++ (F ++ (' ' :: (OP ++ (' ' :: ('"' :: (V ++ ('"' :: (lit " else " ++ ('"' :: (EV ++ ['"']))))))))))) = some (F, OP, V, ('"' :: (EV ++ ['"']))) :=
    condTailParse_emit F OP V _ hF hOP hV hVq rfl
      (contains_eq_false _ _ (by
        intro x hx
        rcases List.mem_cons.mp hx with rfl | h2
        · decide
        · rcases List.mem_append.mp h2 with h3 | h3
          · exact hEVnl x h3
          · rcases List.mem_singleton.mp h3 with rfl
            decide))
  have hcode : ('"' :: (TV ++ ('"' :: (lit " if INPUT." ++ (F ++ (' ' :: (OP ++ (' ' :: ('"' :: (V ++ ('"' :: (lit " else " ++ ('"' :: (EV ++ ['"'])))))))))))))) = (('"' :: (TV ++ ['"'])) ++ (lit " if INPUT." ++ (F ++ (' ' :: (OP ++ (' ' :: ('"' :: (V ++ ('"' :: (lit " else " ++ ('"' :: (EV ++ ['"'])))))))))))) := by simp
  have hsplit : condSplit (('"' :: (TV ++ ['"'])) ++ (lit " if INPUT." ++ (F ++ (' ' :: (OP ++ (' ' :: ('"' :: (V ++ ('"' :: (lit " else " ++ ('"' :: (EV ++ ['"'])))))))))))) ≠ none := by
    refine condSplit_exists _ _ (by simp) ?_ (by rw [hct]; exact fun h => Option.noConfusion h)
    intro c hc
    rcases List.mem_cons.mp hc with rfl | h2
    · decide
    · rcases List.mem_append.mp h2 with h3 | h3
      · exact hTVnl c h3
      · rcases List.mem_singleton.mp h3 with rfl
        decide
  obtain ⟨r, hr⟩ : ∃ r, condSplit (('"' :: (TV ++ ['"'])) ++ (lit " if INPUT." ++ (F ++ (' ' :: (OP ++ (' ' :: ('"' :: (V ++ ('"' :: (lit " else " ++ ('"' :: (EV ++ ['"'])))))))))))) = some r := by
    cases h : condSplit (('"' :: (TV ++ ['"'])) ++ (lit " if INPUT." ++ (F ++ (' ' :: (OP ++ (' ' :: ('"' :: (V ++ ('"' :: (lit " else " ++ ('"' :: (EV ++ ['"'])))))))))))) with
    | some r => exact ⟨r, rfl⟩
    | none => exact absurd h hsplit
  obtain ⟨a, f2, op2, v2, b2⟩ := r
  refine ⟨a, f2, op2, v2, b2, ?_⟩
  rw [attemptCond]
  simp only [dropLit_self]
  have hu : lit "\"] = " ++ ('"' :: (TV ++ ('"' :: (lit " if INPUT." ++ (F ++ (' ' :: (OP ++ (' ' :: ('"' :: (V ++ ('"' :: (lit " else " ++ ('"' :: (EV ++ ['"'])))))))))))))) = ('"' :: (']' :: (' ' :: ('=' :: (' ' :: ('"' :: (TV ++ ('"' :: (lit " if INPUT." ++ (F ++ (' ' :: (OP ++ (' ' :: ('"' :: (V ++ ('"' :: (lit " else " ++ ('"' :: (EV ++ ['"']))))))))))))))))))) := rfl
  rw [hu]
  rw [takeWhile_append_stop t '"' _
    (fun c hc => by simpa using ne_of_class (htmem c hc) (by decide)) (by decide)]
  have htem : t.isEmpty = false := by
    cases t
    · exact absurd rfl htne
    · rfl
  rw [htem]
  simp only [Bool.false_eq_true, if_false]
  rw [List.drop_left]
  have hdrop2 : ∀ w : Str, dropLit (lit "\"]") ('"' :: ']' :: w) = some w := fun w => rfl
  simp only [hdrop2]
  have hdw : ((' ' :: ('=' :: (' ' :: ('"' :: (TV ++ ('"' :: (lit " if INPUT." ++ (F ++ (' ' :: (OP ++ (' ' :: ('"' :: (V ++ ('"' :: (lit " else " ++ ('"' :: (EV ++ ['"']))))))))))))))))) : Str).dropWhile isWS = '=' :: (' ' :: ('"' :: (TV ++ ('"' :: (lit " if INPUT." ++ (F ++ (' ' :: (OP ++ (' ' :: ('"' :: (V ++ ('"' :: (lit " else " ++ ('"' :: (EV ++ ['"']))))))))))))))) := by
    rw [List.dropWhile_cons]
    simp only [show isWS ' ' = true from rfl, if_true]
    exact dropWhile_head_false _ (by decide)
  simp only [hdw]
  have htw : ((' ' :: ('"' :: (TV ++ ('"' :: (lit " if INPUT." ++ (F ++ (' ' :: (OP ++ (' ' :: ('"' :: (V ++ ('"' :: (lit " else " ++ ('"' :: (EV ++ ['"']))))))))))))))) : Str).takeWhile isWS = [' '] := by
    rw [List.takeWhile_cons]
    simp only [show isWS ' ' = true from rfl, if_true]
    rw [List.takeWhile_cons]
    simp only [show isWS '"' = false from rfl, Bool.false_eq_true, if_false]
  rw [htw]
  rw [show ([' '] : Str).length = 1 from rfl]
  rw [condWsSearch]
  have hdrop1 : ((' ' :: ('"' :: (TV ++ ('"' :: (lit " if INPUT." ++ (F ++ (' ' :: (OP ++ (' ' :: ('"' :: (V ++ ('"' :: (lit " else " ++ ('"' :: (EV ++ ['"']))))))))))))))) : Str).drop 1 = ('"' :: (TV ++ ('"' :: (lit " if INPUT." ++ (F ++ (' ' :: (OP ++ (' ' :: ('"' :: (V ++ ('"' :: (lit " else " ++ ('"' :: (EV ++ ['"'])))))))))))))) := rfl
  rw [hdrop1, hcode, hr]

/-- The conditional plugin's rendered expression, re-associated into
the parse-ready nested shape (for dot-free branch values). -/
theorem conditionalGenerate_shape (t f op v tv ev : Str) (src : Option Str) (jtr : JTransform)
    (htv : (orDefault (some tv) (lit "value1")).contains '.' = false)
    (hev : (orDefault (some ev) (lit "value2")).contains '.' = false) :
    conditionalGenerate (.conditional t f op v tv ev src jtr) =
      ('"' :: ((orDefault (some tv) (lit "value1")) ++ ('"' :: (lit " if INPUT." ++ ((orDefault (some f) (lit "field")) ++ (' ' :: ((orDefault (some op) (lit "==")) ++ (' ' :: ('"' :: ((orDefault (some v) (lit "value")) ++ ('"' :: (lit " else " ++ ('"' :: ((orDefault (some ev) (lit "value2")) ++ ['"'])))))))))))))) := by
  rw [conditionalGenerate]
  have h1 : Mapping.condFieldAttr (.conditional t f op v tv ev src jtr) = some f := rfl
  have h2 : Mapping.condOpAttr (.conditional t f op v tv ev src jtr) = some op := rfl
  have h3 : Mapping.condValueAttr (.conditional t f op v tv ev src jtr) = some v := rfl
  have h4 : Mapping.thenValueAttr (.conditional t f op v tv ev src jtr) = some tv := rfl
  have h5 : Mapping.elseValueAttr (.conditional t f op v tv ev src jtr) = some ev := rfl
  rw [h1, h2, h3, h4, h5, htv, hev]
  simp only [Bool.false_eq_true, if_false]
  rw [show (lit " \"" : Str) = ' ' :: ('"' :: []) from by decide,
    show (lit "\" else " : Str) = '"' :: lit " else " from by decide]
  simp [List.append_assoc]


theorem getLast?_cons_append (a : Char) (x : Str) (hx : x ≠ []) :
    (a :: x).getLast? = x.getLast? := by
  rw [show a :: x = [a] ++ x from rfl, List.getLast?_append_of_ne_nil _ hx]

theorem condCode_no_O (F OP V TV EV : Str) (hF : lowerWord F = true)
    (hOP : OP = lit "==" ∨ OP = lit "!=" ∨ OP = lit ">" ∨ OP = lit "<")
    (hVO : ∀ c ∈ V, ¬ c = 'O') (hTVO : ∀ c ∈ TV, ¬ c = 'O')
    (hEVO : ∀ c ∈ EV, ¬ c = 'O') :
    ∀ c ∈ (('"' :: (TV ++ ('"' :: (lit " if INPUT." ++ (F ++ (' ' :: (OP ++ (' ' :: ('"' :: (V ++ ('"' :: (lit " else " ++ ('"' :: (EV ++ ['"'])))))))))))))) : Str), ¬ c = 'O' := by
  have hFO : ∀ c ∈ F, ¬ c = 'O' := fun c hc =>
    ne_of_class ((lowerWord_mem hF).2 c hc) (by decide)
  have hOPO : ∀ c ∈ OP, ¬ c = 'O' := by
    rcases hOP with rfl | rfl | rfl | rfl <;> decide
  intro c hc
  rcases List.mem_cons.mp hc with rfl | h
  · decide
  rcases List.mem_append.mp h with h | h
  · exact hTVO c h
  rcases List.mem_cons.mp h with rfl | h
  · decide
  rcases List.mem_append.mp h with h | h
  · intro he
    rw [he] at h
    exact (show ∀ x ∈ lit " if INPUT.", ¬ x = 'O' from by decide) 'O' h rfl
  rcases List.mem_append.mp h with h | h
  · exact hFO c h
  rcases List.mem_cons.mp h with rfl | h
  · decide
  rcases List.mem_append.mp h with h | h
  · exact hOPO c h
  rcases List.mem_cons.mp h with rfl | h
  · decide
  rcases List.mem_cons.mp h with rfl | h
  · decide
  rcases List.mem_append.mp h with h | h
  · exact hVO c h
  rcases List.mem_cons.mp h with rfl | h
  · decide
  rcases List.mem_append.mp h with h | h
  · intro he
    rw [he] at h
    exact (show ∀ x ∈ lit " else ", ¬ x = 'O' from by decide) 'O' h rfl
  rcases List.mem_cons.mp h with rfl | h
  · decide
  rcases List.mem_append.mp h with h | h
  · exact hEVO c h
  rcases List.mem_singleton.mp h with rfl
  decide

/-- The generated conditional line pushes a conditional mapping with
the same target. -/
theorem parseLine_condLine (st : ParseState) (cur : GModule) (t F OP V TV EV : Str)
    (hst : st.current = some cur)
    (ht : lowerWord t = true) (hF : lowerWord F = true)
    (hOP : OP = lit "==" ∨ OP = lit "!=" ∨ OP = lit ">" ∨ OP = lit "<")
    (hV : V ≠ []) (hVq : ∀ c ∈ V, ¬ c = '"') (hVO : ∀ c ∈ V, ¬ c = 'O')
    (hTVnl : ∀ c ∈ TV, ¬ c = '\n') (hEVnl : ∀ c ∈ EV, ¬ c = '\n')
    (hTVO : ∀ c ∈ TV, ¬ c = 'O') (hEVO : ∀ c ∈ EV, ¬ c = 'O') :
    ∃ f2 op2 v2 a2 b2,
      parseLine st (lit "    " ++ (lit "OUTPUT[\"" ++ (t ++ (lit "\"] = " ++ ('"' :: (TV ++ ('"' :: (lit " if INPUT." ++ (F ++ (' ' :: (OP ++ (' ' :: ('"' :: (V ++ ('"' :: (lit " else " ++ ('"' :: (EV ++ ['"'])))))))))))))))))) =
        pushMapping st cur (.conditional t f2 op2 v2 a2 b2 none .absent) := by
  obtain ⟨htne, htmem⟩ := lowerWord_mem ht
  have hO : ∀ c ∈ (('"' :: (TV ++ ('"' :: (lit " if INPUT." ++ (F ++ (' ' :: (OP ++ (' ' :: ('"' :: (V ++ ('"' :: (lit " else " ++ ('"' :: (EV ++ ['"'])))))))))))))) : Str), ¬ c = 'O' :=
    condCode_no_O F OP V TV EV hF hOP hVO hTVO hEVO
  have hlast : (('"' :: (TV ++ ('"' :: (lit " if INPUT." ++ (F ++ (' ' :: (OP ++ (' ' :: ('"' :: (V ++ ('"' :: (lit " else " ++ ('"' :: (EV ++ ['"'])))))))))))))) : Str).getLast? = some '"' := by
    rw [getLast?_cons_append '"' _ (by simp),
      List.getLast?_append_of_ne_nil _ (by simp),
      getLast?_cons_append '"' _ (by simp),
      List.getLast?_append_of_ne_nil _ (by simp),
      List.getLast?_append_of_ne_nil _ (by simp),
      getLast?_cons_append ' ' _ (by simp),
      List.getLast?_append_of_ne_nil _ (by simp),
      getLast?_cons_append ' ' _ (by simp),
      getLast?_cons_append '"' _ (by simp),
      List.getLast?_append_of_ne_nil _ (by simp),
      getLast?_cons_append '"' _ (by simp),
      List.getLast?_append_of_ne_nil _ (by simp),
      getLast?_cons_append '"' _ (by simp),
      List.getLast?_append_of_ne_nil _ (by simp)]
    rfl
  have htrim : trim (lit "    " ++ (lit "OUTPUT[\"" ++ (t ++ (lit "\"] = " ++ ('"' :: (TV ++ ('"' :: (lit " if INPUT." ++ (F ++ (' ' :: (OP ++ (' ' :: ('"' :: (V ++ ('"' :: (lit " else " ++ ('"' :: (EV ++ ['"'])))))))))))))))))) = (lit "OUTPUT[\"" ++ (t ++ (lit "\"] = " ++ ('"' :: (TV ++ ('"' :: (lit " if INPUT." ++ (F ++ (' ' :: (OP ++ (' ' :: ('"' :: (V ++ ('"' :: (lit " else " ++ ('"' :: (EV ++ ['"']))))))))))))))))) := by
    refine trim_indent _ (by simp [lit]) ?_ ?_
    · intro c hc
      have : ((lit "OUTPUT[\"" ++ (t ++ (lit "\"] = " ++ ('"' :: (TV ++ ('"' :: (lit " if INPUT." ++ (F ++ (' ' :: (OP ++ (' ' :: ('"' :: (V ++ ('"' :: (lit " else " ++ ('"' :: (EV ++ ['"']))))))))))))))))) : Str).head? = some 'O' := rfl
      rw [this] at hc
      injection hc with h1
      rw [← h1]
      decide
    · intro c hc
      have hCne : (('"' :: (TV ++ ('"' :: (lit " if INPUT." ++ (F ++ (' ' :: (OP ++ (' ' :: ('"' :: (V ++ ('"' :: (lit " else " ++ ('"' :: (EV ++ ['"'])))))))))))))) : Str) ≠ [] := by simp
      have hBCne : (lit "\"] = " ++ ('"' :: (TV ++ ('"' :: (lit " if INPUT." ++ (F ++ (' ' :: (OP ++ (' ' :: ('"' :: (V ++ ('"' :: (lit " else " ++ ('"' :: (EV ++ ['"']))))))))))))))) ≠ [] := by simp
      have htBC : (t ++ (lit "\"] = " ++ ('"' :: (TV ++ ('"' :: (lit " if INPUT." ++ (F ++ (' ' :: (OP ++ (' ' :: ('"' :: (V ++ ('"' :: (lit " else " ++ ('"' :: (EV ++ ['"'])))))))))))))))) ≠ [] := by
        intro hx
        rcases List.append_eq_nil.mp hx with ⟨_, h2⟩
        exact hBCne h2
      rw [List.getLast?_append_of_ne_nil _ htBC,
        List.getLast?_append_of_ne_nil _ hBCne,
        List.getLast?_append_of_ne_nil _ hCne, hlast] at hc
      injection hc with h1
      rw [← h1]
      decide
  rw [parseLine]
  simp only [htrim]
  have hL : ((lit "OUTPUT[\"" ++ (t ++ (lit "\"] = " ++ ('"' :: (TV ++ ('"' :: (lit " if INPUT." ++ (F ++ (' ' :: (OP ++ (' ' :: ('"' :: (V ++ ('"' :: (lit " else " ++ ('"' :: (EV ++ ['"']))))))))))))))))) : Str) =
      'O' :: (lit "UTPUT[\"" ++ (t ++ (lit "\"] = " ++ ('"' :: (TV ++ ('"' :: (lit " if INPUT." ++ (F ++ (' ' :: (OP ++ (' ' :: ('"' :: (V ++ ('"' :: (lit " else " ++ ('"' :: (EV ++ ['"']))))))))))))))))) := rfl
  rw [hL, matchDefTransform_head 'O' _ (by decide), matchDefModule_head 'O' _ (by decide),
    startsWithDef_head 'O' _ (by decide)]
  simp only [Bool.false_eq_true, if_false, Bool.false_and]
  rw [matchModuleCall_head 'O' _ (by decide), hst]
  have hTailO : ∀ c ∈ lit "UTPUT[\"" ++ (t ++ (lit "\"] = " ++ ('"' :: (TV ++ ('"' :: (lit " if INPUT." ++ (F ++ (' ' :: (OP ++ (' ' :: ('"' :: (V ++ ('"' :: (lit " else " ++ ('"' :: (EV ++ ['"'])))))))))))))))), ¬ c = 'O' := by
    intro c hc
    rcases List.mem_append.mp hc with h | h
    · intro he
      rw [he] at h
      exact (show ∀ x ∈ lit "UTPUT[\"", ¬ x = 'O' from by decide) 'O' h rfl
    rcases List.mem_append.mp h with h | h
    · exact fun he => (ne_of_class (htmem c h) (by decide)) he
    rcases List.mem_append.mp h with h | h
    · intro he
      rw [he] at h
      exact (show ∀ x ∈ lit "\"] = ", ¬ x = 'O' from by decide) 'O' h rfl
    · exact hO c h
  have hAS : attemptSimple ('O' :: (lit "UTPUT[\"" ++ (t ++ (lit "\"] = " ++ ('"' :: (TV ++ ('"' :: (lit " if INPUT." ++ (F ++ (' ' :: (OP ++ (' ' :: ('"' :: (V ++ ('"' :: (lit " else " ++ ('"' :: (EV ++ ['"'])))))))))))))))))) =
      none := attemptSimple_quote_code_none t _ ht
  rw [matchSimple_cons_none 'O' _ hAS, matchSimple_none_no_O _ hTailO]
  have hAN : attemptNested ('O' :: (lit "UTPUT[\"" ++ (t ++ (lit "\"] = " ++ ('"' :: (TV ++ ('"' :: (lit " if INPUT." ++ (F ++ (' ' :: (OP ++ (' ' :: ('"' :: (V ++ ('"' :: (lit " else " ++ ('"' :: (EV ++ ['"'])))))))))))))))))) =
      none := attemptNested_quote_code_none t _ ht
  rw [matchNested_cons_none 'O' _ hAN, matchNested_none_no_O _ hTailO]
  obtain ⟨a, f2, op2, v2, b2, hAC⟩ :=
    attemptCond_cond_line t F OP V TV EV ht hF hOP hV hVq hTVnl hEVnl
  have hAC2 : attemptCond ('O' :: (lit "UTPUT[\"" ++ (t ++ (lit "\"] = " ++ ('"' :: (TV ++ ('"' :: (lit " if INPUT." ++ (F ++ (' ' :: (OP ++ (' ' :: ('"' :: (V ++ ('"' :: (lit " else " ++ ('"' :: (EV ++ ['"'])))))))))))))))))) =
      some (t, a, f2, op2, v2, b2) := hAC
  rw [matchCond_of_attempt 'O' (lit "UTPUT[\"" ++ (t ++ (lit "\"] = " ++ ('"' :: (TV ++ ('"' :: (lit " if INPUT." ++ (F ++ (' ' :: (OP ++ (' ' :: ('"' :: (V ++ ('"' :: (lit " else " ++ ('"' :: (EV ++ ['"'])))))))))))))))))
    (t, a, f2, op2, v2, b2) hAC2]
  exact ⟨f2, op2, v2, cleanVal a, cleanVal b2, rfl⟩

theorem orDefault_prop (x d : Str) (P : Str → Prop) (hx : x ≠ [] → P x) (hd : P d) :
    P (orDefault (some x) d) := by
  rw [orDefault]
  by_cases h : x.isEmpty = true
  · rw [if_pos h]
    exact hd
  · rw [if_neg h]
    refine hx ?_
    intro he
    rw [he] at h
    exact h rfl

theorem condValue_props {v : Str}
    (hv : v.all (fun c => !(c == '"') && !(c == 'O') && !(c == '\n')) = true) :
    ∀ c ∈ v, ¬ c = '"' ∧ ¬ c = 'O' ∧ ¬ c = '\n' := by
  rw [List.all_eq_true] at hv
  intro c hc
  have h2 := hv c hc
  refine ⟨fun he => ?_, fun he => ?_, fun he => ?_⟩ <;> (subst he; simp at h2)

/-- One generated conditional-mapping line, parsed back: the result is
a conditional mapping with the same target (hence the same diff
projection). -/
theorem parseLine_condMapping (st : ParseState) (cur : GModule) (t f op v tv ev : Str)
    (hst : st.current = some cur)
    (hm : RTMapping (.conditional t f op v tv ev none .absent) = true) :
    ∃ m', mapProj m' = mapProj (.conditional t f op v tv ev none .absent) ∧
      parseLine st
          (assignmentLine t (conditionalGenerate (.conditional t f op v tv ev none .absent))) =
        pushMapping st cur m' := by
  rw [show RTMapping (.conditional t f op v tv ev none .absent) =
      (lowerWord t && f.all isLowerWordChar &&
        (op == lit "==" || op == lit "!=" || op == lit ">" || op == lit "<") &&
        v.all (fun c => !(c == '"') && !(c == 'O') && !(c == '\n')) &&
        plainText tv && plainText ev && ((none : Option Str) == none) &&
        (JTransform.absent == JTransform.absent)) from rfl] at hm
  simp only [Bool.and_eq_true] at hm
  obtain ⟨⟨⟨⟨⟨⟨⟨ht, hf⟩, hop⟩, hv⟩, htv⟩, hev⟩, _⟩, _⟩ := hm
  have hopcases : op = lit "==" ∨ op = lit "!=" ∨ op = lit ">" ∨ op = lit "<" := by
    rcases Bool.or_eq_true_iff.mp hop with h1 | h1
    · rcases Bool.or_eq_true_iff.mp h1 with h2 | h2
      · rcases Bool.or_eq_true_iff.mp h2 with h3 | h3
        · exact Or.inl (by simpa using h3)
        · exact Or.inr (Or.inl (by simpa using h3))
      · exact Or.inr (Or.inr (Or.inl (by simpa using h2)))
    · exact Or.inr (Or.inr (Or.inr (by simpa using h1)))
  have hopne : op ≠ [] := by
    rcases hopcases with rfl | rfl | rfl | rfl <;> decide
  have hOPe : orDefault (some op) (lit "==") = op := orDefault_some op _ hopne
  have hF : lowerWord (orDefault (some f) (lit "field")) = true := by
    refine orDefault_prop f (lit "field") (fun y => lowerWord y = true) ?_ (by decide)
    intro hne
    rw [lowerWord, hf, Bool.and_true]
    cases hfe : f.isEmpty
    · rfl
    · exfalso
      apply hne
      cases f
      · rfl
      · simp at hfe
  have hVp : (fun y => y ≠ [] ∧ ∀ c ∈ y, ¬ c = '"' ∧ ¬ c = 'O' ∧ ¬ c = '\n')
      (orDefault (some v) (lit "value")) := by
    refine orDefault_prop v (lit "value")
      (fun y => y ≠ [] ∧ ∀ c ∈ y, ¬ c = '"' ∧ ¬ c = 'O' ∧ ¬ c = '\n') ?_ (by
      refine ⟨by decide, ?_⟩
      intro c hc
      refine ⟨fun he => ?_, fun he => ?_, fun he => ?_⟩ <;> (subst he; revert hc; decide))
    intro hne
    exact ⟨hne, condValue_props hv⟩
  have hTVp : plainText (orDefault (some tv) (lit "value1")) = true :=
    orDefault_prop tv (lit "value1") (fun y => plainText y = true) (fun _ => htv) (by decide)
  have hEVp : plainText (orDefault (some ev) (lit "value2")) = true :=
    orDefault_prop ev (lit "value2") (fun y => plainText y = true) (fun _ => hev) (by decide)
  have hTVdot : (orDefault (some tv) (lit "value1")).contains '.' = false :=
    contains_eq_false _ _ (fun c hc => (plainText_mem hTVp c hc).2.1)
  have hEVdot : (orDefault (some ev) (lit "value2")).contains '.' = false :=
    contains_eq_false _ _ (fun c hc => (plainText_mem hEVp c hc).2.1)
  have hsingle : splitOnChar '.' t = [t] :=
    splitOnChar_single '.' t (fun c hc =>
      ne_of_class ((lowerWord_mem ht).2 c hc) (by decide))
  rw [simple_line_shape t _ hsingle, conditionalGenerate_shape t f op v tv ev none .absent hTVdot hEVdot]
  obtain ⟨f2, op2, v2, a2, b2, hres⟩ := parseLine_condLine st cur t
    (orDefault (some f) (lit "field")) (orDefault (some op) (lit "=="))
    (orDefault (some v) (lit "value")) (orDefault (some tv) (lit "value1"))
    (orDefault (some ev) (lit "value2")) hst ht hF
    (by rw [hOPe]; exact hopcases) hVp.1 (fun c hc => (hVp.2 c hc).1)
    (fun c hc => (hVp.2 c hc).2.1)
    (fun c hc => (plainText_mem hTVp c hc).2.2.2)
    (fun c hc => (plainText_mem hEVp c hc).2.2.2)
    (fun c hc => (plainText_mem hTVp c hc).2.2.1)
    (fun c hc => (plainText_mem hEVp c hc).2.2.1)
  exact ⟨.conditional t f2 op2 v2 a2 b2 none .absent, rfl, hres⟩

theorem lowerPath_ne_nil {s : Str} (h : lowerPath s = true) : s ≠ [] := by
  intro he
  rw [he, lowerPath] at h
  simp [splitOnChar, lowerWord] at h

theorem split_len_one {t : Str} (h : ((splitOnChar '.' t).length == 1) = true) :
    splitOnChar '.' t = [t] := by
  have hlen : (splitOnChar '.' t).length = 1 := by simpa using h
  obtain ⟨x, hx⟩ : ∃ x, splitOnChar '.' t = [x] := by
    cases hs : splitOnChar '.' t with
    | nil => rw [hs] at hlen; cases hlen
    | cons a l =>
      cases l with
      | nil => exact ⟨a, rfl⟩
      | cons b l2 => rw [hs] at hlen; simp at hlen
  have hj := joinWithChar_splitOnChar '.' t
  rw [hx] at hj
  have hx2 : x = t := hj
  rw [hx, hx2]

/-- One round-trippable mapping's generated lines, folded through the
parser: exactly one mapping is pushed, equal to the original under the
diff projection (for both the helper-module and the `main` flavor of
the lines). -/
theorem mapping_lines_fold (st : ParseState) (cur : GModule) (m : Mapping)
    (hst : st.current = some cur) (hm : RTMapping m = true) :
    ∃ m', mapProj m' = mapProj m ∧
      (helperMappingLines m).foldl parseLine st = pushMapping st cur m' ∧
      (mainMappingLines m).foldl parseLine st = pushMapping st cur m' := by
  cases m with
  | direct t s tr =>
    rw [show RTMapping (.direct t s tr) = (lowerPath t && allowedTransform tr &&
      (if (splitOnChar '.' t).length == 1 then lowerWord s else lowerPath s)) from rfl] at hm
    simp only [Bool.and_eq_true] at hm
    obtain ⟨⟨ht, htr⟩, hs⟩ := hm
    obtain ⟨hcap, hpt⟩ := allowedCapture_of tr htr
    have htne : t ≠ [] := lowerPath_ne_nil ht
    have hlines : helperMappingLines (.direct t s tr) =
        [assignmentLine t (directGenerate (.direct t s tr))] :=
      fieldMappingLines_direct t s tr htne
    have hlines2 : mainMappingLines (.direct t s tr) =
        [assignmentLine t (directGenerate (.direct t s tr))] :=
      fieldMappingLines_direct t s tr htne
    have hmain : parseLine st (assignmentLine t (directGenerate (.direct t s tr))) =
        pushMapping st cur (.direct t s tr) := by
      by_cases hone : ((splitOnChar '.' t).length == 1) = true
      · rw [if_pos hone] at hs
        have hsp := split_len_one hone
        have htw : lowerWord t = true := lowerPath_mem ht t (by rw [hsp]; simp)
        have hsne : s ≠ [] := (lowerWord_mem hs).1
        rw [directGenerate_rt t s tr hsne htr, simple_line_shape t _ hsp]
        rw [show (lit "\"] = " : Str) ++ (lit "INPUT." ++ (s ++ transformCode tr.toOption)) =
            lit "\"] = INPUT." ++ (s ++ transformCode tr.toOption) from by
          rw [← List.append_assoc]
          rw [show (lit "\"] = " : Str) ++ lit "INPUT." = lit "\"] = INPUT." from by decide]]
        have hline := parseLine_simpleLine st cur t s tr.toOption hst htw hs hcap
        rw [hpt] at hline
        exact hline
      · have hone2 : ((splitOnChar '.' t).length == 1) = false := by
          cases h2 : ((splitOnChar '.' t).length == 1)
          · rfl
          · exact absurd h2 hone
        rw [if_neg (by rw [hone2]; exact Bool.false_ne_true)] at hs
        have hsne : s ≠ [] := lowerPath_ne_nil hs
        rw [directGenerate_rt t s tr hsne htr, nested_line_shape t _ hone2]
        rw [show (lit " = " : Str) ++ (lit "INPUT." ++ (s ++ transformCode tr.toOption)) =
            lit " = INPUT." ++ (s ++ transformCode tr.toOption) from by
          rw [← List.append_assoc]
          rw [show (lit " = " : Str) ++ lit "INPUT." = lit " = INPUT." from by decide]]
        have hline := parseLine_nestedLine st cur t s tr.toOption hst ht hone2 hs hcap
        rw [hpt] at hline
        exact hline
    refine ⟨.direct t s tr, rfl, ?_, ?_⟩
    · rw [hlines]
      exact hmain
    · rw [hlines2]
      exact hmain
  | conditional t f op v tv ev src jtr =>
    have hmx := hm
    rw [show RTMapping (.conditional t f op v tv ev src jtr) =
      (lowerWord t && f.all isLowerWordChar &&
        (op == lit "==" || op == lit "!=" || op == lit ">" || op == lit "<") &&
        v.all (fun c => !(c == '"') && !(c == 'O') && !(c == '\n')) &&
        plainText tv && plainText ev && (src == none) &&
        (jtr == JTransform.absent)) from rfl] at hmx
    simp only [Bool.and_eq_true] at hmx
    obtain ⟨⟨hrest, hsrc⟩, hjtr⟩ := hmx
    have hsrce : src = none := by simpa using hsrc
    have hjtre : jtr = JTransform.absent := by simpa using hjtr
    subst hsrce
    subst hjtre
    have htne : t ≠ [] := (lowerWord_mem hrest.1.1.1.1.1).1
    obtain ⟨m', hproj, hres⟩ := parseLine_condMapping st cur t f op v tv ev hst hm
    refine ⟨m', hproj, ?_, ?_⟩
    · rw [show helperMappingLines (.conditional t f op v tv ev none .absent) =
          [assignmentLine t (conditionalGenerate (.conditional t f op v tv ev none .absent))] from
        fieldMappingLines_conditional t f op v tv ev none .absent htne]
      exact hres
    · rw [show mainMappingLines (.conditional t f op v tv ev none .absent) =
          [assignmentLine t (conditionalGenerate (.conditional t f op v tv ev none .absent))] from
        fieldMappingLines_conditional t f op v tv ev none .absent htne]
      exact hres
  | moduleCall n =>
    have hn : lowerWord n = true := hm
    have e1 : lit "    # Call " ++ n ++ lit " module" =
        lit "    " ++ ((lit "# Call " ++ n) ++ lit " module") := by
      rw [show (lit "    # Call " : Str) = lit "    " ++ lit "# Call " from by decide]
      simp [List.append_assoc]
    have e2 : lit "    map_" ++ n ++ lit "(INPUT, OUTPUT)" =
        lit "    " ++ (lit "map_" ++ (n ++ lit "(INPUT, OUTPUT)")) := by
      rw [show (lit "    map_" : Str) = lit "    " ++ lit "map_" from by decide]
      simp [List.append_assoc]
    have hcomment : ∀ st2 : ParseState,
        parseLine st2 (lit "    # Call " ++ n ++ lit " module") = st2 := by
      intro st2
      rw [e1]
      have htrim : trim (lit "    " ++ ((lit "# Call " ++ n) ++ lit " module")) =
          (lit "# Call " ++ n) ++ lit " module" := by
        refine trim_indent _ (by simp [lit]) ?_ ?_
        · intro c hc
          have : (((lit "# Call " ++ n) ++ lit " module") : Str).head? = some '#' := rfl
          rw [this] at hc
          injection hc with h1
          rw [← h1]
          decide
        · intro c hc
          rw [List.getLast?_append_of_ne_nil _ (by decide : (lit " module" : Str) ≠ [])] at hc
          have : (lit " module" : Str).getLast? = some 'e' := by decide
          rw [this] at hc
          injection hc with h1
          rw [← h1]
          decide
      have hshape : ((lit "# Call " ++ n) ++ lit " module") =
          '#' :: ((lit " Call " ++ n) ++ lit " module") := by
        rw [show (lit "# Call " : Str) = '#' :: lit " Call " from by decide]
        rfl
      refine parseLine_noop_no_O st2 _ '#' ((lit " Call " ++ n) ++ lit " module")
        (by rw [htrim, hshape]) (by decide) (by decide) ?_
      intro x hx he
      rw [← hshape] at hx
      rcases List.mem_append.mp hx with h | h
      · rcases List.mem_append.mp h with h2 | h2
        · rw [he] at h2
          exact (show ∀ y ∈ lit "# Call ", ¬ y = 'O' from by decide) 'O' h2 rfl
        · rw [he] at h2
          exact ne_of_class ((lowerWord_mem hn).2 'O' h2) (by decide) rfl
      · rw [he] at h
        exact (show ∀ y ∈ lit " module", ¬ y = 'O' from by decide) 'O' h rfl
    have hspacer : ∀ st2 : ParseState, parseLine st2 (lit "    ") = st2 := fun st2 =>
      parseLine_noop_empty st2 _ (by decide)
    refine ⟨.moduleCall n, rfl, ?_, ?_⟩
    · show parseLine (parseLine st (lit "    # Call " ++ n ++ lit " module"))
        (lit "    map_" ++ n ++ lit "(INPUT, OUTPUT)") = _
      rw [hcomment st, e2]
      exact parseLine_moduleCallLine st cur n hst hn
    · show parseLine (parseLine (parseLine st (lit "    # Call " ++ n ++ lit " module"))
        (lit "    map_" ++ n ++ lit "(INPUT, OUTPUT)")) (lit "    ") = _
      rw [hcomment st, e2, parseLine_moduleCallLine st cur n hst hn, hspacer]
  | forLoop t lv it => exact Bool.noConfusion hm
  | ifBlock t it c => exact Bool.noConfusion hm
  | breakStmt t => exact Bool.noConfusion hm
  | continueStmt t => exact Bool.noConfusion hm
  | datetimeParse t v s f => exact Bool.noConfusion hm
  | datetimeFormat t d f => exact Bool.noConfusion hm
  | datetimeAdd t v o a s => exact Bool.noConfusion hm
  | decimalMapping t o v s r v1 v2 d => exact Bool.noConfusion hm
  | regexMapping t o p s r => exact Bool.noConfusion hm
  | unknown k t => exact Bool.noConfusion hm

/-- Folding the parser over the generated lines of a round-trippable
mapping list appends projection-equal mappings to the current
module. -/
theorem mappings_fold : ∀ (ms : List Mapping) (st : ParseState) (cur : GModule),
    st.current = some cur → (∀ m ∈ ms, RTMapping m = true) →
    ∃ ms' tot, ms'.map mapProj = ms.map mapProj ∧
      ((ms.map helperMappingLines).flatten).foldl parseLine st =
        ⟨st.finished, some ⟨cur.name, cur.mappings ++ ms'⟩, tot⟩ ∧
      ((ms.map mainMappingLines).flatten).foldl parseLine st =
        ⟨st.finished, some ⟨cur.name, cur.mappings ++ ms'⟩, tot⟩ := by
  intro ms
  induction ms with
  | nil =>
    intro st cur hst _
    refine ⟨[], st.total, rfl, ?_, ?_⟩ <;>
      (show st = _; cases st with
        | mk fin curO tot =>
          simp only at hst
          rw [hst]
          simp)
  | cons m ms2 ih =>
    intro st cur hst hms
    obtain ⟨m', hproj, hh, hm2⟩ := mapping_lines_fold st cur m hst (hms m (by simp))
    have hst1 : (pushMapping st cur m').current =
        some { cur with mappings := cur.mappings ++ [m'] } := rfl
    obtain ⟨ms2', tot, hproj2, hfold1, hfold2⟩ :=
      ih (pushMapping st cur m') { cur with mappings := cur.mappings ++ [m'] } hst1
        (fun x hx => hms x (by simp [hx]))
    refine ⟨m' :: ms2', tot, ?_, ?_, ?_⟩
    · simp only [List.map_cons, hproj, hproj2]
    · show ((helperMappingLines m ++ (ms2.map helperMappingLines).flatten).foldl parseLine st) = _
      rw [List.foldl_append, hh, hfold1]
      show (⟨st.finished, some ⟨cur.name, (cur.mappings ++ [m']) ++ ms2'⟩, tot⟩ : ParseState) = _
      rw [List.append_assoc]
      rfl
    · show ((mainMappingLines m ++ (ms2.map mainMappingLines).flatten).foldl parseLine st) = _
      rw [List.foldl_append, hm2, hfold2]
      show (⟨st.finished, some ⟨cur.name, (cur.mappings ++ [m']) ++ ms2'⟩, tot⟩ : ParseState) = _
      rw [List.append_assoc]
      rfl

/-- The block of one non-skipped helper module, folded through the
parser: the previous module is flushed and the helper's mappings are
recovered up to projection. -/
theorem helper_block_fold (st : ParseState) (mod : GModule)
    (hmod : RTModule mod = true)
    (hskip : (mod.name == lit "main" || mod.mappings.isEmpty) = false) :
    ∃ ms' tot, ms'.map mapProj = mod.mappings.map mapProj ∧
      (helperModuleLines mod).foldl parseLine st =
        ⟨flushCurrent st, some ⟨mod.name, ms'⟩, tot⟩ := by
  rw [RTModule, Bool.and_eq_true] at hmod
  obtain ⟨hname, hmaps⟩ := hmod
  have hmapsAll : ∀ m ∈ mod.mappings, RTMapping m = true := List.all_eq_true.mp hmaps
  rw [helperModuleLines, hskip]
  simp only [Bool.false_eq_true, if_false]
  have hdef : parseLine st (lit "def map_" ++ mod.name ++ lit "(INPUT, OUTPUT):") =
      { finished := flushCurrent st, current := some ⟨mod.name, []⟩, total := st.total } := by
    rw [List.append_assoc]
    exact parseLine_defModule st mod.name hname
  have hdoc : ∀ st2 : ParseState,
      parseLine st2 (lit "    \"\"\"" ++ mod.name ++ lit " mappings\"\"\"") = st2 := by
    intro st2
    have e1 : lit "    \"\"\"" ++ mod.name ++ lit " mappings\"\"\"" =
        lit "    " ++ ((lit "\"\"\"" ++ mod.name) ++ lit " mappings\"\"\"") := by
      rw [show (lit "    \"\"\"" : Str) = lit "    " ++ lit "\"\"\"" from by decide]
      simp [List.append_assoc]
    rw [e1]
    have htrim : trim (lit "    " ++ ((lit "\"\"\"" ++ mod.name) ++ lit " mappings\"\"\"")) =
        (lit "\"\"\"" ++ mod.name) ++ lit " mappings\"\"\"" := by
      refine trim_indent _ (by simp [lit]) ?_ ?_
      · intro c hc
        have : (((lit "\"\"\"" ++ mod.name) ++ lit " mappings\"\"\"") : Str).head? =
            some '"' := rfl
        rw [this] at hc
        injection hc with h1
        rw [← h1]
        decide
      · intro c hc
        rw [List.getLast?_append_of_ne_nil _
          (by decide : (lit " mappings\"\"\"" : Str) ≠ [])] at hc
        have : (lit " mappings\"\"\"" : Str).getLast? = some '"' := by decide
        rw [this] at hc
        injection hc with h1
        rw [← h1]
        decide
    have hshape : ((lit "\"\"\"" ++ mod.name) ++ lit " mappings\"\"\"") =
        '"' :: ((lit "\"\"" ++ mod.name) ++ lit " mappings\"\"\"") := by
      rw [show (lit "\"\"\"" : Str) = '"' :: lit "\"\"" from by decide]
      rfl
    refine parseLine_noop_no_O st2 _ '"' ((lit "\"\"" ++ mod.name) ++ lit " mappings\"\"\"")
      (by rw [htrim, hshape]) (by decide) (by decide) ?_
    intro x hx he
    rw [← hshape] at hx
    rcases List.mem_append.mp hx with h | h
    · rcases List.mem_append.mp h with h2 | h2
      · rw [he] at h2
        exact (show ∀ y ∈ lit "\"\"\"", ¬ y = 'O' from by decide) 'O' h2 rfl
      · rw [he] at h2
        exact ne_of_class ((lowerWord_mem hname).2 'O' h2) (by decide) rfl
    · rw [he] at h
      exact (show ∀ y ∈ lit " mappings\"\"\"", ¬ y = 'O' from by decide) 'O' h rfl
  have hempty : ∀ st2 : ParseState, parseLine st2 [] = st2 := fun st2 =>
    parseLine_noop_empty st2 _ rfl
  obtain ⟨ms', tot, hproj, hfold, _⟩ := mappings_fold mod.mappings
    ({ finished := flushCurrent st, current := some ⟨mod.name, []⟩, total := st.total })
    ⟨mod.name, []⟩ rfl hmapsAll
  refine ⟨ms', tot, hproj, ?_⟩
  rw [List.foldl_cons, hdef, List.foldl_cons, hdoc, List.foldl_append, hfold]
  show (([[]] : List Str).foldl parseLine _) = _
  rw [List.foldl_cons, hempty]
  rfl

/-- Folding the parser over all helper-module blocks: the flushed
module list grows by one projection-equal module per emitted helper,
in order. -/
theorem helpers_fold : ∀ (mods : List GModule) (st : ParseState),
    (∀ mod ∈ mods, RTModule mod = true) →
    ∃ P, P.map moduleProj = (helpersOf mods).map moduleProj ∧
      flushCurrent (((mods.map helperModuleLines).flatten).foldl parseLine st) =
        flushCurrent st ++ P := by
  intro mods
  induction mods with
  | nil =>
    intro st _
    exact ⟨[], rfl, by simp⟩
  | cons mod rest ih =>
    intro st hall
    have hfl : ((mod :: rest).map helperModuleLines).flatten =
        helperModuleLines mod ++ (rest.map helperModuleLines).flatten := by simp
    rw [hfl, List.foldl_append]
    have hfilter : helpersOf (mod :: rest) =
        (if (!(mod.name == lit "main") && !mod.mappings.isEmpty) = true
         then mod :: helpersOf rest else helpersOf rest) := by
      rw [helpersOf, List.filter_cons]
      rfl
    by_cases hskip : (mod.name == lit "main" || mod.mappings.isEmpty) = true
    · have hlines : helperModuleLines mod = [] := by
        rw [helperModuleLines, hskip]
        rfl
      rw [hlines]
      obtain ⟨P, hP, hflush⟩ := ih st (fun x hx => hall x (by simp [hx]))
      refine ⟨P, ?_, hflush⟩
      rw [hfilter]
      have hp : (!(mod.name == lit "main") && !mod.mappings.isEmpty) = false := by
        rw [← Bool.not_or, hskip]
        rfl
      rw [hp]
      simp only [Bool.false_eq_true, if_false]
      exact hP
    · have hskip2 : (mod.name == lit "main" || mod.mappings.isEmpty) = false := by
        cases h2 : (mod.name == lit "main" || mod.mappings.isEmpty)
        · rfl
        · exact absurd h2 hskip
      obtain ⟨ms', tot, hproj, hblock⟩ :=
        helper_block_fold st mod (hall mod (by simp)) hskip2
      rw [hblock]
      obtain ⟨P, hP, hflush⟩ :=
        ih ⟨flushCurrent st, some ⟨mod.name, ms'⟩, tot⟩ (fun x hx => hall x (by simp [hx]))
      refine ⟨⟨mod.name, ms'⟩ :: P, ?_, ?_⟩
      · rw [hfilter]
        have hp : (!(mod.name == lit "main") && !mod.mappings.isEmpty) = true := by
          rw [← Bool.not_or, hskip2]
          rfl
        rw [hp]
        simp only [if_true, List.map_cons]
        rw [hP]
        show (mod.name, ms'.map mapProj) :: _ = (mod.name, mod.mappings.map mapProj) :: _
        rw [hproj]
      · rw [hflush]
        show (flushCurrent st ++ [⟨mod.name, ms'⟩]) ++ P = _
        rw [List.append_assoc]
        rfl

/-- The entry-point block, folded through the parser: flushes the
previous module and leaves a `main` module with projection-equal
mappings as the current module. -/
theorem main_block_fold (st : ParseState) (mainMod : GModule)
    (hmod : RTModule mainMod = true) :
    ∃ ms' tot, ms'.map mapProj = mainMod.mappings.map mapProj ∧
      ([lit "def transform(INPUT):",
        lit "    \"\"\"Main transformation\"\"\"",
        lit "    OUTPUT = \x7b\x7d",
        lit "    "] ++
        (mainMod.mappings.map mainMappingLines).flatten ++
        [lit "    ", lit "    return OUTPUT"]).foldl parseLine st =
        ⟨flushCurrent st, some ⟨lit "main", ms'⟩, tot⟩ := by
  rw [RTModule, Bool.and_eq_true] at hmod
  obtain ⟨_, hmaps⟩ := hmod
  have hmapsAll : ∀ m ∈ mainMod.mappings, RTMapping m = true := List.all_eq_true.mp hmaps
  have hdoc : ∀ st2 : ParseState,
      parseLine st2 (lit "    \"\"\"Main transformation\"\"\"") = st2 := fun st2 =>
    parseLine_noop st2 _ (by decide) (by decide) (by decide) (by decide) (by decide)
      (by decide) (by rfl)
  have hout : ∀ st2 : ParseState, parseLine st2 (lit "    OUTPUT = \x7b\x7d") = st2 := fun st2 =>
    parseLine_noop st2 _ (by decide) (by decide) (by decide) (by decide) (by decide)
      (by decide) (by rfl)
  have hret : ∀ st2 : ParseState, parseLine st2 (lit "    return OUTPUT") = st2 := fun st2 =>
    parseLine_noop st2 _ (by decide) (by decide) (by decide) (by decide) (by decide)
      (by decide) (by rfl)
  have hspacer : ∀ st2 : ParseState, parseLine st2 (lit "    ") = st2 := fun st2 =>
    parseLine_noop_empty st2 _ (by decide)
  obtain ⟨ms', tot, hproj, _, hfold⟩ := mappings_fold mainMod.mappings
    ({ finished := flushCurrent st, current := some ⟨lit "main", []⟩, total := st.total })
    ⟨lit "main", []⟩ rfl hmapsAll
  refine ⟨ms', tot, hproj, ?_⟩
  rw [List.foldl_append, List.foldl_append]
  rw [show ([lit "def transform(INPUT):",
    lit "    \"\"\"Main transformation\"\"\"",
    lit "    OUTPUT = \x7b\x7d",
    lit "    "] : List Str).foldl parseLine st =
      ({ finished := flushCurrent st, current := some ⟨lit "main", []⟩,
         total := st.total } : ParseState) from by
    rw [List.foldl_cons, parseLine_defTransform, List.foldl_cons, hdoc, List.foldl_cons, hout,
      List.foldl_cons, hspacer]
    rfl]
  rw [hfold]
  rw [List.foldl_cons, hspacer, List.foldl_cons, hret]
  rfl

theorem RTMapping_not_regex (m : Mapping) (hm : RTMapping m = true) :
    (m.transformationOf == some (lit "regex")) = false := by
  cases m <;> first
    | rfl
    | exact Bool.noConfusion hm

theorem RT_no_regex (M : List GModule) (h : ∀ mod ∈ M, RTModule mod = true) :
    (M.any (fun mod => mod.mappings.any
      (fun m => m.transformationOf == some (lit "regex")))) = false := by
  rw [List.any_eq_false]
  intro mod hmod
  rw [Bool.not_eq_true, List.any_eq_false]
  intro m hm
  have hrt := h mod hmod
  rw [RTModule, Bool.and_eq_true] at hrt
  have := List.all_eq_true.mp hrt.2 m hm
  rw [Bool.not_eq_true]
  exact RTMapping_not_regex m this

theorem RTModel_find_main (M : List GModule) (h : RTModel M = true) :
    ∃ mainMod, M.find? (fun mod => mod.name == lit "main") = some mainMod ∧
      mainMod.name = lit "main" ∧ RTModule mainMod = true := by
  rw [RTModel, Bool.and_eq_true] at h
  obtain ⟨hall, hcount⟩ := h
  have hcount2 : M.countP (fun mod => mod.name == lit "main") = 1 := by simpa using hcount
  have hex : ∃ mod ∈ M, (fun mod => mod.name == lit "main") mod = true := by
    by_contra hno
    push_neg at hno
    have : M.countP (fun mod => mod.name == lit "main") = 0 := by
      rw [List.countP_eq_zero]
      intro a ha
      have := hno a ha
      simpa using this
    rw [this] at hcount2
    cases hcount2
  have hsome : (M.find? (fun mod => mod.name == lit "main")).isSome := by
    rw [List.find?_isSome]
    exact hex
  obtain ⟨mainMod, hfind⟩ := Option.isSome_iff_exists.mp hsome
  refine ⟨mainMod, hfind, ?_, ?_⟩
  · have := List.find?_some hfind
    simpa using this
  · exact List.all_eq_true.mp hall mainMod (List.mem_of_find?_eq_some hfind)

theorem condCode_no_nl (F OP V TV EV : Str) (hF : lowerWord F = true)
    (hOP : OP = lit "==" ∨ OP = lit "!=" ∨ OP = lit ">" ∨ OP = lit "<")
    (hVnl : ∀ c ∈ V, ¬ c = '\n') (hTVnl : ∀ c ∈ TV, ¬ c = '\n')
    (hEVnl : ∀ c ∈ EV, ¬ c = '\n') :
    ∀ c ∈ (('"' :: (TV ++ ('"' :: (lit " if INPUT." ++ (F ++ (' ' :: (OP ++ (' ' :: ('"' :: (V ++ ('"' :: (lit " else " ++ ('"' :: (EV ++ ['"'])))))))))))))) : Str), ¬ c = '\n' := by
  have hFnl : ∀ c ∈ F, ¬ c = '\n' := fun c hc =>
    ne_of_class ((lowerWord_mem hF).2 c hc) (by decide)
  have hOPnl : ∀ c ∈ OP, ¬ c = '\n' := by
    rcases hOP with rfl | rfl | rfl | rfl <;> decide
  intro c hc
  rcases List.mem_cons.mp hc with rfl | h
  · decide
  rcases List.mem_append.mp h with h | h
  · exact hTVnl c h
  rcases List.mem_cons.mp h with rfl | h
  · decide
  rcases List.mem_append.mp h with h | h
  · intro he
    rw [he] at h
    exact (show ∀ x ∈ lit " if INPUT.", ¬ x = '\n' from by decide) '\n' h rfl
  rcases List.mem_append.mp h with h | h
  · exact hFnl c h
  rcases List.mem_cons.mp h with rfl | h
  · decide
  rcases List.mem_append.mp h with h | h
  · exact hOPnl c h
  rcases List.mem_cons.mp h with rfl | h
  · decide
  rcases List.mem_cons.mp h with rfl | h
  · decide
  rcases List.mem_append.mp h with h | h
  · exact hVnl c h
  rcases List.mem_cons.mp h with rfl | h
  · decide
  rcases List.mem_append.mp h with h | h
  · intro he
    rw [he] at h
    exact (show ∀ x ∈ lit " else ", ¬ x = '\n' from by decide) '\n' h rfl
  rcases List.mem_cons.mp h with rfl | h
  · decide
  rcases List.mem_append.mp h with h | h
  · exact hEVnl c h
  rcases List.mem_singleton.mp h with rfl
  decide


theorem joinWithChar_mem_of (sep : Char) : ∀ (gs : List Str) (g : Str) (c : Char),
    g ∈ gs → c ∈ g → c ∈ joinWithChar sep gs := by
  intro gs
  induction gs with
  | nil => intro g c hg _; cases hg
  | cons x gs2 ih =>
    intro g c hg hc
    cases gs2 with
    | nil =>
      rcases List.mem_singleton.mp hg with rfl
      exact hc
    | cons y t2 =>
      rw [show joinWithChar sep (x :: y :: t2) = x ++ sep :: joinWithChar sep (y :: t2)
        from rfl]
      rcases List.mem_cons.mp hg with rfl | h2
      · exact List.mem_append.mpr (Or.inl hc)
      · exact List.mem_append.mpr (Or.inr (List.mem_cons.mpr
          (Or.inr (ih g c h2 hc))))

theorem split_chars {t x : Str} {c : Char} (hx : x ∈ splitOnChar '.' t) (hc : c ∈ x) :
    c ∈ t := by
  rw [← joinWithChar_splitOnChar '.' t]
  exact joinWithChar_mem_of '.' _ x c hx hc

theorem assignmentLine_no_nl (t code : Str) (ht : ∀ c ∈ t, ¬ c = '\n')
    (hcode : ∀ c ∈ code, ¬ c = '\n') : ∀ c ∈ assignmentLine t code, ¬ c = '\n' := by
  intro c hc
  rw [assignmentLine] at hc
  by_cases h : ((splitOnChar '.' t).length == 1) = true
  · rw [if_pos h] at hc
    rcases List.mem_append.mp hc with h2 | h2
    · rcases List.mem_append.mp h2 with h3 | h3
      · rcases List.mem_append.mp h3 with h4 | h4
        · intro he
          rw [he] at h4
          exact (show ∀ y ∈ lit "    OUTPUT[\"", ¬ y = '\n' from by decide) '\n' h4 rfl
        · refine ht c (split_chars ?_ h4)
          cases hs : splitOnChar '.' t with
          | nil => exact absurd hs (splitOnChar_ne_nil '.' t)
          | cons a l => simp
      · intro he
        rw [he] at h3
        exact (show ∀ y ∈ lit "\"] = ", ¬ y = '\n' from by decide) '\n' h3 rfl
    · exact hcode c h2
  · rw [if_neg h] at hc
    rcases List.mem_append.mp hc with h2 | h2
    · rcases List.mem_append.mp h2 with h3 | h3
      · rcases List.mem_append.mp h3 with h4 | h4
        · intro he
          rw [he] at h4
          exact (show ∀ y ∈ lit "    OUTPUT", ¬ y = '\n' from by decide) '\n' h4 rfl
        · rcases List.mem_flatten.mp h4 with ⟨l, hl, hcl⟩
          rcases List.mem_map.mp hl with ⟨seg, hseg, rfl⟩
          rw [bracketPart] at hcl
          rcases List.mem_append.mp hcl with h5 | h5
          · rcases List.mem_append.mp h5 with h6 | h6
            · intro he
              rw [he] at h6
              exact (show ∀ y ∈ lit "[\"", ¬ y = '\n' from by decide) '\n' h6 rfl
            · exact ht c (split_chars hseg h6)
          · intro he
            rw [he] at h5
            exact (show ∀ y ∈ lit "\"]", ¬ y = '\n' from by decide) '\n' h5 rfl
      · intro he
        rw [he] at h3
        exact (show ∀ y ∈ lit " = ", ¬ y = '\n' from by decide) '\n' h3 rfl
    · exact hcode c h2

theorem directGenerate_no_nl (t s : Str) (tr : JTransform)
    (hs : lowerPath s = true) (htr : allowedTransform tr = true) :
    ∀ c ∈ directGenerate (.direct t s tr), ¬ c = '\n' := by
  intro c hc
  rw [directGenerate_rt t s tr (lowerPath_ne_nil hs) htr] at hc
  rcases List.mem_append.mp hc with h | h
  · intro he
    rw [he] at h
    exact (show ∀ y ∈ lit "INPUT.", ¬ y = '\n' from by decide) '\n' h rfl
  · rcases List.mem_append.mp h with h2 | h2
    · rcases lowerPath_chars hs c h2 with h3 | h3
      · exact ne_of_class h3 (by decide)
      · intro he
        rw [he] at h3
        exact absurd h3 (by decide)
    · cases hto : tr.toOption with
      | none =>
        rw [hto] at h2
        cases h2
      | some w =>
        rw [hto] at h2
        have hw : lowerWord w = true := by
          rcases allowedTransform_cases tr htr with rfl | rfl | rfl | rfl
          · cases hto
          all_goals (injection hto with h5; rw [← h5]; decide)
        rw [show transformCode (some w) = '.' :: (w ++ lit "()") from rfl] at h2
        rcases List.mem_cons.mp h2 with rfl | h3
        · decide
        · rcases List.mem_append.mp h3 with h4 | h4
          · exact ne_of_class ((lowerWord_mem hw).2 c h4) (by decide)
          · intro he
            rw [he] at h4
            exact (show ∀ y ∈ lit "()", ¬ y = '\n' from by decide) '\n' h4 rfl

theorem helper_lines_no_nl (m : Mapping) (hm : RTMapping m = true) :
    (∀ l ∈ helperMappingLines m, ∀ c ∈ l, ¬ c = '\n') ∧
    (∀ l ∈ mainMappingLines m, ∀ c ∈ l, ¬ c = '\n') := by
  cases m with
  | direct t s tr =>
    rw [show RTMapping (.direct t s tr) = (lowerPath t && allowedTransform tr &&
      (if (splitOnChar '.' t).length == 1 then lowerWord s else lowerPath s)) from rfl] at hm
    simp only [Bool.and_eq_true] at hm
    obtain ⟨⟨ht, htr⟩, hs⟩ := hm
    have hs2 : lowerPath s = true := by
      by_cases hone : ((splitOnChar '.' t).length == 1) = true
      · rw [if_pos hone] at hs
        rw [lowerPath, splitOnChar_single '.' s
          (fun c hc => ne_of_class ((lowerWord_mem hs).2 c hc) (by decide))]
        simp [hs]
      · rwa [if_neg hone] at hs
    have hline : ∀ c ∈ assignmentLine t (directGenerate (.direct t s tr)), ¬ c = '\n' := by
      refine assignmentLine_no_nl _ _ ?_ (directGenerate_no_nl t s tr hs2 htr)
      intro c hc
      rcases lowerPath_chars ht c hc with h3 | h3
      · exact ne_of_class h3 (by decide)
      · intro he
        rw [he] at h3
        exact absurd h3 (by decide)
    have hfield : ∀ l ∈ fieldMappingLines (.direct t s tr), ∀ c ∈ l, ¬ c = '\n' := by
      rw [fieldMappingLines_direct t s tr (lowerPath_ne_nil ht)]
      intro l hl
      rcases List.mem_singleton.mp hl with rfl
      exact hline
    exact ⟨hfield, hfield⟩
  | conditional t f op v tv ev src jtr =>
    have hm2 := hm
    rw [show RTMapping (.conditional t f op v tv ev src jtr) =
      (lowerWord t && f.all isLowerWordChar &&
        (op == lit "==" || op == lit "!=" || op == lit ">" || op == lit "<") &&
        v.all (fun c => !(c == '"') && !(c == 'O') && !(c == '\n')) &&
        plainText tv && plainText ev && (src == none) &&
        (jtr == JTransform.absent)) from rfl] at hm2
    simp only [Bool.and_eq_true] at hm2
    obtain ⟨⟨⟨⟨⟨⟨⟨ht, hf⟩, hop⟩, hv⟩, htv⟩, hev⟩, _⟩, _⟩ := hm2
    have hopcases : op = lit "==" ∨ op = lit "!=" ∨ op = lit ">" ∨ op = lit "<" := by
      rcases Bool.or_eq_true_iff.mp hop with h1 | h1
      · rcases Bool.or_eq_true_iff.mp h1 with h2 | h2
        · rcases Bool.or_eq_true_iff.mp h2 with h3 | h3
          · exact Or.inl (by simpa using h3)
          · exact Or.inr (Or.inl (by simpa using h3))
        · exact Or.inr (Or.inr (Or.inl (by simpa using h2)))
      · exact Or.inr (Or.inr (Or.inr (by simpa using h1)))
    have hF : lowerWord (orDefault (some f) (lit "field")) = true := by
      refine orDefault_prop f (lit "field") (fun y => lowerWord y = true) ?_ (by decide)
      intro hne
      rw [lowerWord, hf, Bool.and_true]
      cases hfe : f.isEmpty
      · rfl
      · exfalso
        apply hne
        cases f
        · rfl
        · simp at hfe
    have hOPe : orDefault (some op) (lit "==") = op :=
      orDefault_some op _ (by rcases hopcases with rfl | rfl | rfl | rfl <;> decide)
    have hTVp : plainText (orDefault (some tv) (lit "value1")) = true :=
      orDefault_prop tv (lit "value1") (fun y => plainText y = true) (fun _ => htv) (by decide)
    have hEVp : plainText (orDefault (some ev) (lit "value2")) = true :=
      orDefault_prop ev (lit "value2") (fun y => plainText y = true) (fun _ => hev) (by decide)
    have hVp : ∀ c ∈ orDefault (some v) (lit "value"), ¬ c = '\n' := by
      refine orDefault_prop v (lit "value") (fun y => ∀ c ∈ y, ¬ c = '\n') ?_ (by decide)
      intro _ c hc
      exact (condValue_props hv c hc).2.2
    have hcode : ∀ c ∈ conditionalGenerate (.conditional t f op v tv ev src jtr),
        ¬ c = '\n' := by
      rw [conditionalGenerate_shape t f op v tv ev src jtr
        (contains_eq_false _ _ (fun c hc => (plainText_mem hTVp c hc).2.1))
        (contains_eq_false _ _ (fun c hc => (plainText_mem hEVp c hc).2.1))]
      exact condCode_no_nl _ _ _ _ _ hF (by rw [hOPe]; exact hopcases) hVp
        (fun c hc => (plainText_mem hTVp c hc).2.2.2)
        (fun c hc => (plainText_mem hEVp c hc).2.2.2)
    have hline : ∀ c ∈ assignmentLine t
        (conditionalGenerate (.conditional t f op v tv ev src jtr)), ¬ c = '\n' := by
      refine assignmentLine_no_nl _ _ ?_ hcode
      intro c hc
      exact ne_of_class ((lowerWord_mem ht).2 c hc) (by decide)
    have hfield : ∀ l ∈ fieldMappingLines (.conditional t f op v tv ev src jtr), ∀ c ∈ l,
        ¬ c = '\n' := by
      rw [fieldMappingLines_conditional t f op v tv ev src jtr (lowerWord_mem ht).1]
      intro l hl
      rcases List.mem_singleton.mp hl with rfl
      exact hline
    exact ⟨hfield, hfield⟩
  | moduleCall n =>
    have hn : lowerWord n = true := hm
    have hcomm : ∀ c ∈ lit "    # Call " ++ n ++ lit " module", ¬ c = '\n' := by
      intro c hc
      rcases List.mem_append.mp hc with h | h
      · rcases List.mem_append.mp h with h2 | h2
        · intro he
          rw [he] at h2
          exact (show ∀ y ∈ lit "    # Call ", ¬ y = '\n' from by decide) '\n' h2 rfl
        · exact ne_of_class ((lowerWord_mem hn).2 c h2) (by decide)
      · intro he
        rw [he] at h
        exact (show ∀ y ∈ lit " module", ¬ y = '\n' from by decide) '\n' h rfl
    have hcall : ∀ c ∈ lit "    map_" ++ n ++ lit "(INPUT, OUTPUT)", ¬ c = '\n' := by
      intro c hc
      rcases List.mem_append.mp hc with h | h
      · rcases List.mem_append.mp h with h2 | h2
        · intro he
          rw [he] at h2
          exact (show ∀ y ∈ lit "    map_", ¬ y = '\n' from by decide) '\n' h2 rfl
        · exact ne_of_class ((lowerWord_mem hn).2 c h2) (by decide)
      · intro he
        rw [he] at h
        exact (show ∀ y ∈ lit "(INPUT, OUTPUT)", ¬ y = '\n' from by decide) '\n' h rfl
    constructor
    · intro l hl
      rcases List.mem_cons.mp hl with rfl | h
      · exact hcomm
      rcases List.mem_singleton.mp h with rfl
      exact hcall
    · intro l hl
      rcases List.mem_cons.mp hl with rfl | h
      · exact hcomm
      rcases List.mem_cons.mp h with rfl | h2
      · exact hcall
      rcases List.mem_singleton.mp h2 with rfl
      intro c hc he
      rw [he] at hc
      exact (show ∀ y ∈ lit "    ", ¬ y = '\n' from by decide) '\n' hc rfl
  | forLoop t lv it => exact Bool.noConfusion hm
  | ifBlock t it c => exact Bool.noConfusion hm
  | breakStmt t => exact Bool.noConfusion hm
  | continueStmt t => exact Bool.noConfusion hm
  | datetimeParse t v s f => exact Bool.noConfusion hm
  | datetimeFormat t d f => exact Bool.noConfusion hm
  | datetimeAdd t v o a s => exact Bool.noConfusion hm
  | decimalMapping t o v s r v1 v2 d => exact Bool.noConfusion hm
  | regexMapping t o p s r => exact Bool.noConfusion hm
  | unknown k t => exact Bool.noConfusion hm

theorem generateLines_no_nl (M : List GModule) (hM : ∀ mod ∈ M, RTModule mod = true) :
    ∀ l ∈ generateLines M, ∀ c ∈ l, ¬ c = '\n' := by
  intro l hl
  rw [generateLines] at hl
  rcases List.mem_append.mp hl with h | h
  · rcases List.mem_append.mp h with h2 | h2
    · rcases List.mem_append.mp h2 with h3 | h3
      · intro c hc he
        rw [he] at hc
        revert h3
        have : ∀ l2 ∈ ([lit "#!/usr/bin/env python3", lit "# GRIZZLY_TEMPLATE_V1",
            lit "\"\"\"", lit "Generated by Grizzly", lit "\"\"\"", []] : List Str),
            ¬ '\n' ∈ l2 := by decide
        intro h3
        exact this l h3 hc
      · by_cases hreg : (M.any (fun mod => mod.mappings.any
            (fun m => m.transformationOf == some (lit "regex")))) = true
        · rw [if_pos hreg] at h3
          intro c hc he
          rw [he] at hc
          revert h3
          have : ∀ l2 ∈ ([lit "import re", []] : List Str), ¬ '\n' ∈ l2 := by decide
          intro h3
          exact this l h3 hc
        · rw [if_neg hreg] at h3
          cases h3
    · rcases List.mem_flatten.mp h2 with ⟨block, hblock, hlblock⟩
      rcases List.mem_map.mp hblock with ⟨mod, hmod, rfl⟩
      have hrt := hM mod hmod
      rw [RTModule, Bool.and_eq_true] at hrt
      obtain ⟨hname, hmaps⟩ := hrt
      rw [helperModuleLines] at hlblock
      by_cases hskip : (mod.name == lit "main" || mod.mappings.isEmpty) = true
      · rw [if_pos hskip] at hlblock
        cases hlblock
      · rw [if_neg hskip] at hlblock
        rcases List.mem_cons.mp hlblock with rfl | h4
        · intro c hc
          rcases List.mem_append.mp hc with h5 | h5
          · rcases List.mem_append.mp h5 with h6 | h6
            · intro he
              rw [he] at h6
              exact (show ∀ y ∈ lit "def map_", ¬ y = '\n' from by decide) '\n' h6 rfl
            · exact ne_of_class ((lowerWord_mem hname).2 c h6) (by decide)
          · intro he
            rw [he] at h5
            exact (show ∀ y ∈ lit "(INPUT, OUTPUT):", ¬ y = '\n' from by decide) '\n' h5 rfl
        rcases List.mem_cons.mp h4 with rfl | h5
        · intro c hc
          rcases List.mem_append.mp hc with h5 | h5
          · rcases List.mem_append.mp h5 with h6 | h6
            · intro he
              rw [he] at h6
              exact (show ∀ y ∈ lit "    \"\"\"", ¬ y = '\n' from by decide) '\n' h6 rfl
            · exact ne_of_class ((lowerWord_mem hname).2 c h6) (by decide)
          · intro he
            rw [he] at h5
            exact (show ∀ y ∈ lit " mappings\"\"\"", ¬ y = '\n' from by decide) '\n' h5 rfl
        rcases List.mem_append.mp h5 with h6 | h6
        · rcases List.mem_flatten.mp h6 with ⟨mls, hmls, hlm⟩
          rcases List.mem_map.mp hmls with ⟨m, hmm, rfl⟩
          exact (helper_lines_no_nl m (List.all_eq_true.mp hmaps m hmm)).1 l hlm
        · rcases List.mem_singleton.mp h6 with rfl
          intro c hc
          cases hc
  · rw [mainModuleLines] at h
    cases hfind : M.find? (fun mod => mod.name == lit "main") with
    | none =>
      rw [hfind] at h
      cases h
    | some mainMod =>
      rw [hfind] at h
      have hrt := hM mainMod (List.mem_of_find?_eq_some hfind)
      rw [RTModule, Bool.and_eq_true] at hrt
      obtain ⟨_, hmaps⟩ := hrt
      rcases List.mem_append.mp h with h2 | h2
      · rcases List.mem_append.mp h2 with h3 | h3
        · intro c hc he
          rw [he] at hc
          revert h3
          have : ∀ l2 ∈ ([lit "def transform(INPUT):", lit "    \"\"\"Main transformation\"\"\"",
              lit "    OUTPUT = \x7b\x7d", lit "    "] : List Str), ¬ '\n' ∈ l2 := by decide
          intro h3
          exact this l h3 hc
        · rcases List.mem_flatten.mp h3 with ⟨mls, hmls, hlm⟩
          rcases List.mem_map.mp hmls with ⟨m, hmm, rfl⟩
          exact (helper_lines_no_nl m (List.all_eq_true.mp hmaps m hmm)).2 l hlm
      · intro c hc he
        rw [he] at hc
        revert h2
        have : ∀ l2 ∈ ([lit "    ", lit "    return OUTPUT"] : List Str), ¬ '\n' ∈ l2 := by
          decide
        intro h2
        exact this l h2 hc

/-- Parsing the generated code of a round-trippable Model yields the
emitted helpers (in order) and a final `main` module, all equal to the
originals under the diff projection. -/
theorem parse_generate (M : List GModule) (hM : RTModel M = true) (mainMod : GModule)
    (hfind : M.find? (fun mod => mod.name == lit "main") = some mainMod) :
    ∃ P ms', P.map moduleProj = (helpersOf M).map moduleProj ∧
      ms'.map mapProj = mainMod.mappings.map mapProj ∧
      (parseTemplate (generateCode M)).modules = some (P ++ [⟨lit "main", ms'⟩]) := by
  have hall : ∀ mod ∈ M, RTModule mod = true := by
    rw [RTModel, Bool.and_eq_true] at hM
    exact List.all_eq_true.mp hM.1
  have hmainRT : RTModule mainMod = true :=
    hall mainMod (List.mem_of_find?_eq_some hfind)
  have hglne : generateLines M ≠ [] := by
    rw [generateLines]
    simp
  have hsj : splitOnChar '\n' (joinWithChar '\n' (generateLines M)) = generateLines M :=
    splitOnChar_joinWithChar '\n' (generateLines M) hglne (generateLines_no_nl M hall)
  have hstep : parseTemplate (generateCode M) = parseLines (generateLines M) := by
    rw [parseTemplate, generateCode, hsj]
  have hheader : ∀ st2 : ParseState,
      (([lit "#!/usr/bin/env python3", lit "# GRIZZLY_TEMPLATE_V1",
        lit "\"\"\"", lit "Generated by Grizzly", lit "\"\"\"", []] : List Str)).foldl
        parseLine st2 = st2 := by
    intro st2
    rw [List.foldl_cons, parseLine_noop st2 _ (by decide) (by decide) (by decide) (by decide)
      (by decide) (by decide) (by rfl)]
    rw [List.foldl_cons, parseLine_noop st2 _ (by decide) (by decide) (by decide) (by decide)
      (by decide) (by decide) (by rfl)]
    rw [List.foldl_cons, parseLine_noop st2 _ (by decide) (by decide) (by decide) (by decide)
      (by decide) (by decide) (by rfl)]
    rw [List.foldl_cons, parseLine_noop st2 _ (by decide) (by decide) (by decide) (by decide)
      (by decide) (by decide) (by rfl)]
    rw [List.foldl_cons, parseLine_noop st2 _ (by decide) (by decide) (by decide) (by decide)
      (by decide) (by decide) (by rfl)]
    rw [List.foldl_cons, parseLine_noop_empty st2 [] rfl]
    rfl
  have hlines : generateLines M =
      [lit "#!/usr/bin/env python3", lit "# GRIZZLY_TEMPLATE_V1",
       lit "\"\"\"", lit "Generated by Grizzly", lit "\"\"\"", []] ++
      ((M.map helperModuleLines).flatten ++ mainModuleLines M) := by
    rw [generateLines, RT_no_regex M hall]
    simp
  obtain ⟨P, hP, hflush⟩ := helpers_fold M ⟨[], none, 0⟩ hall
  obtain ⟨ms', tot, hproj, hmain⟩ :=
    main_block_fold (((M.map helperModuleLines).flatten).foldl parseLine ⟨[], none, 0⟩)
      mainMod hmainRT
  refine ⟨P, ms', hP, hproj, ?_⟩
  rw [hstep, parseLines]
  simp only [hlines, List.foldl_append, hheader]
  have hmlines : mainModuleLines M =
      [lit "def transform(INPUT):",
       lit "    \"\"\"Main transformation\"\"\"",
       lit "    OUTPUT = \x7b\x7d",
       lit "    "] ++
      (mainMod.mappings.map mainMappingLines).flatten ++
      [lit "    ", lit "    return OUTPUT"] := by
    rw [mainModuleLines, hfind]
  rw [hmlines]
  rw [hmain]
  have hfl : flushCurrent ⟨(flushCurrent
      (((M.map helperModuleLines).flatten).foldl parseLine ⟨[], none, 0⟩) : List GModule),
      some ⟨lit "main", ms'⟩, tot⟩ =
      flushCurrent (((M.map helperModuleLines).flatten).foldl parseLine ⟨[], none, 0⟩) ++
        [⟨lit "main", ms'⟩] := rfl
  simp only [hfl, hflush]
  have hfc0 : flushCurrent ⟨[], none, 0⟩ = [] := rfl
  rw [hfc0]
  simp only [List.nil_append]
  have hfc : flushCurrent ⟨P, some (⟨lit "main", ms'⟩ : GModule), tot⟩ =
      P ++ [⟨lit "main", ms'⟩] := rfl
  rw [hfc]
  rw [if_pos (by simp : (P ++ [(⟨lit "main", ms'⟩ : GModule)]).length > 0)]

/-!
## Diff-side stream lemmas -/

theorem diffKey_keyTail (name : Str) (m : Mapping) :
    diffKey name m = name ++ ':' :: keyTail m := by
  cases m with
  | moduleCall n =>
    rw [diffKey]
    split
    · show (name ++ lit ":call_") ++ _ = _
      rw [show (lit ":call_" : Str) = ':' :: lit "call_" from by decide]
      simp [keyTail, Mapping.moduleNameAttr]
    · rename_i h
      exact absurd (show ((Mapping.moduleCall n).typeOf == lit "module_call") = true from rfl) h
  | direct t s tr =>
    rw [diffKey]
    split
    · rename_i h
      exact Bool.noConfusion h
    · simp [keyTail, List.append_assoc]
  | conditional t f op v tv ev =>
    rw [diffKey]
    split
    · rename_i h
      exact Bool.noConfusion h
    · simp [keyTail, List.append_assoc]
  | forLoop t lv it =>
    rw [diffKey]
    split
    · rename_i h
      exact Bool.noConfusion h
    · simp [keyTail, List.append_assoc]
  | ifBlock t it c =>
    rw [diffKey]
    split
    · rename_i h
      exact Bool.noConfusion h
    · simp [keyTail, List.append_assoc]
  | breakStmt t =>
    rw [diffKey]
    split
    · rename_i h
      exact Bool.noConfusion h
    · simp [keyTail, List.append_assoc]
  | continueStmt t =>
    rw [diffKey]
    split
    · rename_i h
      exact Bool.noConfusion h
    · simp [keyTail, List.append_assoc]
  | datetimeParse t v s f =>
    rw [diffKey]
    split
    · rename_i h
      exact Bool.noConfusion h
    · simp [keyTail, List.append_assoc]
  | datetimeFormat t d f =>
    rw [diffKey]
    split
    · rename_i h
      exact Bool.noConfusion h
    · simp [keyTail, List.append_assoc]
  | datetimeAdd t v o a s =>
    rw [diffKey]
    split
    · rename_i h
      exact Bool.noConfusion h
    · simp [keyTail, List.append_assoc]
  | decimalMapping t o v s r v1 v2 d =>
    rw [diffKey]
    split
    · rename_i h
      exact Bool.noConfusion h
    · simp [keyTail, List.append_assoc]
  | regexMapping t o p2 s r =>
    rw [diffKey]
    split
    · rename_i h
      exact Bool.noConfusion h
    · simp [keyTail, List.append_assoc]
  | unknown k t =>
    rw [diffKey]
    split
    · rename_i h
      exact Bool.noConfusion h
    · simp [keyTail, List.append_assoc]

theorem beq_symm_false {a b : Str} (h : (a == b) = false) : (b == a) = false := by
  rw [beq_eq_false_iff_ne] at *
  exact fun he => h he.symm

theorem objLookup_insert (flat : List (Str × FlatEntry)) (k k2 : Str) (v : FlatEntry) :
    objLookup (objInsert flat k v) k2 =
      if (k2 == k) = true then some v else objLookup flat k2 := by
  rw [objInsert]
  by_cases hex : flat.any (fun p => p.1 == k) = true
  · rw [if_pos hex]
    by_cases hk : (k2 == k) = true
    · rw [if_pos hk]
      have hk2 : k2 = k := by simpa using hk
      subst hk2
      induction flat with
      | nil => simp at hex
      | cons q rest ih =>
        rw [List.map_cons, objLookup]
        by_cases hq : (q.1 == k2) = true
        · rw [if_pos hq]
          rw [List.find?_cons_of_pos _ (by simp)]
          rfl
        · rw [if_neg hq]
          have hq2 : (q.1 == k2) = false := by
            cases h2 : (q.1 == k2)
            · rfl
            · exact absurd h2 hq
          rw [List.find?_cons_of_neg _ (by simpa using hq)]
          have hex2 : rest.any (fun p => p.1 == k2) = true := by
            rw [List.any_cons] at hex
            rcases Bool.or_eq_true_iff.mp hex with h2 | h2
            · exact absurd h2 hq
            · exact h2
          have := ih hex2
          rw [objLookup] at this
          exact this
    · rw [if_neg hk]
      have hkf : (k2 == k) = false := by
        cases h2 : (k2 == k)
        · rfl
        · exact absurd h2 hk
      rw [objLookup, objLookup]
      have hfind : ∀ fl : List (Str × FlatEntry),
          (fl.map (fun p => if (p.1 == k) = true then (k, v) else p)).find?
            (fun p => p.1 == k2) = fl.find? (fun p => p.1 == k2) := by
        intro fl
        induction fl with
        | nil => rfl
        | cons q rest ih2 =>
          rw [List.map_cons]
          by_cases hq : (q.1 == k) = true
          · rw [if_pos hq]
            have hq2 : q.1 = k := by simpa using hq
            rw [List.find?_cons_of_neg _ (by simpa using beq_symm_false hkf),
              List.find?_cons_of_neg _ (by
                rw [hq2]
                simpa using beq_symm_false hkf)]
            exact ih2
          · rw [if_neg hq]
            rw [List.find?_cons, List.find?_cons, ih2]
      rw [hfind]
  · rw [if_neg hex]
    have hall : ∀ p ∈ flat, (p.1 == k) = false := by
      intro p hp
      cases h2 : (p.1 == k)
      · rfl
      · exact absurd (List.any_eq_true.mpr ⟨p, hp, h2⟩) hex
    by_cases hk : (k2 == k) = true
    · rw [if_pos hk]
      have hk2 : k2 = k := by simpa using hk
      subst hk2
      rw [objLookup, List.find?_append]
      have h1 : flat.find? (fun p => p.1 == k2) = none := by
        rw [List.find?_eq_none]
        intro p hp
        simpa using hall p hp
      rw [h1, Option.none_or]
      show Option.map (fun p => p.2) (List.find? (fun p => p.1 == k2) [(k2, v)]) = some v
      rw [List.find?_cons]
      simp
    · rw [if_neg hk]
      have hkf : (k2 == k) = false := by
        cases h2 : (k2 == k)
        · rfl
        · exact absurd h2 hk
      rw [objLookup, objLookup, List.find?_append]
      have h2 : ([(k, v)] : List (Str × FlatEntry)).find? (fun p => p.1 == k2) = none := by
        rw [List.find?_eq_none]
        intro p hp
        rcases List.mem_singleton.mp hp with rfl
        simpa using beq_symm_false hkf
      rw [h2, Option.or_none]

theorem getLast?_cons_or {α : Type} (a : α) (l : List α) :
    (a :: l).getLast? = l.getLast?.or (some a) := by
  cases h : l.getLast? with
  | none =>
    have : l = [] := by
      cases l
      · rfl
      · rw [List.getLast?_cons] at h
        cases h
    rw [this]
    rfl
  | some b =>
    rw [List.getLast?_cons, h]
    rfl

theorem lookup_foldl_insert : ∀ (stream : List (Str × FlatEntry))
    (acc : List (Str × FlatEntry)) (k : Str),
    objLookup (stream.foldl (fun a p => objInsert a p.1 p.2) acc) k =
      (((stream.filter (fun p => p.1 == k)).getLast?).map (fun p => p.2)).or
        (objLookup acc k) := by
  intro stream
  induction stream with
  | nil =>
    intro acc k
    rfl
  | cons p rest ih =>
    intro acc k
    rw [List.foldl_cons, ih, List.filter_cons]
    by_cases hp : (p.1 == k) = true
    · rw [if_pos hp]
      rw [getLast?_cons_or]
      cases hrest : (rest.filter (fun q => q.1 == k)).getLast? with
      | none =>
        rw [objLookup_insert, if_pos (by simpa using (beq_iff_eq.mp hp).symm)]
        rfl
      | some q => rfl
    · rw [if_neg hp]
      rw [objLookup_insert, if_neg (by
        intro h2
        exact hp (by simpa using (beq_iff_eq.mp h2).symm))]

theorem flattenModules_foldl (mods : List GModule) :
    flattenModules mods = (entryStream mods).foldl (fun a p => objInsert a p.1 p.2) [] := by
  rw [flattenModules, entryStream]
  generalize hacc : ([] : List (Str × FlatEntry)) = acc
  clear hacc
  induction mods generalizing acc with
  | nil => rfl
  | cons mod rest ih =>
    rw [List.foldl_cons, List.map_cons, List.flatten_cons, List.foldl_append, ih]
    congr 1
    rw [List.foldl_map]

theorem attrLookup_stream (mods : List GModule) (k : Str) :
    attrLookup mods k =
      (((aStream mods).filter (fun q => q.1 == k)).getLast?).map (fun q => q.2) := by
  rw [attrLookup, flattenModules_foldl, lookup_foldl_insert]
  rw [show objLookup [] k = none from rfl, Option.or_none]
  rw [aStream]
  rw [List.filter_map, List.getLast?_map, Option.map_map, Option.map_map]
  rfl

theorem objInsert_keys (flat : List (Str × FlatEntry)) (k : Str) (v : FlatEntry) :
    (objInsert flat k v).map Prod.fst = flat.map Prod.fst ∨
    ((objInsert flat k v).map Prod.fst = flat.map Prod.fst ++ [k] ∧
      ¬ k ∈ flat.map Prod.fst) := by
  rw [objInsert]
  by_cases hex : flat.any (fun p => p.1 == k) = true
  · rw [if_pos hex]
    left
    rw [List.map_map]
    apply List.map_congr_left
    intro p _
    by_cases hp : (p.1 == k) = true
    · have : p.1 = k := by simpa using hp
      simp [hp, Function.comp, this]
    · have hp2 : (p.1 == k) = false := by
        cases h2 : (p.1 == k)
        · rfl
        · exact absurd h2 hp
      simp [hp2, Function.comp]
  · rw [if_neg hex]
    right
    constructor
    · simp
    · intro hmem
      rcases List.mem_map.mp hmem with ⟨p, hp, hpk⟩
      exact hex (List.any_eq_true.mpr ⟨p, hp, by simp [hpk]⟩)

theorem foldl_insert_keys_nodup : ∀ (stream : List (Str × FlatEntry))
    (acc : List (Str × FlatEntry)), (acc.map Prod.fst).Nodup →
    (((stream.foldl (fun a p => objInsert a p.1 p.2) acc)).map Prod.fst).Nodup := by
  intro stream
  induction stream with
  | nil => intro acc h; exact h
  | cons p rest ih =>
    intro acc h
    rw [List.foldl_cons]
    refine ih _ ?_
    rcases objInsert_keys acc p.1 p.2 with h2 | ⟨h2, h3⟩
    · rw [h2]
      exact h
    · rw [h2]
      rw [List.nodup_append]
      refine ⟨h, by simp, ?_⟩
      intro a ha hb
      rcases List.mem_singleton.mp hb with rfl
      exact h3 ha

theorem mem_lookup_of_nodup : ∀ (flat : List (Str × FlatEntry)),
    (flat.map Prod.fst).Nodup → ∀ p ∈ flat, objLookup flat p.1 = some p.2 := by
  intro flat
  induction flat with
  | nil => intro _ p hp; cases hp
  | cons q rest ih =>
    intro hnd p hp
    rw [List.map_cons, List.nodup_cons] at hnd
    obtain ⟨hq, hrest⟩ := hnd
    rcases List.mem_cons.mp hp with rfl | hmem
    · rw [objLookup, List.find?_cons]
      simp
    · have hne : (q.1 == p.1) = false := by
        rw [beq_eq_false_iff_ne]
        intro he
        exact hq (by
          rw [he]
          exact List.mem_map.mpr ⟨p, hmem, rfl⟩)
      rw [objLookup]
      simp only [List.find?_cons, hne]
      have := ih hrest p hmem
      rw [objLookup] at this
      exact this

theorem aStream_moduleProj (mods : List GModule) :
    aStream mods = (mods.map (fun mod => (moduleProj mod).2.map
      (fun pr => ((moduleProj mod).1 ++ ':' :: pr.1, pr.2)))).flatten := by
  rw [aStream, entryStream, List.map_flatten, List.map_map]
  congr 1
  apply List.map_congr_left
  intro mod _
  rw [Function.comp, List.map_map]
  show mod.mappings.map _ = (mod.mappings.map mapProj).map _
  rw [List.map_map]
  apply List.map_congr_left
  intro m _
  rw [Function.comp]
  show (diffKey mod.name m, _) = (mod.name ++ ':' :: keyTail m, _)
  rw [diffKey_keyTail]
  rfl

theorem aStream_congr (X Y : List GModule) (h : X.map moduleProj = Y.map moduleProj) :
    aStream X = aStream Y := by
  rw [aStream_moduleProj, aStream_moduleProj]
  congr 1
  have hx : X.map (fun mod => (moduleProj mod).2.map
      (fun pr => ((moduleProj mod).1 ++ ':' :: pr.1, pr.2))) =
      (X.map moduleProj).map (fun mp => mp.2.map (fun pr => (mp.1 ++ ':' :: pr.1, pr.2))) := by
    rw [List.map_map]
    rfl
  have hy : Y.map (fun mod => (moduleProj mod).2.map
      (fun pr => ((moduleProj mod).1 ++ ':' :: pr.1, pr.2))) =
      (Y.map moduleProj).map (fun mp => mp.2.map (fun pr => (mp.1 ++ ':' :: pr.1, pr.2))) := by
    rw [List.map_map]
    rfl
  rw [hx, hy, h]

theorem aStream_append (X Y : List GModule) :
    aStream (X ++ Y) = aStream X ++ aStream Y := by
  rw [aStream_moduleProj, aStream_moduleProj, aStream_moduleProj, List.map_append,
    List.flatten_append]

theorem aStream_cons (mod : GModule) (rest : List GModule) :
    aStream (mod :: rest) = (moduleProj mod).2.map
      (fun pr => ((moduleProj mod).1 ++ ':' :: pr.1, pr.2)) ++ aStream rest := by
  rw [aStream_moduleProj, List.map_cons, List.flatten_cons, ← aStream_moduleProj]

theorem aStream_helpersOf (X : List GModule)
    (hnm : ∀ mod ∈ X, (mod.name == lit "main") = false) :
    aStream (helpersOf X) = aStream X := by
  induction X with
  | nil => rfl
  | cons mod rest ih =>
    have hmain := hnm mod (by simp)
    have hrest : ∀ x ∈ rest, (x.name == lit "main") = false :=
      fun x hx => hnm x (by simp [hx])
    rw [aStream_cons]
    rw [show helpersOf (mod :: rest) =
        (if (!(mod.name == lit "main") && !mod.mappings.isEmpty) = true
         then mod :: helpersOf rest else helpersOf rest) from by
      rw [helpersOf, List.filter_cons]
      rfl]
    by_cases hemp : mod.mappings.isEmpty = true
    · rw [if_neg (by rw [hmain, hemp]; exact Bool.false_ne_true)]
      rw [ih hrest]
      have : (moduleProj mod).2 = [] := by
        show mod.mappings.map mapProj = []
        cases hmm : mod.mappings
        · rfl
        · rw [hmm] at hemp
          cases hemp
      rw [this]
      rfl
    · have hemp2 : mod.mappings.isEmpty = false := by
        cases h2 : mod.mappings.isEmpty
        · rfl
        · exact absurd h2 hemp
      rw [if_pos (by rw [hmain, hemp2]; rfl)]
      rw [aStream_cons, ih hrest]

theorem aStream_key_shape (X : List GModule) :
    ∀ q ∈ aStream X, ∃ mod, mod ∈ X ∧ ∃ tl, q.1 = mod.name ++ ':' :: tl := by
  intro q hq
  rw [aStream_moduleProj] at hq
  rcases List.mem_flatten.mp hq with ⟨l, hl, hql⟩
  rcases List.mem_map.mp hl with ⟨mod, hmod, rfl⟩
  rcases List.mem_map.mp hql with ⟨pr, _, rfl⟩
  exact ⟨mod, hmod, pr.1, rfl⟩

theorem colon_inj : ∀ (n1 n2 t1 t2 : Str), (∀ c ∈ n1, ¬ c = ':') → (∀ c ∈ n2, ¬ c = ':') →
    n1 ++ ':' :: t1 = n2 ++ ':' :: t2 → n1 = n2 := by
  intro n1
  induction n1 with
  | nil =>
    intro n2 t1 t2 _ hn2 heq
    cases n2 with
    | nil => rfl
    | cons c2 r2 =>
      exfalso
      simp only [List.nil_append, List.cons_append] at heq
      injection heq with h1 _
      exact hn2 c2 (by simp) h1.symm
  | cons c1 r1 ih =>
    intro n2 t1 t2 hn1 hn2 heq
    cases n2 with
    | nil =>
      exfalso
      simp only [List.nil_append, List.cons_append] at heq
      injection heq with h1 _
      exact hn1 c1 (by simp) h1
    | cons c2 r2 =>
      simp only [List.cons_append] at heq
      injection heq with h1 h2
      rw [h1, ih r2 t1 t2 (fun c hc => hn1 c (by simp [hc])) (fun c hc => hn2 c (by simp [hc])) h2]

theorem last_filter_rearrange {α : Type} (SA SM SB : List (Str × α)) (k : Str)
    (hsep : SM.filter (fun q => q.1 == k) = [] ∨
      (SA.filter (fun q => q.1 == k) = [] ∧ SB.filter (fun q => q.1 == k) = [])) :
    ((SA ++ (SM ++ SB)).filter (fun q => q.1 == k)).getLast? =
    (((SA ++ SB) ++ SM).filter (fun q => q.1 == k)).getLast? := by
  rw [List.filter_append, List.filter_append, List.filter_append, List.filter_append]
  rcases hsep with h | ⟨h1, h2⟩
  · rw [h]
    simp
  · rw [h1, h2]
    simp

theorem attrsDiffer_false_of_eq (a b : Mapping)
    (h : (a.sourceAttr, a.transformationOf, a.transformProp, a.moduleNameAttr) =
         (b.sourceAttr, b.transformationOf, b.transformProp, b.moduleNameAttr)) :
    attrsDiffer a b = false := by
  rw [Prod.mk.injEq, Prod.mk.injEq, Prod.mk.injEq] at h
  obtain ⟨h1, h2, h3, h4⟩ := h
  rw [attrsDiffer, h1, h2, h3, h4]
  simp

theorem helpersOf_append (X Y : List GModule) :
    helpersOf (X ++ Y) = helpersOf X ++ helpersOf Y := by
  rw [helpersOf, helpersOf, helpersOf, List.filter_append]

theorem helpersOf_main_cons (mainMod : GModule) (Y : List GModule)
    (hname : mainMod.name = lit "main") :
    helpersOf (mainMod :: Y) = helpersOf Y := by
  rw [helpersOf, List.filter_cons]
  have : (!(mainMod.name == lit "main") && !mainMod.mappings.isEmpty) = false := by
    rw [hname]
    simp
  rw [this]
  rfl

theorem main_colon_free : ∀ c ∈ lit "main", ¬ c = ':' := by decide

theorem lowerWord_colon_free {s : Str} (h : lowerWord s = true) : ∀ c ∈ s, ¬ c = ':' := by
  intro c hc
  rw [lowerWord, Bool.and_eq_true] at h
  exact ne_of_class (List.all_eq_true.mp h.2 c hc) (by decide)

theorem rt_attr_agree (M A B : List GModule) (mainMod : GModule)
    (P : List GModule) (ms' : List Mapping)
    (hdecomp : M = A ++ mainMod :: B)
    (hnames : ∀ mod ∈ M, lowerWord mod.name = true)
    (hAmf : ∀ mod ∈ A, (mod.name == lit "main") = false)
    (hBmf : ∀ mod ∈ B, (mod.name == lit "main") = false)
    (hmain : mainMod.name = lit "main")
    (hP : P.map moduleProj = (helpersOf M).map moduleProj)
    (hproj : ms'.map mapProj = mainMod.mappings.map mapProj) :
    ∀ k, attrLookup M k = attrLookup (P ++ [⟨lit "main", ms'⟩]) k := by
  intro k
  rw [attrLookup_stream, attrLookup_stream]
  have hSM : aStream M = aStream A ++ (aStream [mainMod] ++ aStream B) := by
    rw [hdecomp, show mainMod :: B = [mainMod] ++ B from rfl, aStream_append, aStream_append]
  have hsP : aStream P = aStream A ++ aStream B := by
    rw [aStream_congr P (helpersOf M) hP, hdecomp, helpersOf_append,
      helpersOf_main_cons _ _ hmain, aStream_append,
      aStream_helpersOf A hAmf, aStream_helpersOf B hBmf]
  have hmm : aStream [(⟨lit "main", ms'⟩ : GModule)] = aStream [mainMod] := by
    apply aStream_congr
    rw [List.map_singleton, List.map_singleton]
    show [((lit "main" : Str), ms'.map mapProj)] = [(mainMod.name, mainMod.mappings.map mapProj)]
    rw [hmain, hproj]
  have hSP : aStream (P ++ [(⟨lit "main", ms'⟩ : GModule)]) =
      (aStream A ++ aStream B) ++ aStream [mainMod] := by
    rw [aStream_append, hsP, hmm]
  rw [hSM, hSP]
  congr 1
  apply last_filter_rearrange
  by_cases hm : (aStream [mainMod]).filter (fun q => q.1 == k) = []
  · exact Or.inl hm
  · right
    obtain ⟨q, hq⟩ := List.exists_mem_of_ne_nil _ hm
    rw [List.mem_filter] at hq
    obtain ⟨hqmem, hqk⟩ := hq
    obtain ⟨tl, hk⟩ : ∃ tl, k = lit "main" ++ ':' :: tl := by
      rcases aStream_key_shape [mainMod] q hqmem with ⟨mod, hmod, tl, hsh⟩
      have hme : mod = mainMod := by simpa using hmod
      subst hme
      refine ⟨tl, ?_⟩
      rw [← (beq_iff_eq.mp hqk), hsh, hmain]
    have hside : ∀ (X : List GModule), (∀ mod ∈ X, mod ∈ M) →
        (∀ mod ∈ X, (mod.name == lit "main") = false) →
        (aStream X).filter (fun q => q.1 == k) = [] := by
      intro X hXM hXmf
      rw [List.filter_eq_nil_iff]
      intro r hr
      rcases aStream_key_shape X r hr with ⟨mod, hmod, tl2, hsh⟩
      intro hrk
      have hrk2 : r.1 = k := by simpa using hrk
      rw [hsh, hk] at hrk2
      have hnm := colon_inj mod.name (lit "main") tl2 tl
        (lowerWord_colon_free (hnames mod (hXM mod hmod))) main_colon_free hrk2
      have := hXmf mod hmod
      rw [hnm] at this
      simp at this
    refine ⟨hside A ?_ hAmf, hside B ?_ hBmf⟩
    · intro mod hmod
      rw [hdecomp]
      exact List.mem_append.mpr (Or.inl hmod)
    · intro mod hmod
      rw [hdecomp]
      exact List.mem_append.mpr (Or.inr (List.mem_cons.mpr (Or.inr hmod)))

theorem calculateChanges_closed (origM currM : List GModule) :
    calculateChanges (some origM) currM =
      { added := (flattenModules currM).filter
          (fun p => (objLookup (flattenModules origM) p.1).isNone) |>.map (fun p => p.2),
        removed := (flattenModules origM).filter
          (fun p => (objLookup (flattenModules currM) p.1).isNone) |>.map (fun p => p.2),
        modified := (flattenModules currM).filterMap (fun p =>
          match objLookup (flattenModules origM) p.1 with
          | some o => if attrsDiffer p.2.mapping o.mapping then some (p.2, o) else none
          | none => none),
        unchanged := (flattenModules currM).filterMap (fun p =>
          match objLookup (flattenModules origM) p.1 with
          | some o => if attrsDiffer p.2.mapping o.mapping then none else some p.2
          | none => none) } := by
  rw [calculateChanges]
  rw [diffFold1, diffFold2]
  simp

theorem flattenModules_keys_nodup (mods : List GModule) :
    ((flattenModules mods).map Prod.fst).Nodup := by
  rw [flattenModules_foldl]
  exact foldl_insert_keys_nodup (entryStream mods) [] (by simp)

/-- C1: Round trip up to the diff engine, on the round-trippable subset
`RTModel` (the claim's full quantification is refuted by
`roundTrip_counterexamples`: a dotted source is truncated, an absent
`transform` comes back `null`, a residual conditional `source: ""`
comes back absent, three of the six named transforms generate the
unparseable call form, and a dotted branch value turns a conditional
into a direct mapping).  For a Model whose modules have lower-case
identifier names with exactly one module named `main`, whose direct
mappings have lower-case dotted targets, transforms among
`null`/`upper`/`lower`/`capitalize`, and lower-case sources (dot-free
when the target is single-segment), whose conditionals carry the
parser's own presence pattern (no residual `source` or `transform`
property) with lower-case single-segment targets, lower-case field
names, operators among `==`/`!=`/`>`/`<`, and quote-, dot-, `O`- and
newline-free branch values, and whose module calls name lower-case
callees, `parseTemplate (generateCode M)` returns a module list that
`calculateChanges` classifies against `M` with no added, removed or
modified entries. -/
theorem roundTrip_unchanged (M : List GModule) (hM : RTModel M = true) :
    ∃ Pmods, (parseTemplate (generateCode M)).modules = some Pmods ∧
      (calculateChanges (some M) Pmods).added = [] ∧
      (calculateChanges (some M) Pmods).removed = [] ∧
      (calculateChanges (some M) Pmods).modified = [] := by
  obtain ⟨mainMod, hfind, hmainName, hmainRT⟩ := RTModel_find_main M hM
  obtain ⟨P, ms', hP, hproj, hparse⟩ := parse_generate M hM mainMod hfind
  refine ⟨P ++ [⟨lit "main", ms'⟩], hparse, ?_⟩
  obtain ⟨hpred, A, B, hdecomp, hApre⟩ := List.find?_eq_some.mp hfind
  have hAmf : ∀ mod ∈ A, (mod.name == lit "main") = false := by
    intro mod hmod
    have := hApre mod hmod
    simpa using this
  have hBmf : ∀ mod ∈ B, (mod.name == lit "main") = false := by
    have hcount : M.countP (fun mod => mod.name == lit "main") = 1 := by
      rw [RTModel, Bool.and_eq_true] at hM
      simpa using hM.2
    rw [hdecomp, List.countP_append, List.countP_cons] at hcount
    rw [hpred, if_pos rfl] at hcount
    have hB0 : B.countP (fun mod => mod.name == lit "main") = 0 := by omega
    intro mod hmod
    have := List.countP_eq_zero.mp hB0 mod hmod
    simpa using this
  have hnames : ∀ mod ∈ M, lowerWord mod.name = true := by
    intro mod hmod
    rw [RTModel, Bool.and_eq_true] at hM
    have := List.all_eq_true.mp hM.1 mod hmod
    rw [RTModule, Bool.and_eq_true] at this
    exact this.1
  have hagree := rt_attr_agree M A B mainMod P ms' hdecomp hnames hAmf hBmf hmainName hP hproj
  have hndC := flattenModules_keys_nodup (P ++ [⟨lit "main", ms'⟩])
  have hndO := flattenModules_keys_nodup M
  have hlookPm := mem_lookup_of_nodup _ hndC
  have hlookM := mem_lookup_of_nodup _ hndO
  have hform := calculateChanges_closed M (P ++ [⟨lit "main", ms'⟩])
  have hcurr : ∀ p ∈ flattenModules (P ++ [⟨lit "main", ms'⟩]),
      ∃ o, objLookup (flattenModules M) p.1 = some o ∧
        (o.mapping.sourceAttr, o.mapping.transformationOf,
         o.mapping.transformProp, o.mapping.moduleNameAttr) =
        (p.2.mapping.sourceAttr, p.2.mapping.transformationOf,
         p.2.mapping.transformProp, p.2.mapping.moduleNameAttr) := by
    intro p hp
    have h1 : attrLookup (P ++ [⟨lit "main", ms'⟩]) p.1 =
        some (p.2.mapping.sourceAttr, p.2.mapping.transformationOf,
          p.2.mapping.transformProp, p.2.mapping.moduleNameAttr) := by
      rw [attrLookup, hlookPm p hp]
      rfl
    have h2 := (hagree p.1).trans h1
    rw [attrLookup] at h2
    exact Option.map_eq_some'.mp h2
  refine ⟨?_, ?_, ?_⟩
  · rw [hform]
    have hfa : (flattenModules (P ++ [⟨lit "main", ms'⟩])).filter
        (fun p => (objLookup (flattenModules M) p.1).isNone) = [] := by
      rw [List.filter_eq_nil_iff]
      intro p hp
      obtain ⟨o, ho, _⟩ := hcurr p hp
      rw [ho]
      simp
    simp only [hfa, List.map_nil]
  · rw [hform]
    have hfr : (flattenModules M).filter
        (fun p => (objLookup (flattenModules (P ++ [⟨lit "main", ms'⟩])) p.1).isNone) = [] := by
      rw [List.filter_eq_nil_iff]
      intro p hp
      have h1 : attrLookup M p.1 =
          some (p.2.mapping.sourceAttr, p.2.mapping.transformationOf,
            p.2.mapping.transformProp, p.2.mapping.moduleNameAttr) := by
        rw [attrLookup, hlookM p hp]
        rfl
      have h2 := (hagree p.1).symm.trans h1
      rw [attrLookup] at h2
      obtain ⟨o, ho, _⟩ := Option.map_eq_some'.mp h2
      rw [ho]
      simp
    simp only [hfr, List.map_nil]
  · rw [hform]
    have hfm : (flattenModules (P ++ [⟨lit "main", ms'⟩])).filterMap (fun p =>
        match objLookup (flattenModules M) p.1 with
        | some o => if attrsDiffer p.2.mapping o.mapping then some (p.2, o) else none
        | none => none) = [] := by
      rw [List.filterMap_eq_nil_iff]
      intro p hp
      obtain ⟨o, ho, hattr⟩ := hcurr p hp
      simp only [ho]
      rw [attrsDiffer_false_of_eq p.2.mapping o.mapping hattr.symm]
      rfl
    simp only [hfm]

/-- The original C1 quantification fails in several reachable ways,
each forcing one restriction of the round-trippable subset below.
(1) A dotted source under a single-segment target: `source = "a.b"`
generates `    OUTPUT["x"] = INPUT.a.b`, whose lazily matched source
group is re-parsed as `a` only — reported modified.
(2) A direct mapping without a `transform` property (as `addMapping`
and `autoMap` build them) is re-parsed with `transform: null`, and
`null !== undefined` — reported modified.
(3) A UI-built conditional keeps the residual `source: ""` through
`updateMapping`'s merge; the re-parsed conditional carries no
`source` property, and `"" !== undefined` — reported modified.
(4) `format_ssn`, one of the six named transforms of the
`DirectEditor` select, generates the call form `format_ssn(INPUT.s)`,
which no assignment pattern recognizes — the mapping is lost and
reported removed.
(5) A conditional branch value containing a dot renders as
`INPUT.a.b`, and the *simple* assignment pattern captures the line
first: the mapping comes back as a direct one — reported modified. -/
theorem roundTrip_counterexamples :
    ((parseTemplate (generateCode dottedSourceModel)).modules =
        some [⟨lit "main", [.direct (lit "x") (lit "a") .null]⟩] ∧
      (calculateChanges (some dottedSourceModel)
        [⟨lit "main", [.direct (lit "x") (lit "a") .null]⟩]).modified ≠ []) ∧
    ((parseTemplate (generateCode undefTransformModel)).modules =
        some [⟨lit "main", [.direct (lit "x") (lit "src") .null]⟩] ∧
      (calculateChanges (some undefTransformModel)
        [⟨lit "main", [.direct (lit "x") (lit "src") .null]⟩]).modified ≠ []) ∧
    ((parseTemplate (generateCode residualSourceModel)).modules =
        some [⟨lit "main", [.conditional (lit "t") (lit "f") (lit "==") (lit "1")
            (lit "\"yes") (lit "\"no") none .absent]⟩] ∧
      (calculateChanges (some residualSourceModel)
        [⟨lit "main", [.conditional (lit "t") (lit "f") (lit "==") (lit "1")
            (lit "\"yes") (lit "\"no") none .absent]⟩]).modified ≠ []) ∧
    ((parseTemplate (generateCode formatSsnModel)).modules =
        some [⟨lit "main", []⟩] ∧
      (calculateChanges (some formatSsnModel) [⟨lit "main", []⟩]).removed ≠ []) ∧
    ((parseTemplate (generateCode dottedBranchModel)).modules =
        some [⟨lit "main", [.direct (lit "t") (lit "a") .null]⟩] ∧
      (calculateChanges (some dottedBranchModel)
        [⟨lit "main", [.direct (lit "t") (lit "a") .null]⟩]).modified ≠ []) := by
  exact ⟨⟨by decide, by decide⟩, ⟨by decide, by decide⟩, ⟨by decide, by decide⟩,
    ⟨by decide, by decide⟩, ⟨by decide, by decide⟩⟩

theorem roundTrip_unchanged_witness :
    RTModel rtWitnessModel = true ∧
    (∃ Pmods, (parseTemplate (generateCode rtWitnessModel)).modules = some Pmods ∧
      (calculateChanges (some rtWitnessModel) Pmods).added = [] ∧
      (calculateChanges (some rtWitnessModel) Pmods).removed = [] ∧
      (calculateChanges (some rtWitnessModel) Pmods).modified = []) :=
  ⟨by decide, roundTrip_unchanged rtWitnessModel (by decide)⟩
